import Mathlib

/-!
# IaCa: persisting items and values in JSON

A shallow embedding of `src/persistjson.c`: the loader (`iaca_retrieve_loaded_item`,
`iaca_json_to_value`, `iaca_load_item_pay_load`, `iaca_load_item_content`) and the dumper
(`iaca_dump_queue_item`, `iaca_dump_scan_value`, `iaca_dump_scan_item_content`,
`iaca_dump_scan_loop`, `iaca_dump_value_json`, `iaca_dump_item_pay_load_json`,
`iaca_dump_item_content_json`).

Conventions of the embedding.

* Items live in a heap (`Heap`), a list of `iacaitem_st` cells; an `IacaItem *` is the index
  of its cell, a nullable pointer is an `Option`.
* The other values (integers, strings, nodes, sets) are immutable and are embedded as an
  inductive type, the null `IacaValue *` being the constructor `IacaValue.null`.
* The loader threads a `LoadState` (heap, the global `iaca`, the loader structure); a
  `longjmp` raised by `iaca_json_error_printf` is the result `Outcome.json_error`.
* Machine integers (`int64_t`, `long long`, `json_int_t`) are `Int`; the only arithmetic the
  file does on identities is the remainder of `iaca_item_ghash`.
* C strings are `String`; the text of a buffer payload is a `List Char` so that the bytes
  overwritten by the dumper can be followed.
-/

namespace IaCa

/-! ## JANSSON -/

/-- The JSON values of JANSSON (`json_t`). An object keeps its members in insertion order;
the number held by a real is never read by `persistjson.c`. -/
inductive json_t where
  | object (members : List (String × json_t))
  | array (elems : List json_t)
  | string (s : String)
  | integer (n : Int)
  | real
  | jtrue
  | jfalse
  | null
  deriving Repr, Inhabited

/-- JANSSON `json_is_object`, false on the null pointer. -/
def json_is_object : Option json_t → Bool
  | some (.object _) => true
  | _ => false

/-- JANSSON `json_is_array`, false on the null pointer. -/
def json_is_array : Option json_t → Bool
  | some (.array _) => true
  | _ => false

/-- JANSSON `json_is_integer`, false on the null pointer. -/
def json_is_integer : Option json_t → Bool
  | some (.integer _) => true
  | _ => false

/-- JANSSON `json_is_null`: the JSON null value (not the null pointer). -/
def json_is_null : Option json_t → Bool
  | some .null => true
  | _ => false

/-- JANSSON `json_object_get`: the member of that key, the null pointer when the key is
absent or the value is not an object. -/
def json_object_get (js : Option json_t) (key : String) : Option json_t :=
  match js with
  | some (.object members) => members.lookup key
  | _ => none

/-- JANSSON `json_string_value`: the null pointer unless the value is a string. -/
def json_string_value : Option json_t → Option String
  | some (.string s) => some s
  | _ => none

/-- JANSSON `json_integer_value`: 0 unless the value is an integer. -/
def json_integer_value : Option json_t → Int
  | some (.integer n) => n
  | _ => 0

/-- The elements visited by `for (ix = 0; ix < json_array_size (a); ix++) json_array_get (a, ix)`:
none when the value is not an array (`json_array_size` is then 0). -/
def json_array_elems : Option json_t → List json_t
  | some (.array elems) => elems
  | _ => []

/-- JANSSON `json_array_size`. -/
def json_array_size (js : Option json_t) : Nat :=
  (json_array_elems js).length

/-- The members visited by `json_object_iter` and `json_object_iter_next`. -/
def json_object_members : Option json_t → List (String × json_t)
  | some (.object members) => members
  | _ => []

/-- Replace the value of the first member of the given key, or add the member at the end. -/
def members_set (key : String) (value : json_t) : List (String × json_t) → List (String × json_t)
  | [] => [(key, value)]
  | kv :: rest => if kv.1 == key then (key, value) :: rest else kv :: members_set key value rest

/-- JANSSON `json_object_set`: nothing is done with a null value pointer or on a non-object. -/
def json_object_set (js : json_t) (key : String) (value : Option json_t) : json_t :=
  match js, value with
  | .object members, some v => .object (members_set key v members)
  | js, _ => js

/-- JANSSON `json_array_append_new`: nothing is done with a null value pointer. -/
def json_array_append_new (js : json_t) (value : Option json_t) : json_t :=
  match js, value with
  | .array elems, some v => .array (elems ++ [v])
  | js, _ => js

/-! ## GLib hash tables -/

/-- The hash value under which GLib stores and looks up a key (`HASH_IS_REAL` in `ghash.c`):
the values 0 and 1 mark the unused and the removed slots of a table, so a key whose hash is 0
or 1 goes under the hash 2. -/
def g_hash_real (hash_value : Nat) : Nat :=
  if hash_value < 2 then 2 else hash_value

/-- GLib `g_hash_table_lookup` on a table created with `g_hash_table_new (hash_func,
key_equal_func)`: the value of an entry whose key has the stored hash of the looked-up key
and is equal to it according to `key_equal_func (stored key, looked-up key)`; the null
pointer when there is none. The table is the list of its entries. -/
def g_hash_table_lookup {κ ν : Type} (hash_func : κ → Nat) (key_equal_func : κ → κ → Bool)
    (tab : List (κ × ν)) (key : κ) : Option ν :=
  (tab.find? fun e =>
    g_hash_real (hash_func e.1) == g_hash_real (hash_func key) && key_equal_func e.1 key).map
    (·.2)

/-- GLib `g_hash_table_insert`: the value of an entry with an equal key is replaced (its key
is kept), otherwise an entry is added. -/
def g_hash_table_insert {κ ν : Type} (hash_func : κ → Nat) (key_equal_func : κ → κ → Bool) :
    List (κ × ν) → κ → ν → List (κ × ν)
  | [], key, value => [(key, value)]
  | e :: rest, key, value =>
    if g_hash_real (hash_func e.1) == g_hash_real (hash_func key) && key_equal_func e.1 key then
      (e.1, value) :: rest
    else e :: g_hash_table_insert hash_func key_equal_func rest key value

/-- GLib `g_direct_hash` on a pointer (here an address). -/
def g_direct_hash (p : Nat) : Nat := p

/-- GLib `g_direct_equal`: equality of pointers. -/
def g_direct_equal (p1 p2 : Nat) : Bool := p1 == p2

/-! ## Data model -/

/-- The kind tags `persistjson.c` tests (`enum iacavaluekind_en`). -/
inductive iacavaluekind_en where
  | IACAV_INTEGER
  | IACAV_STRING
  | IACAV_NODE
  | IACAV_SET
  | IACAV_ITEM
  deriving DecidableEq, Repr, Inhabited

/-- A dataspace (`struct iacadataspace_st`), known by its name: the registry keeps one
dataspace for each name. -/
structure iacadataspace_st where
  dsp_name : String
  deriving DecidableEq, Repr, Inhabited

/-- What an `IacaValue *` points to. `null` is the null pointer; a node refers to its
connective and a set to its elements by address (`IacaItem *`, possibly null); `item p` is a
pointer to the item at address `p`. The `default:` branches of `persistjson.c` (any other
kind tag is an `iaca_error`) have no counterpart on this type. -/
inductive IacaValue where
  | null
  | integer (v_num : Int)
  | string (v_str : String)
  | node (v_conn : Option Nat) (v_sons : List IacaValue)
  | set (v_elements : List (Option Nat))
  | item (p : Nat)
  deriving Repr, Inhabited

/-- A closure function descriptor (`struct iacaclofun_st`) as far as the loader and the
dumper read it: its name and the number of closed values. -/
structure iacaclofun_st where
  cfun_name : String
  cfun_nbval : Nat
  deriving DecidableEq, Repr, Inhabited

/-- A buffer payload (`struct iacapayloadbuffer_st`): `buf_tab` is the character array up to
the NUL that ends it, `buf_len` the recorded length. -/
structure iacapayloadbuffer_st where
  buf_len : Nat
  buf_tab : List Char
  deriving DecidableEq, Repr, Inhabited

/-- A closure payload (`struct iacapayloadclosure_st`). -/
structure iacapayloadclosure_st where
  clo_fun : Option iacaclofun_st
  clo_valtab : List IacaValue
  deriving Repr, Inhabited

/-- An entry of a dictionnary payload (`dic_tab[ix]`): `de_str` may be the null pointer. -/
structure iacadictentry_st where
  de_str : Option String
  de_val : IacaValue
  deriving Repr, Inhabited

/-- The payload of an item: `v_payloadkind` together with the pointer of the union that the
kind selects (null pointers as `none`). -/
inductive Payload where
  | IACAPAYLOAD__NONE
  | IACAPAYLOAD_VECTOR (vec : List IacaValue)
  | IACAPAYLOAD_BUFFER (buf : Option iacapayloadbuffer_st)
  | IACAPAYLOAD_QUEUE (que : Option (List IacaValue))
  | IACAPAYLOAD_DICTIONNARY (dic : Option (List iacadictentry_st))
  | IACAPAYLOAD_CLOSURE (clo : Option iacapayloadclosure_st)
  deriving Repr, Inhabited

/-- An item (`struct iacaitem_st`). The attribute table is the list of its entries, keyed by
the address of the attribute item; the null table is the empty list. -/
structure iacaitem_st where
  v_kind : iacavaluekind_en
  v_ident : Int
  v_dataspace : Option iacadataspace_st
  v_attrtab : List (Nat × IacaValue)
  v_payload : Payload
  v_itemcontent : IacaValue
  deriving Repr, Inhabited

/-- The memory holding the items: the cell of address `a` is `hp[a]`. -/
abbrev Heap := List iacaitem_st

/-- The identity read through an item pointer (`itm->v_ident`); 0 for an address outside
the heap. -/
def Heap.ident (hp : Heap) (a : Nat) : Int :=
  match hp[a]? with
  | some it => it.v_ident
  | none => 0

/-- Overwrite the cell of address `a` with `f` applied to it. -/
def Heap.modify (hp : Heap) (a : Nat) (f : iacaitem_st → iacaitem_st) : Heap :=
  match hp[a]? with
  | some it => hp.set a (f it)
  | none => hp

/-- The global `iaca` as far as the loader uses it: the last identity given to an item and
the registered closure functions. -/
structure iaca_st where
  ia_item_last_ident : Int
  ia_clofuns : List iacaclofun_st
  deriving Repr, Inhabited

/-- What the hash and equality functions of the loader's table read through a non-null
`const IacaItem *`: where it points (`none` for the automatic variable `itmst`) and the
identity stored there. -/
structure ItemKey where
  addr : Option Nat
  v_ident : Int
  deriving DecidableEq, Repr, Inhabited

/-- The loader (`struct iacaloader_st`): the table of loaded items (keys and values are the
loaded items), the message of the last error and the current dataspace. -/
structure iacaloader_st where
  ld_itemhtab : Option (List (ItemKey × Nat))
  ld_errstr : Option String
  ld_dataspace : Option iacadataspace_st
  deriving Repr, Inhabited

/-- The state a load works on. -/
structure LoadState where
  heap : Heap
  iaca : iaca_st
  ld : iacaloader_st
  deriving Repr, Inhabited

/-- The result of a loader routine: it returns (`ok`), raises a JSON error with `longjmp`
after recording its message (`json_error`), or stops the program (`fatal`: an `iaca_error`
or the use of a null pointer). The state reached is kept in each case. -/
inductive Outcome (α : Type) where
  | ok (val : α) (st : LoadState)
  | json_error (st : LoadState)
  | fatal (msg : String) (st : LoadState)
  deriving Repr

/-- The state in which a routine ended. -/
def Outcome.state {α : Type} : Outcome α → LoadState
  | .ok _ st => st
  | .json_error st => st
  | .fatal _ st => st

/-- The dumper (`struct iacadumper_st`): the queue of items to scan, the table of the items
being dumped (created with `g_direct_hash` and `g_direct_equal`) and the current item. -/
structure iacadumper_st where
  du_scanqueue : List Nat
  du_itemhtab : List (Nat × Nat)
  du_curitem : Option Nat
  deriving DecidableEq, Repr, Inhabited

/-! ## The helpers of `iaca.h`

`iaca.h` is not among the sources: its constructors and accessors are modelled from the
data model and the item store operations of the specification. -/

/-- Modelled from the spec: `iacav_integer_make` of the absent `iaca.h`, the integer value of
the given number. -/
def iacav_integer_make (n : Int) : IacaValue := .integer n

/-- Modelled from the spec: `iacav_string_make` of the absent `iaca.h`, the string value of
the given immutable character sequence. -/
def iacav_string_make (s : String) : IacaValue := .string s

/-- Modelled from the spec: `iaca_node_make` of the absent `iaca.h`, the node of the given
connective whose sons are, once the loop of the caller has filled them, the given values. -/
def iaca_node_make (conn : Option Nat) (sons : List IacaValue) : IacaValue := .node conn sons

/-- Insert an item address in a list ordered by strictly ascending identity; an item whose
identity is already there is not added. -/
def set_insert (hp : Heap) (a : Nat) : List Nat → List Nat
  | [] => [a]
  | b :: rest =>
    if hp.ident a < hp.ident b then a :: b :: rest
    else if hp.ident a = hp.ident b then b :: rest
    else b :: set_insert hp a rest

/-- Modelled from the spec: `iaca_set_make` of the absent `iaca.h` (with a null parent set):
the set constructor deduplicates and sorts members by identity ascending. Set members are
items only, so a null entry of the table is left out. -/
def iaca_set_make (hp : Heap) (elemtab : List (Option Nat)) : IacaValue :=
  .set (((elemtab.filterMap id).foldl (fun acc a => set_insert hp a acc) []).map some)

/-- Modelled from the spec: `putAttr` on the entries of an attribute table, which inserts or
overwrites and, with a null value, removes. -/
def attrtab_put (key : Nat) (val : IacaValue) (tab : List (Nat × IacaValue)) :
    List (Nat × IacaValue) :=
  match val with
  | .null => tab.filter fun e => e.1 != key
  | v => if tab.any (fun e => e.1 == key) then tab.map fun e => if e.1 == key then (key, v) else e
    else tab ++ [(key, v)]

/-- Modelled from the spec: `iaca_item_physical_put` of the absent `iaca.h` (`putAttr`); the
key must be an item, so nothing is done with a null key. -/
def iaca_item_physical_put (hp : Heap) (itm : Nat) (atitm : Option Nat) (val : IacaValue) :
    Heap :=
  match atitm with
  | none => hp
  | some key => hp.modify itm fun it => { it with v_attrtab := attrtab_put key val it.v_attrtab }

/-- Modelled from the spec: `iaca_item_attribute_physical_get` of the absent `iaca.h`
(`getAttr`): the value of the attribute, or null. -/
def iaca_item_attribute_physical_get (it : iacaitem_st) (key : Nat) : IacaValue :=
  match it.v_attrtab.lookup key with
  | some v => v
  | none => .null

/-- Modelled from the spec: the keys enumerated by the macro
`IACA_FOREACH_ITEM_ATTRIBUTE_LOCAL` of the absent `iaca.h`, in the order of the table. -/
def item_attributes (it : iacaitem_st) : List Nat :=
  it.v_attrtab.map (·.1)

/-- Modelled from the spec: `iaca_item_pay_load_resize_vector` of the absent `iaca.h`. An
item has one payload kind at a time and a transition resets the prior payload: a payload
that is not a vector becomes the empty vector; the elements of a vector are kept. -/
def iaca_item_pay_load_resize_vector (it : iacaitem_st) (_sz : Nat) : iacaitem_st :=
  match it.v_payload with
  | .IACAPAYLOAD_VECTOR _ => it
  | _ => { it with v_payload := .IACAPAYLOAD_VECTOR [] }

/-- Modelled from the spec: `iaca_item_pay_load_append_vector` of the absent `iaca.h`, the
append of a vector payload. -/
def iaca_item_pay_load_append_vector (it : iacaitem_st) (val : IacaValue) : iacaitem_st :=
  match it.v_payload with
  | .IACAPAYLOAD_VECTOR vec => { it with v_payload := .IACAPAYLOAD_VECTOR (vec ++ [val]) }
  | _ => it

/-- Modelled from the spec: `iaca_item_pay_load_reserve_buffer` of the absent `iaca.h`. A
payload that is not a buffer becomes the empty buffer; the text of a buffer is kept. -/
def iaca_item_pay_load_reserve_buffer (it : iacaitem_st) (_sz : Int) : iacaitem_st :=
  match it.v_payload with
  | .IACAPAYLOAD_BUFFER (some _) => it
  | _ => { it with v_payload := .IACAPAYLOAD_BUFFER (some { buf_len := 0, buf_tab := [] }) }

/-- Modelled from the spec: `iaca_item_pay_load_append_buffer` of the absent `iaca.h`, the
append of a buffer payload; nothing is appended from a null string. -/
def iaca_item_pay_load_append_buffer (it : iacaitem_st) (str : Option String) : iacaitem_st :=
  match it.v_payload, str with
  | .IACAPAYLOAD_BUFFER (some buf), some s =>
    let buf1 : iacapayloadbuffer_st :=
      { buf_len := buf.buf_len + s.data.length, buf_tab := buf.buf_tab ++ s.data }
    { it with v_payload := .IACAPAYLOAD_BUFFER (some buf1) }
  | _, _ => it

/-- Modelled from the spec: `iaca_item_pay_load_make_queue` of the absent `iaca.h`: the
payload becomes an empty queue. -/
def iaca_item_pay_load_make_queue (it : iacaitem_st) : iacaitem_st :=
  { it with v_payload := .IACAPAYLOAD_QUEUE (some []) }

/-- Modelled from the spec: `iaca_item_pay_load_queue_append` of the absent `iaca.h`, the
append at the end of a queue payload. -/
def iaca_item_pay_load_queue_append (it : iacaitem_st) (val : IacaValue) : iacaitem_st :=
  match it.v_payload with
  | .IACAPAYLOAD_QUEUE (some que) => { it with v_payload := .IACAPAYLOAD_QUEUE (some (que ++ [val])) }
  | _ => it

/-- Modelled from the spec: `iaca_item_pay_load_reserve_dictionnary` of the absent `iaca.h`.
A payload that is not a dictionnary becomes the empty dictionnary; the entries of a
dictionnary are kept. -/
def iaca_item_pay_load_reserve_dictionnary (it : iacaitem_st) (_sz : Int) : iacaitem_st :=
  match it.v_payload with
  | .IACAPAYLOAD_DICTIONNARY (some _) => it
  | _ => { it with v_payload := .IACAPAYLOAD_DICTIONNARY (some []) }

/-- Put a value under a name in the entries of a dictionnary. -/
def dictionnary_put (key : String) (val : IacaValue) :
    List iacadictentry_st → List iacadictentry_st
  | [] => [{ de_str := some key, de_val := val }]
  | e :: rest =>
    if e.de_str == some key then { de_str := some key, de_val := val } :: rest
    else e :: dictionnary_put key val rest

/-- Modelled from the spec: `iaca_item_pay_load_put_dictionnary_str` of the absent `iaca.h`,
the put of a dictionnary payload (a mapping from string to value). -/
def iaca_item_pay_load_put_dictionnary_str (it : iacaitem_st) (key : String)
    (val : IacaValue) : iacaitem_st :=
  match it.v_payload with
  | .IACAPAYLOAD_DICTIONNARY (some dic) =>
    { it with v_payload := .IACAPAYLOAD_DICTIONNARY (some (dictionnary_put key val dic)) }
  | _ => it

/-- Modelled from the spec: `iaca_item_pay_load_make_closure` of the absent `iaca.h` (with a
null table of values): the payload becomes a closure of the given function whose captured
values, as many as the declared arity, are null. -/
def iaca_item_pay_load_make_closure (it : iacaitem_st) (cfun : iacaclofun_st) : iacaitem_st :=
  let clo : iacapayloadclosure_st :=
    { clo_fun := some cfun, clo_valtab := List.replicate cfun.cfun_nbval .null }
  { it with v_payload := .IACAPAYLOAD_CLOSURE (some clo) }

/-- Modelled from the spec: `iaca_find_clofun` of the absent `iaca.h`, the lookup by name in
the registry of closure functions; the null pointer for a null or unregistered name. -/
def iaca_find_clofun (reg : List iacaclofun_st) (funam : Option String) : Option iacaclofun_st :=
  match funam with
  | none => none
  | some n => reg.find? fun c => c.cfun_name == n

/-! ## The loader -/

/-- Source `iaca_item_ghash`: a GHashTable compatible hash function on items. The remainder
of C truncates toward zero and the result is converted to `guint`. -/
def iaca_item_ghash (p : Option ItemKey) : Nat :=
  match p with
  | none => 0
  | some itm => ((itm.v_ident.tmod 1073741939) % 4294967296).toNat

set_option linter.unusedVariables false in
/-- Source `iaca_item_gheq`: both local pointers `itm1` and `itm2` are initialised from `p1`,
the second argument is never read. -/
def iaca_item_gheq (p1 p2 : Option ItemKey) : Bool :=
  let itm1 := p1
  let itm2 := p1
  if itm1.map (·.addr) == itm2.map (·.addr) then true
  else if itm1.isNone || itm2.isNone then false
  else itm1.map (·.v_ident) == itm2.map (·.v_ident)

/-- The hash function of the loader's table on its (non-null) keys. -/
def ld_hash (k : ItemKey) : Nat := iaca_item_ghash (some k)

/-- The key equality of the loader's table on its (non-null) keys. -/
def ld_equal (k1 k2 : ItemKey) : Bool := iaca_item_gheq (some k1) (some k2)

/-- Source `iaca_json_error_printf`: record the message (its format) in the loader and jump
to the error handler. -/
def iaca_json_error_printf {α : Type} (st : LoadState) (fmt : String) : Outcome α :=
  .json_error { st with ld := { st.ld with ld_errstr := some fmt } }

/-- Sequencing of loader routines: the rest runs only after a normal return. -/
def Outcome.bind {α β : Type} (x : Outcome α) (f : α → LoadState → Outcome β) : Outcome β :=
  match x with
  | .ok a st => f a st
  | .json_error st => .json_error st
  | .fatal msg st => .fatal msg st

/-- Source `iaca_retrieve_loaded_item`: retrieve or create a loaded item of given id. -/
def iaca_retrieve_loaded_item (st : LoadState) (id : Int) : Option Nat × LoadState :=
  if id ≤ 0 then (none, st)
  else
    match st.ld.ld_itemhtab with
    | none => (none, st)
    | some tab =>
      let itmst : ItemKey := { addr := none, v_ident := id }
      match g_hash_table_lookup ld_hash ld_equal tab itmst with
      | some itm => (some itm, st)
      | none =>
        let itm := st.heap.length
        let cell : iacaitem_st :=
          { v_kind := .IACAV_ITEM, v_ident := id, v_dataspace := st.ld.ld_dataspace,
            v_attrtab := [], v_payload := .IACAPAYLOAD__NONE, v_itemcontent := .null }
        let last := if st.iaca.ia_item_last_ident < id then id else st.iaca.ia_item_last_ident
        let tab1 := g_hash_table_insert ld_hash ld_equal tab { addr := some itm, v_ident := id } itm
        (some itm,
          { heap := st.heap ++ [cell],
            iaca := { st.iaca with ia_item_last_ident := last },
            ld := { st.ld with ld_itemhtab := some tab1 } })

/-- The loop of `iaca_json_to_value` over the `elemids` of a set: each element must be an
integer and is retrieved (or created) as a loaded item. -/
def json_to_set_elements (st : LoadState) : List json_t → Outcome (List (Option Nat))
  | [] => .ok [] st
  | curelemjs :: rest =>
    if !json_is_integer (some curelemjs) then
      iaca_json_error_printf st "element #%d in object for set not integer"
    else
      let r := iaca_retrieve_loaded_item st (json_integer_value (some curelemjs))
      (json_to_set_elements r.2 rest).bind fun elemtab st2 => .ok (r.1 :: elemtab) st2

mutual
/-- Source `iaca_json_to_value` on a non-null JSON pointer. -/
def json_to_value (st : LoadState) : json_t → Outcome IacaValue
  | .null => .ok .null st
  | .integer n => .ok (iacav_integer_make n) st
  | .string s => .ok (iacav_string_make s) st
  | .object members =>
    match json_string_value (members.lookup "kd") with
    | none => iaca_json_error_printf st "missing 'kd' in object"
    | some kdstr =>
      if kdstr == "strv" then
        match json_string_value (members.lookup "str") with
        | some s => .ok (iacav_string_make s) st
        | none => iaca_json_error_printf st "missing 'str' in object for string"
      else if kdstr == "intv" then
        if json_is_integer (members.lookup "int") then
          .ok (iacav_integer_make (json_integer_value (members.lookup "int"))) st
        else iaca_json_error_printf st "missing 'int' in object for integer"
      else if kdstr == "nodv" then
        if json_integer_value (members.lookup "conid") ≤ 0 then
          iaca_json_error_printf st "invalid or missing 'conid' in object for node"
        else if !json_is_array (members.lookup "sons") then
          iaca_json_error_printf st "bad 'sons' in object for node"
        else
          let r := iaca_retrieve_loaded_item st (json_integer_value (members.lookup "conid"))
          match json_to_sons r.2 members with
          | .ok sons st2 => .ok (iaca_node_make r.1 sons) st2
          | .json_error st2 => .json_error st2
          | .fatal msg st2 => .fatal msg st2
      else if kdstr == "setv" then
        if !json_is_array (members.lookup "elemids") then
          iaca_json_error_printf st "bad 'elemids' in object for set"
        else
          (json_to_set_elements st (json_array_elems (members.lookup "elemids"))).bind
            fun elemtab st1 => .ok (iaca_set_make st1.heap elemtab) st1
      else if kdstr == "itrv" then
        if json_integer_value (members.lookup "id") > 0 then
          let r := iaca_retrieve_loaded_item st (json_integer_value (members.lookup "id"))
          match r.1 with
          | some itm => .ok (.item itm) r.2
          | none => .ok .null r.2
        else
          iaca_json_error_printf st "bad or missing id %lld in object for item reference"
      else iaca_json_error_printf st "bad kind string %s in object"
  | .array _ => iaca_json_error_printf st "unexepected json type #%d"
  | .real => iaca_json_error_printf st "unexepected json type #%d"
  | .jtrue => iaca_json_error_printf st "unexepected json type #%d"
  | .jfalse => iaca_json_error_printf st "unexepected json type #%d"
/-- The loop of `iaca_json_to_value` over the sons of a node: the elements of the first
member of key `sons`, which the caller has checked to be an array. -/
def json_to_sons (st : LoadState) : List (String × json_t) → Outcome (List IacaValue)
  | [] => .ok [] st
  | (key, js) :: rest =>
    if key == "sons" then
      match js with
      | .array elems => json_to_values st elems
      | _ => .ok [] st
    else json_to_sons st rest
/-- Decode the elements of an array from the first to the last. -/
def json_to_values (st : LoadState) : List json_t → Outcome (List IacaValue)
  | [] => .ok [] st
  | js :: rest =>
    match json_to_value st js with
    | .ok v st1 =>
      match json_to_values st1 rest with
      | .ok vs st2 => .ok (v :: vs) st2
      | .json_error st2 => .json_error st2
      | .fatal msg st2 => .fatal msg st2
    | .json_error st1 => .json_error st1
    | .fatal msg st1 => .fatal msg st1
end

/-- Source `iaca_json_to_value`: build a value from JSON while loading. -/
def iaca_json_to_value (st : LoadState) (js : Option json_t) : Outcome IacaValue :=
  match js with
  | none => iaca_json_error_printf st "null json pointer"
  | some j => json_to_value st j

/-- Apply an accessor of `iaca.h` to the item of address `itm`. -/
def LoadState.modify_item (st : LoadState) (itm : Nat) (f : iacaitem_st → iacaitem_st) :
    LoadState :=
  { st with heap := st.heap.modify itm f }

/-- Modelled from the spec: `iaca_item_pay_load_closure_set_nth` of the absent `iaca.h`. The
arity of a closure payload is the declared arity of its function and out-of-range indices
are invalid; setting a closure slot without a closure payload, or outside the arity, is
reported as a fatal error. -/
def iaca_item_pay_load_closure_set_nth (st : LoadState) (itm ix : Nat) (val : IacaValue) :
    Outcome Unit :=
  match st.heap[itm]? with
  | none => .fatal "closure slot of no item" st
  | some it =>
    match it.v_payload with
    | .IACAPAYLOAD_CLOSURE (some clo) =>
      if ix < clo.clo_valtab.length then
        let clo1 : iacapayloadclosure_st := { clo with clo_valtab := clo.clo_valtab.set ix val }
        .ok () (st.modify_item itm fun c => { c with v_payload := .IACAPAYLOAD_CLOSURE (some clo1) })
      else .fatal "closure slot out of range" st
    | _ => .fatal "closure slot without closure payload" st

/-- The loops of `iaca_load_item_pay_load` over the elements of a JSON array: each element is
decoded with `iaca_json_to_value`, then given with its index to the payload accessor. -/
def load_each (act : LoadState → Nat → IacaValue → Outcome Unit) :
    LoadState → Nat → List json_t → Outcome Unit
  | st, _, [] => .ok () st
  | st, ix, js :: rest =>
    match iaca_json_to_value st (some js) with
    | .ok v st1 =>
      match act st1 ix v with
      | .ok _ st2 => load_each act st2 (ix + 1) rest
      | .json_error st2 => .json_error st2
      | .fatal msg st2 => .fatal msg st2
    | .json_error st1 => .json_error st1
    | .fatal msg st1 => .fatal msg st1

/-- The loop of `iaca_load_item_pay_load` over the lines of a buffer payload: a newline is
appended before every line but the first. -/
def load_buffer_lines : iacaitem_st → Nat → List json_t → iacaitem_st
  | it, _, [] => it
  | it, ix, js :: rest =>
    let it1 := if ix > 0 then iaca_item_pay_load_append_buffer it (some "\n") else it
    load_buffer_lines (iaca_item_pay_load_append_buffer it1 (json_string_value (some js)))
      (ix + 1) rest

/-- The loop of `iaca_load_item_pay_load` over the members of a dictionnary payload: a member
whose value decodes to null is not put. -/
def load_dictionnary (itm : Nat) : LoadState → List (String × json_t) → Outcome Unit
  | st, [] => .ok () st
  | st, (key, jsval) :: rest =>
    match iaca_json_to_value st (some jsval) with
    | .ok .null st1 => load_dictionnary itm st1 rest
    | .ok val st1 =>
      load_dictionnary itm
        (st1.modify_item itm fun it => iaca_item_pay_load_put_dictionnary_str it key val) rest
    | .json_error st1 => .json_error st1
    | .fatal msg st1 => .fatal msg st1

/-- Source `iaca_load_item_pay_load`. `itm` is the address of the item (asserted non-null). A
null `payloadkind` string reaches `strcmp`, which stops the program. The capacities asked
from the reserving accessors are not kept by the model. -/
def iaca_load_item_pay_load (st : LoadState) (itm : Nat) (js : Option json_t) : Outcome Unit :=
  match js with
  | none => iaca_json_error_printf st "no item #%lld payload"
  | some .null => .ok () (st.modify_item itm fun it => { it with v_payload := .IACAPAYLOAD__NONE })
  | some (.object members) =>
    match json_string_value (members.lookup "payloadkind") with
    | none => .fatal "strcmp of a null pointer" st
    | some kdstr =>
      if kdstr == "vector" then
        let jsarr := members.lookup "payloadvector"
        if !json_is_array jsarr then iaca_json_error_printf st "bad item #%lld vector payload"
        else
          load_each
            (fun s _ v => .ok () (s.modify_item itm fun it => iaca_item_pay_load_append_vector it v))
            (st.modify_item itm fun it => iaca_item_pay_load_resize_vector it (json_array_size jsarr))
            0 (json_array_elems jsarr)
      else if kdstr == "buffer" then
        let ln := json_integer_value (members.lookup "payloadbuflen")
        let jsarr := members.lookup "payloadbuffer"
        let st1 := st.modify_item itm fun it => iaca_item_pay_load_reserve_buffer it (ln + 2)
        if !json_is_array jsarr then iaca_json_error_printf st1 "bad item #%lld buffer payload"
        else .ok () (st1.modify_item itm fun it => load_buffer_lines it 0 (json_array_elems jsarr))
      else if kdstr == "queue" then
        let jsarr := members.lookup "payloadqueue"
        load_each
          (fun s _ v => .ok () (s.modify_item itm fun it => iaca_item_pay_load_queue_append it v))
          (st.modify_item itm iaca_item_pay_load_make_queue) 0 (json_array_elems jsarr)
      else if kdstr == "dictionnary" then
        let ln := json_integer_value (members.lookup "payloaddictlen")
        let jsdict := members.lookup "payloaddictionnary"
        load_dictionnary itm
          (st.modify_item itm fun it => iaca_item_pay_load_reserve_dictionnary it (ln + ln / 8 + 5))
          (json_object_members jsdict)
      else if kdstr == "closure" then
        let funam := json_string_value (members.lookup "payloadclofun")
        let jsarr := members.lookup "payloadcloval"
        match iaca_find_clofun st.iaca.ia_clofuns funam with
        | none => iaca_json_error_printf st "not found function %s for closure payload of #%lld"
        | some cfun =>
          load_each (fun s ix v => iaca_item_pay_load_closure_set_nth s itm ix v)
            (st.modify_item itm fun it => iaca_item_pay_load_make_closure it cfun)
            0 (json_array_elems jsarr)
      else iaca_json_error_printf st "unexepected payload kind %s"
  | some _ => .ok () st

/-- The loop of `iaca_load_item_content` over the entries of `itemattrs`. -/
def load_item_attrs (itm : Nat) : LoadState → List json_t → Outcome Unit
  | st, [] => .ok () st
  | st, jscurat :: rest =>
    if !json_is_object (some jscurat) then
      iaca_json_error_printf st "attribute entry is not a Json object"
    else if json_integer_value (json_object_get (some jscurat) "atid") ≤ 0 then
      iaca_json_error_printf st "bad attribute id #%lld in item #%lld content"
    else
      match iaca_json_to_value st (json_object_get (some jscurat) "val") with
      | .ok .null st1 => load_item_attrs itm st1 rest
      | .ok val st1 =>
        let r := iaca_retrieve_loaded_item st1 (json_integer_value (json_object_get (some jscurat) "atid"))
        load_item_attrs itm { r.2 with heap := iaca_item_physical_put r.2.heap itm r.1 val } rest
      | .json_error st1 => .json_error st1
      | .fatal msg st1 => .fatal msg st1

/-- Source `iaca_load_item_content`. Reading `itm->v_dataspace` through a null pointer (the
loader has no table) stops the program. -/
def iaca_load_item_content (st : LoadState) (js : Option json_t) : Outcome Unit :=
  if !json_is_object js then iaca_json_error_printf st "expecting an object for item content"
  else if json_integer_value (json_object_get js "item") ≤ 0 then
    iaca_json_error_printf st "invalid id %lld for loaded item content"
  else
    let r := iaca_retrieve_loaded_item st (json_integer_value (json_object_get js "item"))
    match r.1 with
    | none => .fatal "null item pointer" r.2
    | some itm =>
      match r.2.heap[itm]? with
      | none => .fatal "no item at that address" r.2
      | some it =>
        if it.v_dataspace.isSome then
          iaca_json_error_printf r.2 "loaded item #%lld has dataspace %s"
        else
          let st2 := r.2.modify_item itm fun c => { c with v_dataspace := r.2.ld.ld_dataspace }
          if !json_is_array (json_object_get js "itemattrs") then
            iaca_json_error_printf st2 "loaded item #%lld without itemattrs"
          else
            match load_item_attrs itm st2 (json_array_elems (json_object_get js "itemattrs")) with
            | .ok _ st3 =>
              match iaca_json_to_value st3 (json_object_get js "itemcontent") with
              | .ok v st4 =>
                iaca_load_item_pay_load (st4.modify_item itm fun c => { c with v_itemcontent := v })
                  itm (json_object_get js "itempayload")
              | .json_error st4 => .json_error st4
              | .fatal msg st4 => .fatal msg st4
            | .json_error st3 => .json_error st3
            | .fatal msg st3 => .fatal msg st3

/-! ## The dumper -/

/-- Source `iaca_dump_queue_item`: queue an item to be scanned for dumping; the result is
true when the item is to be ignored. An address outside the heap is treated as the null
pointer. -/
def iaca_dump_queue_item (hp : Heap) (du : iacadumper_st) (itm : Option Nat) :
    Bool × iacadumper_st :=
  match itm with
  | none => (true, du)
  | some a =>
    match hp[a]? with
    | none => (true, du)
    | some it =>
      if it.v_kind != .IACAV_ITEM then (true, du)
      else
        match g_hash_table_lookup g_direct_hash g_direct_equal du.du_itemhtab a with
        | some _ => (false, du)
        | none =>
          if it.v_dataspace.isNone then (true, du)
          else
            (false,
              { du with
                du_scanqueue := du.du_scanqueue ++ [a]
                du_itemhtab := g_hash_table_insert g_direct_hash g_direct_equal du.du_itemhtab a a })

/-- Source `iaca_dump_item_is_transient`: test if an item is transient, that is should not
be dumped. -/
def iaca_dump_item_is_transient (du : iacadumper_st) (itm : Option Nat) : Bool :=
  match itm with
  | none => true
  | some a =>
    match g_hash_table_lookup g_direct_hash g_direct_equal du.du_itemhtab a with
    | some _ => false
    | none => true

mutual
/-- Source `iaca_dump_scan_value`: recursive routine to scan a data for dumping. The sons of
a node are scanned from the last to the second, then the first one (`goto scanagain`). -/
def iaca_dump_scan_value (hp : Heap) (du : iacadumper_st) : IacaValue → iacadumper_st
  | .null => du
  | .integer _ => du
  | .string _ => du
  | .node conn sons =>
    if (iaca_dump_queue_item hp du conn).1 then du
    else iaca_dump_scan_sons hp (iaca_dump_queue_item hp du conn).2 sons
  | .set elems => elems.foldl (fun d e => (iaca_dump_queue_item hp d e).2) du
  | .item p => (iaca_dump_queue_item hp du (some p)).2
/-- Scan the sons of a node: those after the first one, from the last, then the first. -/
def iaca_dump_scan_sons (hp : Heap) (du : iacadumper_st) : List IacaValue → iacadumper_st
  | [] => du
  | son :: rest => iaca_dump_scan_value hp (iaca_dump_scan_sons hp du rest) son
end

/-- Source `iaca_dump_scan_item_content`: scan the content of an item. -/
def iaca_dump_scan_item_content (hp : Heap) (du : iacadumper_st) (itm : Option Nat) :
    iacadumper_st :=
  match itm.bind (hp[·]?) with
  | none => du
  | some it =>
    let du1 := iaca_dump_scan_value hp du it.v_itemcontent
    let du2 := (item_attributes it).foldl
      (fun d vattr =>
        if iaca_dump_item_is_transient d (some vattr) then d
        else
          iaca_dump_scan_value hp (iaca_dump_queue_item hp d (some vattr)).2
            (iaca_item_attribute_physical_get it vattr))
      du1
    match it.v_payload with
    | .IACAPAYLOAD__NONE => du2
    | .IACAPAYLOAD_VECTOR vec => vec.foldl (fun d v => iaca_dump_scan_value hp d v) du2
    | .IACAPAYLOAD_BUFFER _ => du2
    | .IACAPAYLOAD_QUEUE que => (que.getD []).foldl (fun d v => iaca_dump_scan_value hp d v) du2
    | .IACAPAYLOAD_DICTIONNARY dic =>
      (dic.getD []).foldl
        (fun d e =>
          match e.de_str, e.de_val with
          | none, _ => d
          | _, .null => d
          | some _, val => iaca_dump_scan_value hp d val)
        du2
    | .IACAPAYLOAD_CLOSURE clo =>
      match clo with
      | some c =>
        match c.clo_fun with
        | some cfun =>
          (List.range cfun.cfun_nbval).foldl
            (fun d ix => iaca_dump_scan_value hp d (c.clo_valtab.getD ix .null)) du2
        | none => du2
      | none => du2

/-- Source `iaca_dump_scan_loop`: the main scanning loop, run for at most `fuel` items;
`none` when items are left in the queue after that. -/
def iaca_dump_scan_loop (hp : Heap) : Nat → iacadumper_st → Option iacadumper_st
  | 0, du => if du.du_scanqueue.isEmpty then some du else none
  | fuel + 1, du =>
    match du.du_scanqueue with
    | [] => some du
    | itm :: rest =>
      let du1 := iaca_dump_scan_item_content hp
        { du with du_scanqueue := rest, du_curitem := some itm } (some itm)
      iaca_dump_scan_loop hp fuel { du1 with du_curitem := none }

/-- The dumper as `iaca_dump` starts it: empty queue, empty table, no current item. -/
def dumper_new : iacadumper_st :=
  { du_scanqueue := [], du_itemhtab := [], du_curitem := none }

/-- The scan of `iaca_dump`: queue the toplevel dictionnary item, then run the scanning
loop. -/
def iaca_dump_scan (hp : Heap) (fuel : Nat) (topdictitm : Option Nat) : Option iacadumper_st :=
  iaca_dump_scan_loop hp fuel (iaca_dump_queue_item hp dumper_new topdictitm).2

mutual
/-- Source `iaca_dump_value_json`: recursive routine to build a json value from a Iaca value
while dumping. -/
def iaca_dump_value_json (hp : Heap) (du : iacadumper_st) : IacaValue → json_t
  | .null => .null
  | .integer v_num =>
    json_object_set (json_object_set (.object []) "kd" (some (.string "intv")))
      "int" (some (.integer v_num))
  | .string v_str =>
    json_object_set (json_object_set (.object []) "kd" (some (.string "strv")))
      "str" (some (.string v_str))
  | .node conn sons =>
    if iaca_dump_item_is_transient du conn then .null
    else
      json_object_set
        (json_object_set (json_object_set (.object []) "kd" (some (.string "nodv")))
          "conid" (some (.integer (hp.ident (conn.getD 0)))))
        "sons" (some (.array (iaca_dump_sons_json hp du sons)))
  | .set elems =>
    json_object_set (json_object_set (.object []) "kd" (some (.string "setv")))
      "elemids"
      (some (.array (elems.filterMap fun curitm =>
        if iaca_dump_item_is_transient du curitm then none
        else some (.integer (hp.ident (curitm.getD 0))))))
  | .item p =>
    if iaca_dump_item_is_transient du (some p) then .null
    else
      json_object_set (json_object_set (.object []) "kd" (some (.string "itrv")))
        "id" (some (.integer (hp.ident p)))
/-- The loop of `iaca_dump_value_json` over the sons of a node, from the first to the last. -/
def iaca_dump_sons_json (hp : Heap) (du : iacadumper_st) : List IacaValue → List json_t
  | [] => []
  | son :: rest => iaca_dump_value_json hp du son :: iaca_dump_sons_json hp du rest
end

/-- The C string that starts at the beginning of a character array: the characters before
the first NUL (the array is followed by a NUL). -/
def c_string (mem : List Char) : List Char :=
  mem.takeWhile fun c => c != '\x00'

/-- C `strchr (s, '\n')`: the offset of the first newline of the C string `s`, if any. -/
def strchr_newline : List Char → Option Nat
  | [] => none
  | c :: rest =>
    if c == '\x00' then none
    else if c == '\n' then some 0
    else (strchr_newline rest).map fun eol => eol + 1

/-- The loop `while (s)` of `iaca_dump_item_pay_load_json` on a buffer, `s` being the array
from the current position: each newline found is overwritten with a NUL (`*eol = 0`) and
the C string read at `s` is appended. The result is the appended strings and the array as
the loop leaves it. Every turn but the last moves `s` forward, so `fuel` turns are enough
when `fuel` exceeds the length of the array. -/
def dump_buffer_loop : Nat → List Char → List json_t × List Char
  | 0, s => ([], s)
  | fuel + 1, s =>
    match strchr_newline s with
    | some eol =>
      let s1 := s.set eol '\x00'
      let r := dump_buffer_loop fuel (s1.drop (eol + 1))
      (.string (String.mk (c_string s1)) :: r.1, s1.take (eol + 1) ++ r.2)
    | none => ([.string (String.mk (c_string s))], s)

/-- The JSON object with the given members, built with `json_object` and `json_object_set`
from the first to the last. -/
def json_object_of (members : List (String × json_t)) : json_t :=
  members.foldl (fun js kv => json_object_set js kv.1 (some kv.2)) (.object [])

/-- Source `iaca_dump_item_pay_load_json`. The result is the JSON pointer returned (null
without item) and the heap after the call: dumping a buffer writes in its character array. -/
def iaca_dump_item_pay_load_json (hp : Heap) (du : iacadumper_st) (itm : Option Nat) :
    Option json_t × Heap :=
  match itm with
  | none => (none, hp)
  | some a =>
    match hp[a]? with
    | none => (none, hp)
    | some it =>
      match it.v_payload with
      | .IACAPAYLOAD__NONE => (some .null, hp)
      | .IACAPAYLOAD_VECTOR vec =>
        (some (json_object_of
          [("payloadkind", .string "vector"),
           ("payloadvector", .array (vec.map (iaca_dump_value_json hp du)))]), hp)
      | .IACAPAYLOAD_BUFFER none =>
        (some (json_object_of
          [("payloadkind", .string "buffer"), ("payloadbuflen", .integer 0),
           ("payloadbuffer", .array [])]), hp)
      | .IACAPAYLOAD_BUFFER (some buf) =>
        let r := dump_buffer_loop (buf.buf_tab.length + 1) buf.buf_tab
        let buf1 : iacapayloadbuffer_st := { buf with buf_tab := r.2 }
        (some (json_object_of
          [("payloadkind", .string "buffer"), ("payloadbuflen", .integer buf.buf_len),
           ("payloadbuffer", .array r.1)]),
         hp.set a { it with v_payload := .IACAPAYLOAD_BUFFER (some buf1) })
      | .IACAPAYLOAD_QUEUE que =>
        (some (json_object_of
          [("payloadkind", .string "queue"),
           ("payloadqueue", .array ((que.getD []).map (iaca_dump_value_json hp du)))]), hp)
      | .IACAPAYLOAD_DICTIONNARY dic =>
        let jsdic := (dic.getD []).foldl
          (fun js e =>
            match e.de_str, e.de_val with
            | none, _ => js
            | _, .null => js
            | some nam, val => json_object_set js nam (some (iaca_dump_value_json hp du val)))
          (.object [])
        (some (json_object_of
          [("payloadkind", .string "dictionnary"),
           ("payloaddictlen", .integer (dic.getD []).length),
           ("payloaddictionnary", jsdic)]), hp)
      | .IACAPAYLOAD_CLOSURE none => (some .null, hp)
      | .IACAPAYLOAD_CLOSURE (some clo) =>
        match clo.clo_fun with
        | none => (some .null, hp)
        | some cfun =>
          (some (json_object_of
            [("payloadkind", .string "closure"), ("payloadclofun", .string cfun.cfun_name),
             ("payloadcloval", .array ((List.range cfun.cfun_nbval).map fun ix =>
                iaca_dump_value_json hp du (clo.clo_valtab.getD ix .null)))]), hp)

/-- The test `atval->v_kind == IACAV_ITEM && iaca_dump_item_is_transient (du, atval)`. -/
def value_is_transient_item (du : iacadumper_st) : IacaValue → Bool
  | .item p => iaca_dump_item_is_transient du (some p)
  | _ => false

/-- The test `!atval`. -/
def value_is_null : IacaValue → Bool
  | .null => true
  | _ => false

/-- The entry of `itemattrs` made for the attribute `vitat` of value `atval`. -/
def dump_attr_entry (hp : Heap) (du : iacadumper_st) (vitat : Nat) (atval : IacaValue) : json_t :=
  json_object_of [("atid", .integer (hp.ident vitat)), ("val", iaca_dump_value_json hp du atval)]

/-- The loop of `iaca_dump_item_content_json` over the attributes of the item: the entries
appended to `itemattrs`. -/
def dump_item_attrs (hp : Heap) (du : iacadumper_st) (it : iacaitem_st) : List json_t :=
  (item_attributes it).filterMap fun vitat =>
    if iaca_dump_item_is_transient du (some vitat) then none
    else if value_is_null (iaca_item_attribute_physical_get it vitat) then none
    else if value_is_transient_item du (iaca_item_attribute_physical_get it vitat) then none
    else some (dump_attr_entry hp du vitat (iaca_item_attribute_physical_get it vitat))

/-- Source `iaca_dump_item_content_json`, with the heap after the call (see
`iaca_dump_item_pay_load_json`). -/
def iaca_dump_item_content_json (hp : Heap) (du : iacadumper_st) (itm : Option Nat) :
    json_t × Heap :=
  if iaca_dump_item_is_transient du itm then (.null, hp)
  else
    match itm.bind (hp[·]?) with
    | none => (.null, hp)
    | some it =>
      let r := iaca_dump_item_pay_load_json hp du itm
      (json_object_set
        (json_object_of
          [("item", .integer it.v_ident), ("itemattrs", .array (dump_item_attrs hp du it)),
           ("itemcontent", iaca_dump_value_json hp du it.v_itemcontent)])
        "itempayload" r.1, r.2)

/-! ## Notions used to state the properties -/

/-- The item of address `a` is recorded in the dumper's table: it is one of the items being
dumped. -/
def is_dumped (du : iacadumper_st) (a : Nat) : Bool :=
  du.du_itemhtab.any fun e => e.1 == a

mutual
/-- Structural equality of two values living in two heaps, items being compared by their
identity. -/
def value_same_by_id (hp1 hp2 : Heap) : IacaValue → IacaValue → Bool
  | .null, .null => true
  | .integer n1, .integer n2 => n1 == n2
  | .string s1, .string s2 => s1 == s2
  | .node c1 sons1, .node c2 sons2 =>
    (c1.map hp1.ident == c2.map hp2.ident) && values_same_by_id hp1 hp2 sons1 sons2
  | .set e1, .set e2 => e1.map (Option.map hp1.ident) == e2.map (Option.map hp2.ident)
  | .item p1, .item p2 => hp1.ident p1 == hp2.ident p2
  | _, _ => false
/-- Equality by identity of two sequences of values, position by position. -/
def values_same_by_id (hp1 hp2 : Heap) : List IacaValue → List IacaValue → Bool
  | [], [] => true
  | v1 :: rest1, v2 :: rest2 =>
    value_same_by_id hp1 hp2 v1 v2 && values_same_by_id hp1 hp2 rest1 rest2
  | _, _ => false
end

/-- A loader between `iaca_load` creating its table and the first data file: empty table, no
current dataspace. -/
def loader_new : iacaloader_st :=
  { ld_itemhtab := some [], ld_errstr := none, ld_dataspace := none }

/-- An item of the given identity and dataspace, without attribute, content or payload. -/
def plain_item (id : Int) (dsp : Option iacadataspace_st) : iacaitem_st :=
  { v_kind := .IACAV_ITEM, v_ident := id, v_dataspace := dsp, v_attrtab := [],
    v_payload := .IACAPAYLOAD__NONE, v_itemcontent := .null }

/-- A dumper whose table records the given addresses. -/
def dumper_of (addrs : List Nat) : iacadumper_st :=
  { du_scanqueue := [], du_itemhtab := addrs.map fun a => (a, a), du_curitem := none }

/-- The item with its payload replaced. -/
def with_payload (it : iacaitem_st) (p : Payload) : iacaitem_st :=
  { it with v_payload := p }

/-- An item of identity 7 in the dataspace `s` whose payload is a buffer holding the given
text. -/
def buffer_item (text : String) : iacaitem_st :=
  with_payload (plain_item 7 (some ⟨"s"⟩))
    (.IACAPAYLOAD_BUFFER (some { buf_len := text.data.length, buf_tab := text.data }))

/-- The function descriptor `greet`, of arity 2. -/
def greet : iacaclofun_st :=
  { cfun_name := "greet", cfun_nbval := 2 }

/-- An item of identity 7 in the dataspace `s` whose payload is a closure of `greet` with
the captured values 1 and `hi`. -/
def closure_item : iacaitem_st :=
  with_payload (plain_item 7 (some ⟨"s"⟩))
    (.IACAPAYLOAD_CLOSURE (some { clo_fun := some greet, clo_valtab := [.integer 1, .string "hi"] }))

/-- The state of a load before the first data file: no item, no registered closure function,
a new loader. -/
def load_state_new : LoadState :=
  { heap := [], iaca := { ia_item_last_ident := 0, ia_clofuns := [] }, ld := loader_new }

/-- The state of a load when `iaca_load_data` starts on the data file of a dataspace: the
current dataspace of the loader is set. -/
def load_state_in (dsp : iacadataspace_st) : LoadState :=
  { heap := [], iaca := { ia_item_last_ident := 0, ia_clofuns := [] },
    ld := { loader_new with ld_dataspace := some dsp } }

/-- The record of an item without attribute, content or payload. -/
def plain_record (id : Int) : json_t :=
  .object [("item", .integer id), ("itemattrs", .array []), ("itemcontent", .null),
    ("itempayload", .null)]

/-- Every item of the loader's table has a dataspace. -/
def table_items_have_dataspace (st : LoadState) : Bool :=
  match st.ld.ld_itemhtab with
  | none => true
  | some tab => tab.all fun e =>
    match st.heap[e.2]? with
    | some it => it.v_dataspace.isSome
    | none => false

/-- Two items of the dataspace `s` whose identities, 5 and 1073741944, have the same
remainder modulo 1073741939. -/
def store_collision : Heap :=
  [plain_item 5 (some ⟨"s"⟩), plain_item 1073741944 (some ⟨"s"⟩)]

/-- The store of the transient pruning scenario: the item 10 of the dataspace `s` (address 0)
has under the attribute 10 a reference to the item 11 (address 1), which is in the transient
dataspace. -/
def store_transient (transient : iacadataspace_st) : Heap :=
  [{ plain_item 10 (some ⟨"s"⟩) with v_attrtab := [(0, .item 1)] }, plain_item 11 (some transient)]

/-- Two items of the dataspace `s` with the identities 5 and 6. -/
def store_plain : Heap :=
  [plain_item 5 (some ⟨"s"⟩), plain_item 6 (some ⟨"s"⟩)]

/-- What the decoding of values leaves in place: the heap only grows at its end, the
registered closure functions and the current dataspace are kept, and a loader with a table
still has one. -/
def LoadState.grows_to (st st1 : LoadState) : Prop :=
  st.heap <+: st1.heap ∧ st1.iaca.ia_clofuns = st.iaca.ia_clofuns
    ∧ st1.ld.ld_dataspace = st.ld.ld_dataspace
    ∧ st1.ld.ld_itemhtab.isSome = st.ld.ld_itemhtab.isSome

/-- The routine stopped the program. -/
def Outcome.is_fatal {α : Type} : Outcome α → Bool
  | .fatal _ _ => true
  | _ => false

/-- The state after successive calls of `iaca_retrieve_loaded_item` for the given
identities. -/
def retrieve_all (st : LoadState) (ids : List Int) : LoadState :=
  ids.foldl (fun s id => (iaca_retrieve_loaded_item s id).2) st

/-- The entries of the loader's table (none without table). -/
def table_of (st : LoadState) : List (ItemKey × Nat) :=
  st.ld.ld_itemhtab.getD []

/-- The state in which `iaca_json_error_printf` leaves the loader. -/
def iaca_json_error_printf_state (st : LoadState) (fmt : String) : LoadState :=
  { st with ld := { st.ld with ld_errstr := some fmt } }

/-- The item 42 of the dataspace `s` with the content 1 and a vector payload. -/
def item_42 : iacaitem_st :=
  { v_kind := .IACAV_ITEM, v_ident := 42, v_dataspace := some ⟨"s"⟩, v_attrtab := [],
    v_payload := .IACAPAYLOAD_VECTOR [.integer 2], v_itemcontent := .integer 1 }

/-- A load in the dataspace `s` after the record of the item 42 was loaded: the item has the
dataspace `s`, the content 1 and a vector payload. -/
def load_state_after_42 : LoadState :=
  { heap := [item_42],
    iaca := { ia_item_last_ident := 42, ia_clofuns := [] },
    ld :=
      { ld_itemhtab := some [({ addr := some 0, v_ident := 42 }, 0)]
        ld_errstr := none
        ld_dataspace := some ⟨"s"⟩ } }

/-- A second record for the item 42, with another content and an attribute. -/
def second_record_42 : json_t :=
  .object [("item", .integer 42),
    ("itemattrs", .array [.object [("atid", .integer 43),
      ("val", .object [("kd", .string "intv"), ("int", .integer 9)])]]),
    ("itemcontent", .object [("kd", .string "intv"), ("int", .integer 7)]),
    ("itempayload", .null)]

/-- A record whose first attribute entry has the attribute identity 0. -/
def record_bad_atid : json_t :=
  .object [("item", .integer 42),
    ("itemattrs", .array [.object [("atid", .integer 0),
      ("val", .object [("kd", .string "intv"), ("int", .integer 9)])]]),
    ("itemcontent", .null), ("itempayload", .null)]

/-- A load state with the closure function `greet` (arity 2) registered and one item, of
identity 7, without payload. -/
def load_state_greet : LoadState :=
  { heap := [plain_item 7 none],
    iaca := { ia_item_last_ident := 7, ia_clofuns := [greet] },
    ld :=
      { ld_itemhtab := some [({ addr := some 0, v_ident := 7 }, 0)]
        ld_errstr := none
        ld_dataspace := none } }

/-- The version constant `IACA_JSON_VERSION` of the source. -/
def IACA_JSON_VERSION : String := "2011A"

/-- C library `isspace` in the C locale: space, tab, newline, vertical tab, form feed and
carriage return. -/
def c_isspace (c : Char) : Bool :=
  c == ' ' || c == '\t' || c == '\n' || c.toNat == 11 || c.toNat == 12 || c == '\r'

/-- GLib `g_ascii_isalnum`: an ASCII letter or digit. -/
def g_ascii_isalnum (c : Char) : Bool :=
  (65 ≤ c.toNat && c.toNat ≤ 90) || (97 ≤ c.toNat && c.toNat ≤ 122)
    || (48 ≤ c.toNat && c.toNat ≤ 57)

/-- How far a `sscanf` directive got: the input ended (`input_failure`), the input did not
fit (`matching_failure`), or the directive was matched and `inp` remains to be read. -/
inductive scan_result where
  | input_failure
  | matching_failure
  | rest (inp : List Char)
  deriving Repr, DecidableEq

/-- The ordinary characters of a `sscanf` format, matched one by one against the input. -/
def scan_literal : List Char → List Char → scan_result
  | [], inp => .rest inp
  | _ :: _, [] => .input_failure
  | k :: ks, c :: cs => if c == k then scan_literal ks cs else .matching_failure

/-- C library `sscanf (line, " <keyword> %ms", &name)`: white space is skipped, the keyword
is matched, white space is skipped again and the following run of characters that are not
white space is stored in `name`. The result is the number of conversions made (1), 0 after a
matching failure, and `EOF` (-1) when the input ends before the conversion is made; `name`
is left as it was (null, hence `none`) unless the result is 1. -/
def sscanf_ms (keyword : String) (line : String) : Int × Option String :=
  match scan_literal keyword.data (line.data.dropWhile c_isspace) with
  | .input_failure => (-1, none)
  | .matching_failure => (0, none)
  | .rest inp =>
    let word := (inp.dropWhile c_isspace).takeWhile fun c => !c_isspace c
    if word.isEmpty then (-1, none) else (1, some (String.mk word))

/-- The decimal number written by a list of digits. -/
def digits_value (digits : List Char) : Int :=
  digits.foldl (fun n d => 10 * n + ((d.toNat - 48 : Nat) : Int)) 0

/-- C library `sscanf (line, " <keyword> %lld", &num)`: as `sscanf_ms`, the conversion
reading an optional sign and decimal digits (the saturation of a number that does not fit a
`long long` is not modelled). -/
def sscanf_lld (keyword : String) (line : String) : Int × Option Int :=
  match scan_literal keyword.data (line.data.dropWhile c_isspace) with
  | .input_failure => (-1, none)
  | .matching_failure => (0, none)
  | .rest inp =>
    match inp.dropWhile c_isspace with
    | [] => (-1, none)
    | c :: cs =>
      let digits := (if c == '-' || c == '+' then cs else c :: cs).takeWhile Char.isDigit
      if digits.isEmpty then (0, none)
      else (1, some (if c == '-' then - digits_value digits else digits_value digits))

/-- What a load finds outside the program: whether GLib supports modules, the paths that are
directories, the module paths that `g_module_open` opens, the regular files with the result
of `json_load_file` on each (`none` when the file is no JSON text), and the lines of the
manifest file as `getline` returns them (`none` when `fopen` fails). -/
structure LoadEnv where
  g_module_supported : Bool
  directories : List String
  openable : List String
  files : List (String × Option json_t)
  manifest : Option (List String)

/-- GLib `g_build_filename` of two elements (the elements are joined with one separator;
the removal of doubled separators is not modelled). -/
def g_build_filename (dir : String) (name : String) : String :=
  dir ++ "/" ++ name

/-- GLib `g_module_build_path`: the file name of a module in a directory. -/
def g_module_build_path (dir : String) (modname : String) : String :=
  dir ++ "/lib" ++ modname ++ ".so"

/-- GLib `g_file_test (path, G_FILE_TEST_IS_DIR)`. -/
def g_file_test_is_dir (env : LoadEnv) (path : String) : Bool :=
  env.directories.contains path

/-- GLib `g_file_test (path, G_FILE_TEST_EXISTS)`. -/
def g_file_test_exists (env : LoadEnv) (path : String) : Bool :=
  env.directories.contains path || (env.files.lookup path).isSome

/-- GLib `g_module_open`: the module (named by its path) or null. -/
def g_module_open (env : LoadEnv) (path : String) : Option String :=
  if env.openable.contains path then some path else none

/-- JANSSON `json_load_file`: the root of the file, null when the path is no file or the
file no JSON text. -/
def json_load_file (env : LoadEnv) (path : String) : Option json_t :=
  (env.files.lookup path).join

/-- GLib `g_str_hash`. -/
def g_str_hash (s : String) : Nat :=
  s.data.foldl (fun h c => (h * 33 + c.toNat) % 4294967296) 5381

/-- GLib `g_str_equal`. -/
def g_str_equal (a b : String) : Bool :=
  a == b

/-- Modelled from the spec: `iaca_dataspace` (its code is not in src/) returns the
dataspace of the given name, making it if needed; a dataspace is identified by its name. -/
def iaca_dataspace (spacename : String) : iacadataspace_st :=
  ⟨spacename⟩

/-- Source `iaca_load_module`: the error string, null (`none`) on success, and the module
table `iaca.ia_module_htab` after the call. -/
def iaca_load_module (env : LoadEnv) (htab : List (String × String))
    (dirpath : Option String) (modname : Option String) :
    Option String × List (String × String) :=
  match dirpath with
  | none => (some "emptyy dirpath to load module", htab)
  | some dir =>
    if dir.data.isEmpty then (some "emptyy dirpath to load module", htab)
    else
      match modname with
      | none => (some "empty modname to load module", htab)
      | some name =>
        if name.data.isEmpty then (some "empty modname to load module", htab)
        else if !env.g_module_supported then (some "modules are not supported", htab)
        else if !g_file_test_is_dir env dir then
          (some "when loading module dirpath %s is not a directory", htab)
        else if name.data.any fun c => !g_ascii_isalnum c && c != '_' then
          (some "when loading module invalid character in module name %s", htab)
        else
          match g_hash_table_lookup g_str_hash g_str_equal htab name with
          | some _ => (some "module %s already loaded as %s", htab)
          | none =>
            let insrc :=
              if g_file_test_is_dir env (g_build_filename dir "src") then
                g_module_open env (g_module_build_path (g_build_filename dir "src") name)
              else none
            let module :=
              match insrc with
              | some m => some m
              | none =>
                if g_file_test_is_dir env (g_build_filename dir "module") then
                  g_module_open env (g_module_build_path (g_build_filename dir "module") name)
                else none
            match module with
            | none => (some "failed to load module %s in src/ or module/ of %s : %s", htab)
            | some m => (none, g_hash_table_insert g_str_hash g_str_equal htab name m)

/-- The loop of `iaca_load_data` over the records of `itemcont`, in array order. -/
def load_records : LoadState → List json_t → Outcome Unit
  | st, [] => .ok () st
  | st, jscurit :: rest =>
    (iaca_load_item_content st (some jscurit)).bind fun _ st1 => load_records st1 rest

/-- Source `iaca_load_data`, `root` being what `json_load_file` gave for the data path. An
`iaca_error` stops the program (`fatal`). -/
def iaca_load_data (st : LoadState) (root : Option json_t) (spacename : String) :
    Outcome Unit :=
  let st1 : LoadState :=
    { st with ld := { st.ld with ld_dataspace := some (iaca_dataspace spacename) } }
  if root.isNone then .fatal "failed to load data file %s: JSON error line %d: %s" st1
  else if !json_is_object root then .fatal "JSON root in %s not an object" st1
  else
    match json_string_value (json_object_get root "iacaversion") with
    | none => .fatal "JSON root without version in data file %s" st1
    | some verstr =>
      if verstr != IACA_JSON_VERSION then
        .fatal "JSON root with iacaversion %s but expecting %s in data file %s" st1
      else if !json_is_array (json_object_get root "itemcont") then
        .fatal "JSON root without itemcont in data file %s" st1
      else
        (load_records st1 (json_array_elems (json_object_get root "itemcont"))).bind
          fun _ st2 => .ok () { st2 with ld := { st2.ld with ld_dataspace := none } }

/-- A call made by `iaca_load`: of `iaca_load_module` with a module name (possibly null) or
of `iaca_load_data` with a data path and a space name. -/
inductive LoadCall where
  | module (name : Option String)
  | data (datapath : String) (spacename : String)
  deriving Repr, DecidableEq

/-- What `iaca_load` works on: the loader state, the module table `iaca.ia_module_htab`, the
top dictionary item `iaca.ia_topdictitm`, and the record of the calls made so far. -/
structure LoadWorld where
  st : LoadState
  ia_module_htab : List (String × String)
  ia_topdictitm : Option Nat
  calls : List LoadCall

/-- The result of `iaca_load` or of a part of it: it returns, or a JSON error is raised, or
an `iaca_error` stops the program. -/
inductive WorldOutcome where
  | ok (w : LoadWorld)
  | json_error (w : LoadWorld)
  | fatal (msg : String) (w : LoadWorld)

/-- The world an outcome ends in. -/
def WorldOutcome.world : WorldOutcome → LoadWorld
  | .ok w => w
  | .json_error w => w
  | .fatal _ w => w

/-- Whether the outcome is a normal return. -/
def WorldOutcome.is_ok : WorldOutcome → Bool
  | .ok _ => true
  | _ => false

/-- The body of the loop of `iaca_load` for one line read by `getline` (the empty string
stands for a failed `getline`). -/
def iaca_load_line (env : LoadEnv) (dirpath : String) (w : LoadWorld) (line : String) :
    WorldOutcome :=
  if line.data.head? == some '#' || line.data.head? == some '\n' || line.data.isEmpty then
    .ok w
  else if (sscanf_ms "IACAMODULE" line).1 != 0 then
    let name := (sscanf_ms "IACAMODULE" line).2
    let r := iaca_load_module env w.ia_module_htab (some dirpath) name
    let w1 : LoadWorld := { w with ia_module_htab := r.2, calls := w.calls ++ [.module name] }
    match r.1 with
    | some _ => .fatal "failed to load module '%s' - %s" w1
    | none => .ok w1
  else if (sscanf_ms "IACADATA" line).1 != 0 then
    match (sscanf_ms "IACADATA" line).2 with
    | none =>
      if !g_file_test_exists env dirpath then .fatal "data file %s does not exist" w
      else .fatal "failed to load data file %s: JSON error line %d: %s" w
    | some name =>
      let datapath := g_build_filename dirpath (name ++ ".json")
      if !g_file_test_exists env datapath then .fatal "data file %s does not exist" w
      else
        let calls := w.calls ++ [.data datapath name]
        match iaca_load_data w.st (json_load_file env datapath) name with
        | .ok _ st1 => .ok { w with st := st1, calls := calls }
        | .json_error st1 => .json_error { w with st := st1, calls := calls }
        | .fatal msg st1 => .fatal msg { w with st := st1, calls := calls }
  else if (sscanf_lld "IACATOPDICT" line).1 != 0 then .ok w
  else .ok w

/-- The loop of `iaca_load` over the lines of the manifest. -/
def iaca_load_lines (env : LoadEnv) (dirpath : String) : LoadWorld → List String → WorldOutcome
  | w, [] => .ok w
  | w, line :: rest =>
    match iaca_load_line env dirpath w line with
    | .ok w1 => iaca_load_lines env dirpath w1 rest
    | .json_error w1 => .json_error w1
    | .fatal msg w1 => .fatal msg w1

/-- Source `iaca_load`: a null or empty directory path stands for the current directory,
the loader starts with an empty table, and the manifest is read line by line. -/
def iaca_load (env : LoadEnv) (w : LoadWorld) (dirpath : Option String) : WorldOutcome :=
  let dir := match dirpath with
    | none => "."
    | some d => if d.data.isEmpty then "." else d
  let w1 : LoadWorld := { w with st := { w.st with ld := loader_new } }
  match env.manifest with
  | none => .fatal "failed to open manifest file %s - %m" w1
  | some lines => iaca_load_lines env dir w1 lines

/-- Whether the outcome is a normal return. -/
def Outcome.is_ok {α : Type} : Outcome α → Bool
  | .ok _ _ => true
  | _ => false

/-- A manifest line: white space, a keyword, white space, a name and the rest of the line. -/
def directive_line (ws : List Char) (keyword : String) (sep name tail : List Char) : String :=
  String.mk (ws ++ keyword.data ++ sep ++ name ++ tail)

/-- An empty data file of the right version. -/
def root_empty : json_t :=
  .object [("iacaversion", .string "2011A"), ("itemcont", .array [])]

/-- The data file of the minimal graph: the record of item 42. -/
def root_42 : json_t :=
  .object [("iacaversion", .string "2011A"), ("itemcont", .array [plain_record 42])]

/-- A state directory `.` with the subdirectories `src` and `module`, the module `first` in
`module`, the data file `s.json` and the given manifest. -/
def env_of (root : json_t) (manifest : List String) : LoadEnv :=
  { g_module_supported := true
    directories := [".", "./src", "./module"]
    openable := ["./module/libfirst.so"]
    files := [("./s.json", some root)]
    manifest := some manifest }

/-- The world before a load: no item, no module, no top dictionary, no call made. -/
def world_new : LoadWorld :=
  { st := load_state_new, ia_module_htab := [], ia_topdictitm := none, calls := [] }

/-- The items recorded in the dumper's table, in the order of their insertion. -/
def pushed (du : iacadumper_st) : List Nat :=
  du.du_itemhtab.map (·.1)

/-- What a scanning routine does to the dumper: some items `new`, distinct, inside the heap
and absent from the table, are pushed at the tail of the queue and recorded in the same order
at the end of the table; nothing else changes. -/
def scan_pushes (hp : Heap) (du du1 : iacadumper_st) (new : List Nat) : Prop :=
  du1.du_scanqueue = du.du_scanqueue ++ new
    ∧ du1.du_itemhtab = du.du_itemhtab ++ new.map (fun a => (a, a))
    ∧ du1.du_curitem = du.du_curitem
    ∧ new.Nodup ∧ ∀ a ∈ new, a < hp.length ∧ is_dumped du a = false

/-- The items scanned by `iaca_dump_scan_loop`, in the order of their scan: the values taken
by `du_curitem`, turn after turn of the loop. -/
def iaca_dump_scan_order (hp : Heap) : Nat → iacadumper_st → List Nat
  | 0, _ => []
  | fuel + 1, du =>
    match du.du_scanqueue with
    | [] => []
    | itm :: rest =>
      let du1 := iaca_dump_scan_item_content hp
        { du with du_scanqueue := rest, du_curitem := some itm } (some itm)
      itm :: iaca_dump_scan_order hp fuel { du1 with du_curitem := none }

/-- The keys of the dumper's table are distinct addresses of the heap. -/
def table_is_sound (hp : Heap) (du : iacadumper_st) : Prop :=
  (pushed du).Nodup ∧ ∀ a ∈ pushed du, a < hp.length

/-- A cyclic store: the item 1 (address 0) has the item 3 (address 2) as content and, under
the attribute 3, a reference to the item 2 (address 1), which has under the same attribute a
reference to the item 1. -/
def store_cycle : Heap :=
  [{ plain_item 1 (some ⟨"s"⟩) with v_attrtab := [(2, .item 1)], v_itemcontent := .item 2 },
    { plain_item 2 (some ⟨"s"⟩) with v_attrtab := [(2, .item 0)] },
    plain_item 3 (some ⟨"s"⟩)]

/-- The item of address `a` can be queued for a dump: it is an item of the heap with a
dataspace. -/
def is_persistent (hp : Heap) (a : Nat) : Bool :=
  match hp[a]? with
  | some it => it.v_kind == .IACAV_ITEM && it.v_dataspace.isSome
  | none => false

/-- The item 1 (address 0) has, under the attribute 2 (address 1), a reference to the item 3
(address 2); the three items are in the dataspace `s`. -/
def store_unseen_key : Heap :=
  [{ plain_item 1 (some ⟨"s"⟩) with v_attrtab := [(1, .item 2)] },
    plain_item 2 (some ⟨"s"⟩), plain_item 3 (some ⟨"s"⟩)]

/-- The buffer payload of the item of address `a`, if it has one. -/
def buffer_of (hp : Heap) (a : Nat) : Option iacapayloadbuffer_st :=
  match hp[a]? with
  | some it =>
    match it.v_payload with
    | .IACAPAYLOAD_BUFFER buf => buf
    | _ => none
  | none => none

mutual
/-- The items that a scan of the value gives to `iaca_dump_queue_item` whatever the dumper:
the connective of a node and, when this connective can be queued, what the sons give; the
elements of a set; the item of a reference. -/
def value_refs (hp : Heap) : IacaValue → List Nat
  | .null => []
  | .integer _ => []
  | .string _ => []
  | .node conn sons =>
    match conn with
    | none => []
    | some c => if is_persistent hp c then c :: sons_refs hp sons else [c]
  | .set elems => elems.filterMap id
  | .item p => [p]
/-- What the values of a list give to `iaca_dump_queue_item`. -/
def sons_refs (hp : Heap) : List IacaValue → List Nat
  | [] => []
  | son :: rest => value_refs hp son ++ sons_refs hp rest
end

mutual
/-- Every item referenced in the value, at any depth. -/
def value_items : IacaValue → List Nat
  | .null => []
  | .integer _ => []
  | .string _ => []
  | .node conn sons => conn.toList ++ sons_items sons
  | .set elems => elems.filterMap id
  | .item p => [p]
/-- Every item referenced in the values of a list, at any depth. -/
def sons_items : List IacaValue → List Nat
  | [] => []
  | son :: rest => value_items son ++ sons_items rest
end

/-- The values held by a payload that `iaca_dump_scan_item_content` scans: the elements of
a vector or of a queue, the values of the dictionnary entries that have a name, the closed
values of a closure up to the arity of its function. -/
def payload_values : Payload → List IacaValue
  | .IACAPAYLOAD__NONE => []
  | .IACAPAYLOAD_VECTOR vec => vec
  | .IACAPAYLOAD_BUFFER _ => []
  | .IACAPAYLOAD_QUEUE que => que.getD []
  | .IACAPAYLOAD_DICTIONNARY dic =>
    (dic.getD []).filterMap fun e => if e.de_str.isSome then some e.de_val else none
  | .IACAPAYLOAD_CLOSURE clo =>
    match clo with
    | some c =>
      match c.clo_fun with
      | some cfun => (List.range cfun.cfun_nbval).map fun ix => c.clo_valtab.getD ix .null
      | none => []
    | none => []

/-- What the content and the payload of an item give to `iaca_dump_queue_item`. -/
def item_refs (hp : Heap) (it : iacaitem_st) : List Nat :=
  value_refs hp it.v_itemcontent ++ sons_refs hp (payload_values it.v_payload)

/-- Every item that the content and the payload of the item of address `a` give to
`iaca_dump_queue_item` and that can be queued is in the table of the dumper. -/
def refs_are_dumped (hp : Heap) (du : iacadumper_st) (a : Nat) : Prop :=
  ∀ it, hp[a]? = some it → ∀ x ∈ item_refs hp it, is_persistent hp x = true →
    is_dumped du x = true

/-- Three items: the items 1 and 3 (addresses 0 and 2) are in the dataspace `s`, the item 2
(address 1) has no dataspace. -/
def store_nested : Heap :=
  [plain_item 1 (some ⟨"s"⟩), plain_item 2 none, plain_item 3 (some ⟨"s"⟩)]

/-- The store `store_nested` where the item 1 has as content a node whose connective is the
item 2 and whose son is a reference to the item 3. -/
def store_nested_content : Heap :=
  [{ plain_item 1 (some ⟨"s"⟩) with v_itemcontent := .node (some 1) [.item 2] },
    plain_item 2 none, plain_item 3 (some ⟨"s"⟩)]

/-- The loop of `iaca_dump_scan_item_content` over the attributes of the item. -/
def scan_item_attributes (hp : Heap) (it : iacaitem_st) (du : iacadumper_st) : iacadumper_st :=
  (item_attributes it).foldl
    (fun d vattr =>
      if iaca_dump_item_is_transient d (some vattr) then d
      else
        iaca_dump_scan_value hp (iaca_dump_queue_item hp d (some vattr)).2
          (iaca_item_attribute_physical_get it vattr))
    du

/-- The `switch` of `iaca_dump_scan_item_content` on the kind of the payload. -/
def scan_item_payload (hp : Heap) (it : iacaitem_st) (du : iacadumper_st) : iacadumper_st :=
  match it.v_payload with
  | .IACAPAYLOAD__NONE => du
  | .IACAPAYLOAD_VECTOR vec => vec.foldl (fun d v => iaca_dump_scan_value hp d v) du
  | .IACAPAYLOAD_BUFFER _ => du
  | .IACAPAYLOAD_QUEUE que => (que.getD []).foldl (fun d v => iaca_dump_scan_value hp d v) du
  | .IACAPAYLOAD_DICTIONNARY dic =>
    (dic.getD []).foldl
      (fun d e =>
        match e.de_str, e.de_val with
        | none, _ => d
        | _, .null => d
        | some _, val => iaca_dump_scan_value hp d val)
      du
  | .IACAPAYLOAD_CLOSURE clo =>
    match clo with
    | some c =>
      match c.clo_fun with
      | some cfun =>
        (List.range cfun.cfun_nbval).foldl
          (fun d ix => iaca_dump_scan_value hp d (c.clo_valtab.getD ix .null)) du
      | none => du
    | none => du

/-- The item 1 (address 0) has a vector payload holding a reference to the item 2 (address 1)
and a set whose element is the item 3 (address 2); the three items are in the dataspace `s`. -/
def store_vector : Heap :=
  [with_payload (plain_item 1 (some ⟨"s"⟩)) (.IACAPAYLOAD_VECTOR [.item 1, .set [some 2]]),
    plain_item 2 (some ⟨"s"⟩), plain_item 3 (some ⟨"s"⟩)]

/-- The number of a JSON integer. -/
def json_int_list : json_t → List Int
  | .integer n => [n]
  | _ => []

/-- The numbers that are elements of a JSON array. -/
def json_array_ints : json_t → List Int
  | .array elems =>
    elems.filterMap fun e =>
      match e with
      | .integer n => some n
      | _ => none
  | _ => []

/-- The keys under which the dump writes the identity of an item. -/
def is_id_key (k : String) : Bool :=
  k == "conid" || k == "id" || k == "atid" || k == "item"

/-- The identities that a member of a JSON object holds itself: its number under one of the
keys `conid`, `id`, `atid`, `item`, the numbers of its array under the key `elemids`. -/
def key_ids (k : String) (v : json_t) : List Int :=
  (if is_id_key k then json_int_list v else [])
    ++ (if k == "elemids" then json_array_ints v else [])

mutual
/-- Every identity that appears in a JSON value, at any depth, as `conid`, inside `elemids`,
as `id`, as `atid` or as `item`. -/
def json_ids : json_t → List Int
  | .object members => members_ids members
  | .array elems => elems_ids elems
  | _ => []
/-- The identities that appear in the members of an object. -/
def members_ids : List (String × json_t) → List Int
  | [] => []
  | (k, v) :: rest => key_ids k v ++ json_ids v ++ members_ids rest
/-- The identities that appear in the elements of an array. -/
def elems_ids : List json_t → List Int
  | [] => []
  | e :: rest => json_ids e ++ elems_ids rest
end

/-- The number is the identity of an item recorded in the table of the dumper. -/
def is_dumped_id (hp : Heap) (du : iacadumper_st) (id : Int) : Prop :=
  ∃ a, is_dumped du a = true ∧ hp.ident a = id

/-- The item 5 (address 0) has, under the attribute 6 (address 1), a node whose connective is
the item 5 and whose sons are a reference to the item 6 and a reference to the item 7
(address 2), which has no dataspace; its content is the set of the three items and its
payload a vector holding a reference to the item 6. -/
def store_references : Heap :=
  [{ v_kind := .IACAV_ITEM, v_ident := 5, v_dataspace := some ⟨"s"⟩,
     v_attrtab := [(1, .node (some 0) [.item 1, .item 2])],
     v_payload := .IACAPAYLOAD_VECTOR [.item 1],
     v_itemcontent := .set [some 0, some 1, some 2] },
    plain_item 6 (some ⟨"s"⟩), plain_item 7 none]

/-- A data file of the right version holding the records of the items 42 and 43. -/
def root_42_43 : json_t :=
  .object [("iacaversion", .string "2011A"),
    ("itemcont", .array [plain_record 42, plain_record 43])]

/-! ## Properties -/

theorem g_direct_lookup_isSome (tab : List (Nat × Nat)) (a : Nat) :
    (g_hash_table_lookup g_direct_hash g_direct_equal tab a).isSome
      = tab.any fun e => e.1 == a := by
  have hp : ∀ e : Nat × Nat,
      (g_hash_real (g_direct_hash e.1) == g_hash_real (g_direct_hash a)
        && g_direct_equal e.1 a) = (e.1 == a) := by
    intro e
    unfold g_direct_equal g_direct_hash
    by_cases h : e.1 = a
    · simp [h]
    · simp [h]
  induction tab with
  | nil => rfl
  | cons e rest ih =>
    simp only [g_hash_table_lookup, hp, List.find?_cons, List.any_cons] at ih ⊢
    by_cases h : (e.1 == a) = true
    · simp [h]
    · simp only [Bool.not_eq_true] at h
      simp only [h, Bool.false_or]
      exact ih

theorem is_transient_some (du : iacadumper_st) (a : Nat) :
    iaca_dump_item_is_transient du (some a) = !is_dumped du a := by
  have h2 : iaca_dump_item_is_transient du (some a)
      = !(g_hash_table_lookup g_direct_hash g_direct_equal du.du_itemhtab a).isSome := by
    simp only [iaca_dump_item_is_transient]
    cases g_hash_table_lookup g_direct_hash g_direct_equal du.du_itemhtab a <;> rfl
  rw [h2, g_direct_lookup_isSome]
  rfl

theorem dump_sons_json_eq_map (hp : Heap) (du : iacadumper_st) (sons : List IacaValue) :
    iaca_dump_sons_json hp du sons = sons.map (iaca_dump_value_json hp du) := by
  induction sons with
  | nil => rfl
  | cons son rest ih => simp [iaca_dump_sons_json, ih]

theorem dump_node_json (hp : Heap) (du : iacadumper_st) (conn : Option Nat)
    (sons : List IacaValue) :
    iaca_dump_value_json hp du (.node conn sons) =
      if iaca_dump_item_is_transient du conn then .null
      else .object [("kd", .string "nodv"), ("conid", .integer (hp.ident (conn.getD 0))),
        ("sons", .array (sons.map (iaca_dump_value_json hp du)))] := by
  rw [iaca_dump_value_json, dump_sons_json_eq_map]
  rfl

theorem dump_set_json (hp : Heap) (du : iacadumper_st) (elems : List Nat) :
    iaca_dump_value_json hp du (.set (elems.map some)) =
      .object [("kd", .string "setv"),
        ("elemids", .array (((elems.filter (is_dumped du)).map hp.ident).map json_t.integer))] := by
  have h : ((elems.map some).filterMap fun curitm =>
        if iaca_dump_item_is_transient du curitm then none
        else some (json_t.integer (hp.ident (curitm.getD 0))))
      = ((elems.filter (is_dumped du)).map hp.ident).map json_t.integer := by
    induction elems with
    | nil => rfl
    | cons a rest ih =>
      rw [List.map_cons, List.filterMap_cons, is_transient_some]
      cases hd : is_dumped du a <;> simp [hd, List.filter_cons, ih]
  rw [iaca_dump_value_json, h]
  rfl

/-- C5: a node whose connective is not among the items being dumped (a null connective
included) is dumped as JSON null whatever its sons are, and decoding JSON null gives the
null value without error, in any state of the loader. -/
theorem C5_node_with_transient_connective_is_null (hp : Heap) (du : iacadumper_st)
    (conn : Option Nat) (sons : List IacaValue)
    (hconn : ∀ c, conn = some c → is_dumped du c = false) :
    iaca_dump_value_json hp du (.node conn sons) = .null
      ∧ ∀ st : LoadState, iaca_json_to_value st (some .null) = .ok .null st := by
  refine ⟨?_, fun st => rfl⟩
  rw [dump_node_json]
  cases conn with
  | none => rfl
  | some c => simp [is_transient_some, hconn c rfl]

/-- C5 at an instance: the connective at address 1 is not in the table of the dumper. -/
theorem C5_witness :
    iaca_dump_value_json [plain_item 5 none, plain_item 6 none] (dumper_of [0])
        (.node (some 1) [.integer 3, .item 0]) = .null
      ∧ ∀ st : LoadState, iaca_json_to_value st (some .null) = .ok .null st :=
  C5_node_with_transient_connective_is_null _ (dumper_of [0]) (some 1) _
    (by intro c hc; cases hc; rfl)

/-- C6: for a set whose elements are stored by strictly ascending identity, the `elemids`
array is the list of the identities of the elements that are being dumped, in the order of
the set; it is strictly ascending and has no duplicate. -/
theorem C6_set_elemids_ascending (hp : Heap) (du : iacadumper_st) (elems : List Nat)
    (hsorted : elems.Pairwise fun a b => hp.ident a < hp.ident b) :
    ∃ ids : List Int,
      iaca_dump_value_json hp du (.set (elems.map some)) =
          .object [("kd", .string "setv"), ("elemids", .array (ids.map json_t.integer))]
        ∧ ids = (elems.filter (is_dumped du)).map hp.ident
        ∧ ids.Pairwise (· < ·) ∧ ids.Nodup := by
  have hp1 : ((elems.filter (is_dumped du)).map hp.ident).Pairwise (· < ·) := by
    rw [List.pairwise_map]
    exact hsorted.sublist (List.filter_sublist _)
  refine ⟨_, dump_set_json hp du elems, rfl, hp1, ?_⟩
  exact hp1.imp (fun h => ne_of_lt h)

/-- C6 at an instance: of the elements of identities 3, 5 and 9 the one of identity 5 is not
dumped. -/
theorem C6_witness :
    ∃ ids : List Int,
      iaca_dump_value_json [plain_item 3 none, plain_item 5 none, plain_item 9 none]
          (dumper_of [0, 2]) (.set ([0, 1, 2].map some)) =
          .object [("kd", .string "setv"), ("elemids", .array (ids.map json_t.integer))]
        ∧ ids = ([0, 1, 2].filter (is_dumped (dumper_of [0, 2]))).map
            (Heap.ident [plain_item 3 none, plain_item 5 none, plain_item 9 none])
        ∧ ids.Pairwise (· < ·) ∧ ids.Nodup :=
  C6_set_elemids_ascending _ _ [0, 1, 2] (by decide)

/-- C7: the encoding of a value by kind. Null is JSON null, an integer `{kd:"intv", int:N}`,
a string `{kd:"strv", str:s}`, a reference to an item `{kd:"itrv", id:I}` when the item is
dumped and JSON null otherwise, a node with a dumped connective `{kd:"nodv", conid:I,
sons:[...]}` where the sons array has one entry for each son, entry k being the encoding of
son k. -/
theorem C7_value_encoding (hp : Heap) (du : iacadumper_st) :
    iaca_dump_value_json hp du .null = .null
      ∧ (∀ n : Int, iaca_dump_value_json hp du (.integer n) =
          .object [("kd", .string "intv"), ("int", .integer n)])
      ∧ (∀ s : String, iaca_dump_value_json hp du (.string s) =
          .object [("kd", .string "strv"), ("str", .string s)])
      ∧ (∀ p : Nat, iaca_dump_value_json hp du (.item p) =
          if is_dumped du p then .object [("kd", .string "itrv"), ("id", .integer (hp.ident p))]
          else .null)
      ∧ (∀ (c : Nat) (sons : List IacaValue), is_dumped du c = true →
          ∃ jsons : List json_t,
            iaca_dump_value_json hp du (.node (some c) sons) =
              .object [("kd", .string "nodv"), ("conid", .integer (hp.ident c)),
                ("sons", .array jsons)]
            ∧ jsons.length = sons.length
            ∧ ∀ k : Nat, jsons[k]? = (sons[k]?).map (iaca_dump_value_json hp du)) := by
  refine ⟨rfl, fun n => rfl, fun s => rfl, fun p => ?_, fun c sons hc => ?_⟩
  · rw [iaca_dump_value_json, is_transient_some]
    cases is_dumped du p <;> rfl
  · refine ⟨sons.map (iaca_dump_value_json hp du), ?_, by simp, fun k => by simp⟩
    rw [dump_node_json, is_transient_some, hc]
    rfl

/-- C7 at an instance: a node whose connective, of identity 5, is dumped. -/
theorem C7_witness :
    ∃ jsons : List json_t,
      iaca_dump_value_json [plain_item 5 none] (dumper_of [0]) (.node (some 0) [.integer 3]) =
        .object [("kd", .string "nodv"),
          ("conid", .integer (Heap.ident [plain_item 5 none] 0)), ("sons", .array jsons)]
      ∧ jsons.length = [IacaValue.integer 3].length
      ∧ ∀ k : Nat, jsons[k]? =
          ([IacaValue.integer 3][k]?).map
            (iaca_dump_value_json [plain_item 5 none] (dumper_of [0])) :=
  (C7_value_encoding [plain_item 5 none] (dumper_of [0])).2.2.2.2 0 [.integer 3] rfl

theorem strchr_newline_some (s : List Char) (eol : Nat) (h : strchr_newline s = some eol) :
    ∃ pre post, s = pre ++ '\n' :: post ∧ eol = pre.length
      ∧ (∀ c ∈ pre, c ≠ '\n') ∧ (∀ c ∈ pre, c ≠ '\x00') := by
  induction s generalizing eol with
  | nil => simp [strchr_newline] at h
  | cons c rest ih =>
    rw [strchr_newline] at h
    by_cases h0 : (c == '\x00') = true
    · simp [h0] at h
    · by_cases h1 : (c == '\n') = true
      · simp only [h0, h1, if_true, Bool.false_eq_true, if_false, Option.some.injEq] at h
        refine ⟨[], rest, ?_, h.symm, by simp, by simp⟩
        simp only [beq_iff_eq] at h1
        simp [h1]
      · simp only [h0, h1, Bool.false_eq_true, if_false, Option.map_eq_some'] at h
        obtain ⟨e, he, hee⟩ := h
        obtain ⟨pre, post, hs, hl, hn, hz⟩ := ih e he
        refine ⟨c :: pre, post, by simp [hs], by simp [← hee, hl], ?_, ?_⟩
        · intro d hd
          rcases List.mem_cons.1 hd with rfl | hd
          · simpa using h1
          · exact hn d hd
        · intro d hd
          rcases List.mem_cons.1 hd with rfl | hd
          · simpa using h0
          · exact hz d hd

theorem strchr_newline_none (s : List Char) (hz : ∀ c ∈ s, c ≠ '\x00')
    (h : strchr_newline s = none) : ∀ c ∈ s, c ≠ '\n' := by
  induction s with
  | nil => simp
  | cons c rest ih =>
    rw [strchr_newline] at h
    have hc : c ≠ '\x00' := hz c (List.mem_cons_self _ _)
    have h0 : (c == '\x00') = false := by simpa using hc
    by_cases h1 : (c == '\n') = true
    · simp [h0, h1] at h
    · simp only [h0, h1, Bool.false_eq_true, if_false, Option.map_eq_none'] at h
      intro d hd
      rcases List.mem_cons.1 hd with rfl | hd
      · simpa using h1
      · exact ih (fun c hc => hz c (List.mem_cons_of_mem _ hc)) h d hd

theorem c_string_of_no_nul (s : List Char) (hz : ∀ c ∈ s, c ≠ '\x00') : c_string s = s := by
  unfold c_string
  rw [List.takeWhile_eq_self_iff]
  intro c hc
  simpa using hz c hc

theorem c_string_append_nul (pre post : List Char) (hz : ∀ c ∈ pre, c ≠ '\x00') :
    c_string (pre ++ '\x00' :: post) = pre := by
  unfold c_string
  induction pre with
  | nil => simp [List.takeWhile]
  | cons c rest ih =>
    have hc : c ≠ '\x00' := hz c (List.mem_cons_self _ _)
    simp only [List.cons_append, List.takeWhile_cons, bne_iff_ne, ne_eq, hc, not_false_eq_true,
      if_true, List.cons.injEq, true_and]
    simpa using ih (fun c hc => hz c (List.mem_cons_of_mem _ hc))

theorem dump_buffer_loop_lines (fuel : Nat) (s : List Char) (hfuel : s.length < fuel)
    (hz : ∀ c ∈ s, c ≠ '\x00') :
    (dump_buffer_loop fuel s).1 = (s.splitOn '\n').map fun seg => json_t.string (String.mk seg) := by
  induction fuel generalizing s with
  | zero => omega
  | succ fuel ih =>
    rw [dump_buffer_loop]
    cases h : strchr_newline s with
    | none =>
      have hn := strchr_newline_none s hz h
      have hsplit : s.splitOn '\n' = [s] := by
        unfold List.splitOn
        apply List.splitOnP_eq_single
        intro c hc
        simpa using hn c hc
      simp [hsplit, c_string_of_no_nul s hz]
    | some eol =>
      obtain ⟨pre, post, hs, hl, hn, hzp⟩ := strchr_newline_some s eol h
      subst hs hl
      have hset : (pre ++ '\n' :: post).set pre.length '\x00' = pre ++ '\x00' :: post := by
        simp
      have hsplit : (pre ++ '\n' :: post).splitOn '\n' = pre :: post.splitOn '\n' := by
        unfold List.splitOn
        apply List.splitOnP_first
        · intro c hc
          simpa using hn c hc
        · simp
      have hpost : post.length < fuel := by
        simp at hfuel; omega
      have hzpost : ∀ c ∈ post, c ≠ '\x00' := fun c hc => hz c (by simp [hc])
      simp only [hset, hsplit, List.map_cons, c_string_append_nul pre post hzp]
      have hdrop : List.drop (pre.length + 1) (pre ++ '\x00' :: post) = post := by simp
      rw [hdrop, ih post hpost hzpost]


theorem splitOn_length (s : List Char) : (s.splitOn '\n').length = s.count '\n' + 1 := by
  unfold List.splitOn
  induction s with
  | nil => simp
  | cons c rest ih =>
    rw [List.splitOnP_cons]
    by_cases h : (c == '\n') = true
    · simp only [h, if_true, List.length_cons, ih]
      simp only [beq_iff_eq] at h
      simp [h]
    · simp only [h, Bool.false_eq_true, if_false, List.length_modifyHead, ih]
      simp only [beq_iff_eq] at h
      rw [List.count_cons_of_ne (Ne.symm h)]

theorem intercalate_newline_cons (seg : List Char) (rest : List (List Char)) :
    List.intercalate ['\n'] (seg :: rest) = seg ++ (rest.map fun l => '\n' :: l).flatten := by
  induction rest generalizing seg with
  | nil => simp [List.intercalate]
  | cons l rest ih =>
    have h := ih l
    simp only [List.intercalate, List.intersperse, List.flatten_cons, List.map_cons] at h ⊢
    rw [h]
    simp

theorem load_buffer_lines_pos (segs : List (List Char)) (it : iacaitem_st) (ix n : Nat)
    (t : List Char) (hix : 0 < ix)
    (hpay : it.v_payload = .IACAPAYLOAD_BUFFER (some { buf_len := n, buf_tab := t })) :
    load_buffer_lines it ix (segs.map fun seg => json_t.string (String.mk seg)) =
      { it with v_payload := .IACAPAYLOAD_BUFFER (some
          { buf_len := n + ((segs.map fun l => '\n' :: l).flatten).length,
            buf_tab := t ++ (segs.map fun l => '\n' :: l).flatten }) } := by
  induction segs generalizing it ix n t with
  | nil =>
    cases it
    simp only at hpay
    simp [load_buffer_lines, hpay]
  | cons seg rest ih =>
    simp only [List.map_cons, load_buffer_lines, hix, if_true]
    rw [ih _ (ix + 1) (n + 1 + seg.length) (t ++ '\n' :: seg) (by omega)]
    · cases it
      simp only [iaca_item_pay_load_append_buffer, json_string_value]
      simp only at hpay
      subst hpay
      simp [Nat.add_assoc, Nat.add_comm, Nat.add_left_comm]
    · cases it
      simp only at hpay
      subst hpay
      simp [iaca_item_pay_load_append_buffer, json_string_value, Nat.add_assoc]

theorem load_buffer_lines_zero (seg : List Char) (rest : List (List Char)) (it : iacaitem_st)
    (n : Nat) (t : List Char)
    (hpay : it.v_payload = .IACAPAYLOAD_BUFFER (some { buf_len := n, buf_tab := t })) :
    load_buffer_lines it 0 ((seg :: rest).map fun seg => json_t.string (String.mk seg)) =
      { it with v_payload := .IACAPAYLOAD_BUFFER (some
          { buf_len := n + (List.intercalate ['\n'] (seg :: rest)).length,
            buf_tab := t ++ List.intercalate ['\n'] (seg :: rest) }) } := by
  simp only [List.map_cons, load_buffer_lines, Nat.lt_irrefl, if_false]
  rw [load_buffer_lines_pos rest _ 1 (n + seg.length) (t ++ seg) (by omega),
    intercalate_newline_cons]
  · cases it
    simp only at hpay
    subst hpay
    simp [iaca_item_pay_load_append_buffer, json_string_value, Nat.add_assoc]
  · cases it
    simp only at hpay
    subst hpay
    simp [iaca_item_pay_load_append_buffer, json_string_value]


theorem heap_modify_of_get (hp : Heap) (a : Nat) (it : iacaitem_st) (f : iacaitem_st → iacaitem_st)
    (h : hp[a]? = some it) : hp.modify a f = hp.set a (f it) := by
  simp [Heap.modify, h]

theorem heap_get_set (hp : Heap) (a : Nat) (it x : iacaitem_st) (h : hp[a]? = some it) :
    (hp.set a x)[a]? = some x := by
  have hlt : a < hp.length := by
    rcases Nat.lt_or_ge a hp.length with hl | hl
    · exact hl
    · rw [List.getElem?_eq_none hl] at h; cases h
  simp [List.getElem?_set, hlt]

/-- C9: for a buffer whose text has no NUL, the `payloadbuffer` array is the list of the
segments of the text split at each newline (k newlines give k+1 strings) and
`payloadbuflen` is the recorded length of the buffer; loading that payload on an item
without payload rebuilds a buffer whose text is exactly the text dumped. -/
theorem C9_buffer_lines_round_trip (hp : Heap) (du : iacadumper_st) (a : Nat)
    (it : iacaitem_st) (n : Nat) (s : List Char)
    (hit : hp[a]? = some it)
    (hpay : it.v_payload = .IACAPAYLOAD_BUFFER (some { buf_len := n, buf_tab := s }))
    (hnul : ∀ c ∈ s, c ≠ '\x00') :
    ∃ js : json_t,
      (iaca_dump_item_pay_load_json hp du (some a)).1 = some js
      ∧ js = .object [("payloadkind", .string "buffer"), ("payloadbuflen", .integer n),
          ("payloadbuffer", .array ((s.splitOn '\n').map fun seg => .string (String.mk seg)))]
      ∧ (s.splitOn '\n').length = s.count '\n' + 1
      ∧ ∀ (st : LoadState) (b : Nat) (it0 : iacaitem_st),
          st.heap[b]? = some it0 → it0.v_payload = .IACAPAYLOAD__NONE →
          iaca_load_item_pay_load st b (some js) =
            .ok ()
              ⟨st.heap.set b
                (with_payload it0 (.IACAPAYLOAD_BUFFER (some { buf_len := s.length, buf_tab := s }))),
                st.iaca, st.ld⟩ := by
  refine ⟨_, ?_, rfl, splitOn_length s, ?_⟩
  · simp only [iaca_dump_item_pay_load_json, hit, hpay]
    rw [dump_buffer_loop_lines _ s (Nat.lt_succ_self _) hnul]
    rfl
  · intro st b it0 hb hnone
    have hkind : List.lookup "payloadkind"
        [("payloadkind", json_t.string "buffer"), ("payloadbuflen", json_t.integer n),
          ("payloadbuffer", json_t.array ((s.splitOn '\n').map fun seg => .string (String.mk seg)))]
        = some (json_t.string "buffer") := rfl
    have hbuf : List.lookup "payloadbuffer"
        [("payloadkind", json_t.string "buffer"), ("payloadbuflen", json_t.integer n),
          ("payloadbuffer", json_t.array ((s.splitOn '\n').map fun seg => .string (String.mk seg)))]
        = some (json_t.array ((s.splitOn '\n').map fun seg => .string (String.mk seg))) := rfl
    have hv : ("buffer" == "vector") = false := by decide
    have hbb : ("buffer" == "buffer") = true := by decide
    simp only [iaca_load_item_pay_load, hkind, hbuf, json_string_value, hv, hbb, if_true,
      Bool.false_eq_true, if_false, json_is_array, Bool.not_true, json_array_elems,
      LoadState.modify_item]
    rw [heap_modify_of_get _ _ _ _ hb,
      heap_modify_of_get _ _ _ _ (heap_get_set _ _ _ _ hb), List.set_set]
    obtain ⟨seg, rest, hsr⟩ : ∃ seg rest, s.splitOn '\n' = seg :: rest := by
      cases hsp : s.splitOn '\n' with
      | nil => exact absurd hsp (List.splitOnP_ne_nil _ _)
      | cons seg rest => exact ⟨seg, rest, rfl⟩
    have hjoin : List.intercalate ['\n'] (seg :: rest) = s := by
      rw [← hsr]; exact List.intercalate_splitOn s '\n'
    rw [hsr, load_buffer_lines_zero seg rest _ 0 [] (by simp [iaca_item_pay_load_reserve_buffer, hnone]),
      hjoin]
    simp [iaca_item_pay_load_reserve_buffer, hnone, with_payload]

/-- C9 at an instance: the buffer text `a`, newline, `bb`, newline of the specification gives
the three lines `a`, `bb` and the empty string, and is rebuilt by the loader. -/
theorem C9_witness :
    (∃ js : json_t,
      (iaca_dump_item_pay_load_json [buffer_item "a\nbb\n"] (dumper_of [0]) (some 0)).1 = some js
      ∧ js = .object [("payloadkind", .string "buffer"), ("payloadbuflen", .integer (5 : Nat)),
          ("payloadbuffer",
            .array (("a\nbb\n".data.splitOn '\n').map fun seg => .string (String.mk seg)))]
      ∧ ("a\nbb\n".data.splitOn '\n').length = "a\nbb\n".data.count '\n' + 1
      ∧ ∀ (st : LoadState) (b : Nat) (it0 : iacaitem_st),
          st.heap[b]? = some it0 → it0.v_payload = .IACAPAYLOAD__NONE →
          iaca_load_item_pay_load st b (some js) =
            .ok ()
              ⟨st.heap.set b
                (with_payload it0
                  (.IACAPAYLOAD_BUFFER (some { buf_len := "a\nbb\n".data.length, buf_tab := "a\nbb\n".data }))),
                st.iaca, st.ld⟩)
      ∧ ("a\nbb\n".data.splitOn '\n').map String.mk = ["a", "bb", ""] :=
  ⟨C9_buffer_lines_round_trip [buffer_item "a\nbb\n"] (dumper_of [0]) 0 (buffer_item "a\nbb\n") 5
      "a\nbb\n".data rfl rfl (by decide),
    by decide⟩

/-- C10: the payload of an item with a closure bound to a function descriptor is dumped with
`payloadkind` "closure", `payloadclofun` the name of the descriptor and a `payloadcloval`
array that has as many entries as the declared arity of the descriptor, entry k being the
encoding of the captured value k. -/
theorem C10_closure_payload_encoding (hp : Heap) (du : iacadumper_st) (a : Nat)
    (it : iacaitem_st) (clo : iacapayloadclosure_st) (cfun : iacaclofun_st)
    (hit : hp[a]? = some it) (hpay : it.v_payload = .IACAPAYLOAD_CLOSURE (some clo))
    (hfun : clo.clo_fun = some cfun) :
    ∃ vals : List json_t,
      (iaca_dump_item_pay_load_json hp du (some a)).1 =
          some (.object [("payloadkind", .string "closure"),
            ("payloadclofun", .string cfun.cfun_name), ("payloadcloval", .array vals)])
        ∧ vals.length = cfun.cfun_nbval
        ∧ ∀ k : Nat, k < cfun.cfun_nbval →
            vals[k]? = some (iaca_dump_value_json hp du (clo.clo_valtab.getD k .null)) := by
  refine ⟨(List.range cfun.cfun_nbval).map fun ix =>
      iaca_dump_value_json hp du (clo.clo_valtab.getD ix .null), ?_, by simp, ?_⟩
  · simp only [iaca_dump_item_pay_load_json, hit, hpay, hfun]
    rfl
  · intro k hk
    simp [List.getElem?_range hk]

/-- C10 at an instance: a closure of `greet` (arity 2) with the captured values 1 and `hi`. -/
theorem C10_witness :
    ∃ vals : List json_t,
      (iaca_dump_item_pay_load_json [closure_item] (dumper_of [0]) (some 0)).1 =
          some (.object [("payloadkind", .string "closure"),
            ("payloadclofun", .string greet.cfun_name), ("payloadcloval", .array vals)])
        ∧ vals.length = greet.cfun_nbval
        ∧ ∀ k : Nat, k < greet.cfun_nbval →
            vals[k]? = some (iaca_dump_value_json [closure_item] (dumper_of [0])
              (List.getD [IacaValue.integer 1, IacaValue.string "hi"] k .null)) :=
  C10_closure_payload_encoding [closure_item] (dumper_of [0]) 0 closure_item
    { clo_fun := some greet, clo_valtab := [.integer 1, .string "hi"] } greet rfl rfl rfl

theorem ld_equal_true (k1 k2 : ItemKey) : ld_equal k1 k2 = true := by
  simp [ld_equal, iaca_item_gheq]

theorem ld_lookup_insert_fresh (tab : List (ItemKey × Nat)) (k k2 : ItemKey) (v : Nat)
    (hfresh : g_hash_table_lookup ld_hash ld_equal tab k2 = none)
    (hhash : ld_hash k = ld_hash k2) :
    g_hash_table_lookup ld_hash ld_equal (g_hash_table_insert ld_hash ld_equal tab k v) k2
      = some v := by
  induction tab with
  | nil => simp [g_hash_table_insert, g_hash_table_lookup, hhash, ld_equal_true]
  | cons e rest ih =>
    simp only [g_hash_table_lookup, List.find?_cons, ld_equal_true, Bool.and_true] at hfresh ih ⊢
    by_cases he : (g_hash_real (ld_hash e.1) == g_hash_real (ld_hash k2)) = true
    · simp [he] at hfresh
    · simp only [Bool.not_eq_true] at he
      simp only [he] at hfresh
      simp only [g_hash_table_insert, hhash, he, ld_equal_true, Bool.and_true,
        Bool.false_eq_true, if_false, List.find?_cons]
      exact ih hfresh

theorem retrieve_fresh (st : LoadState) (id : Int) (tab : List (ItemKey × Nat))
    (hpos : 0 < id) (htab : st.ld.ld_itemhtab = some tab)
    (hfresh : g_hash_table_lookup ld_hash ld_equal tab { addr := none, v_ident := id } = none) :
    iaca_retrieve_loaded_item st id =
      (some st.heap.length,
        { heap := st.heap ++ [plain_item id st.ld.ld_dataspace],
          iaca := { st.iaca with ia_item_last_ident :=
            if st.iaca.ia_item_last_ident < id then id else st.iaca.ia_item_last_ident },
          ld := { st.ld with ld_itemhtab := some (g_hash_table_insert ld_hash ld_equal tab
            { addr := some st.heap.length, v_ident := id } st.heap.length) } }) := by
  simp only [iaca_retrieve_loaded_item, Int.not_le.2 hpos, if_false, htab, hfresh]
  rfl

theorem retrieve_again (st : LoadState) (id : Int) (tab : List (ItemKey × Nat))
    (hpos : 0 < id) (htab : st.ld.ld_itemhtab = some tab)
    (hfresh : g_hash_table_lookup ld_hash ld_equal tab { addr := none, v_ident := id } = none) :
    iaca_retrieve_loaded_item (iaca_retrieve_loaded_item st id).2 id =
      (some st.heap.length, (iaca_retrieve_loaded_item st id).2) := by
  rw [retrieve_fresh st id tab hpos htab hfresh]
  simp only [iaca_retrieve_loaded_item, Int.not_le.2 hpos, if_false]
  rw [ld_lookup_insert_fresh tab { addr := some st.heap.length, v_ident := id }
    { addr := none, v_ident := id } st.heap.length hfresh rfl]


theorem load_item_content_of_dataspace (st : LoadState) (js : Option json_t) (itm : Nat)
    (st1 : LoadState) (it : iacaitem_st) (dsp : iacadataspace_st)
    (hobj : json_is_object js = true)
    (hpos : 0 < json_integer_value (json_object_get js "item"))
    (hret : iaca_retrieve_loaded_item st (json_integer_value (json_object_get js "item"))
      = (some itm, st1))
    (hit : st1.heap[itm]? = some it) (hdsp : it.v_dataspace = some dsp) :
    iaca_load_item_content st js =
      .json_error { st1 with ld := { st1.ld with
        ld_errstr := some "loaded item #%lld has dataspace %s" } } := by
  simp only [iaca_load_item_content, hobj, Bool.not_true, Bool.false_eq_true, if_false,
    Int.not_le.2 hpos, hret, hit, hdsp, Option.isSome_some, if_true]
  rfl

theorem load_fresh_item_has_dataspace (st : LoadState) (js : Option json_t)
    (tab : List (ItemKey × Nat)) (dsp : iacadataspace_st)
    (hobj : json_is_object js = true)
    (hpos : 0 < json_integer_value (json_object_get js "item"))
    (htab : st.ld.ld_itemhtab = some tab) (hdsp : st.ld.ld_dataspace = some dsp)
    (hfresh : g_hash_table_lookup ld_hash ld_equal tab
      { addr := none, v_ident := json_integer_value (json_object_get js "item") } = none) :
    (∃ st1 : LoadState,
        iaca_load_item_content st js = .json_error st1
          ∧ st1.ld.ld_errstr = some "loaded item #%lld has dataspace %s"
          ∧ st1.heap =
            st.heap ++ [plain_item (json_integer_value (json_object_get js "item")) (some dsp)])
      ∧ ∃ st2 : LoadState,
        iaca_load_item_content
            (iaca_retrieve_loaded_item st (json_integer_value (json_object_get js "item"))).2 js
          = .json_error st2
        ∧ st2.ld.ld_errstr = some "loaded item #%lld has dataspace %s"
        ∧ st2.heap =
          st.heap ++ [plain_item (json_integer_value (json_object_get js "item")) (some dsp)] := by
  have hcell : ((iaca_retrieve_loaded_item st
      (json_integer_value (json_object_get js "item"))).2.heap)[st.heap.length]?
      = some (plain_item (json_integer_value (json_object_get js "item")) (some dsp)) := by
    rw [retrieve_fresh st _ tab hpos htab hfresh, hdsp]
    simp
  have hheap : (iaca_retrieve_loaded_item st
      (json_integer_value (json_object_get js "item"))).2.heap
      = st.heap ++ [plain_item (json_integer_value (json_object_get js "item")) (some dsp)] := by
    rw [retrieve_fresh st _ tab hpos htab hfresh, hdsp]
  constructor
  · refine ⟨_, load_item_content_of_dataspace st js st.heap.length _ _ dsp hobj hpos ?_ hcell rfl,
      rfl, hheap⟩
    rw [retrieve_fresh st _ tab hpos htab hfresh]
  · refine ⟨_, load_item_content_of_dataspace _ js st.heap.length _ _ dsp hobj hpos
      (retrieve_again st _ tab hpos htab hfresh) hcell rfl, rfl, hheap⟩


theorem retrieve_has_dataspace (st : LoadState) (id : Int) (dsp : iacadataspace_st)
    (hdsp : st.ld.ld_dataspace = some dsp) (hinv : table_items_have_dataspace st = true)
    (itm : Nat) (hitm : (iaca_retrieve_loaded_item st id).1 = some itm) :
    ∃ it : iacaitem_st,
      (iaca_retrieve_loaded_item st id).2.heap[itm]? = some it ∧ it.v_dataspace.isSome = true := by
  unfold iaca_retrieve_loaded_item at hitm ⊢
  by_cases hid : id ≤ 0
  · simp [hid] at hitm
  · simp only [hid, if_false] at hitm ⊢
    cases htab : st.ld.ld_itemhtab with
    | none => simp [htab] at hitm
    | some tab =>
      simp only [htab] at hitm ⊢
      cases hl : g_hash_table_lookup ld_hash ld_equal tab { addr := none, v_ident := id } with
      | some found =>
        simp only [hl, Option.some.injEq] at hitm ⊢
        subst hitm
        simp only [g_hash_table_lookup, Option.map_eq_some'] at hl
        obtain ⟨e, he, hev⟩ := hl
        have hmem := List.mem_of_find?_eq_some he
        simp only [table_items_have_dataspace, htab, List.all_eq_true] at hinv
        have := hinv e hmem
        rw [hev] at this
        cases hc : st.heap[found]? with
        | none => simp [hc] at this
        | some it => exact ⟨it, rfl, by simpa [hc] using this⟩
      | none =>
        simp only [hl, Option.some.injEq] at hitm ⊢
        subst hitm
        refine ⟨plain_item id st.ld.ld_dataspace, ?_, by simp [plain_item, hdsp]⟩
        simp [plain_item]

theorem load_item_content_never_ok_in_dataspace (st : LoadState) (js : Option json_t)
    (dsp : iacadataspace_st) (hdsp : st.ld.ld_dataspace = some dsp)
    (hinv : table_items_have_dataspace st = true) (st1 : LoadState) :
    iaca_load_item_content st js ≠ .ok () st1 := by
  unfold iaca_load_item_content
  by_cases hobj : json_is_object js = true
  · by_cases hid : json_integer_value (json_object_get js "item") ≤ 0
    · simp [hobj, hid, iaca_json_error_printf]
    · simp only [hobj, hid, Bool.not_true, Bool.false_eq_true, if_false]
      cases hr : (iaca_retrieve_loaded_item st (json_integer_value (json_object_get js "item"))).1 with
      | none => simp
      | some itm =>
        obtain ⟨it, hit, hds⟩ := retrieve_has_dataspace st _ dsp hdsp hinv itm hr
        simp [hit, hds, iaca_json_error_printf]
  · simp [hobj, iaca_json_error_printf]

/-- C1 fails on the code: the node whose connective is the item 5 and whose son is a
reference to the item 1073741944 (both dumped, both of positive identity) is decoded, from
its own dump and by a new loader, as a node whose son is a reference to the item 5. The table
of the loader finds the item 5 under the identity 1073741944, because `iaca_item_gheq` never
reads its second argument and both identities have the same `iaca_item_ghash`. -/
theorem C1_round_trip_fails_on_colliding_ids :
    is_dumped (dumper_of [0, 1]) 0 = true ∧ is_dumped (dumper_of [0, 1]) 1 = true
      ∧ store_collision.ident 0 = 5 ∧ store_collision.ident 1 = 1073741944
      ∧ ∃ (v : IacaValue) (st : LoadState),
        iaca_json_to_value load_state_new
            (some (iaca_dump_value_json store_collision (dumper_of [0, 1])
              (.node (some 0) [.item 1])))
          = .ok v st
        ∧ v = .node (some 0) [.item 0] ∧ st.heap.ident 0 = 5
        ∧ value_same_by_id store_collision st.heap (.node (some 0) [.item 1]) v = false :=
  ⟨rfl, rfl, rfl, rfl, _, _, rfl, rfl, rfl, rfl⟩

/-- C2 fails on the code: the record dumped for the item 42, which has no attribute, no
content and no payload, is rejected by a loader that has a current dataspace and has not
seen the identity 42: the item that `iaca_retrieve_loaded_item` creates is given the
current dataspace at once, so the test of the dataspace in `iaca_load_item_content` raises
its error. -/
theorem C2_dumped_record_is_rejected :
    (iaca_dump_item_content_json [plain_item 42 (some ⟨"s"⟩)] (dumper_of [0]) (some 0)).1
        = plain_record 42
      ∧ ∃ st : LoadState,
        iaca_load_item_content (load_state_in ⟨"s"⟩) (some (plain_record 42)) = .json_error st
        ∧ st.ld.ld_errstr = some "loaded item #%lld has dataspace %s" :=
  ⟨rfl, _, rfl, rfl⟩

/-- C3 fails on the code: in a loader whose current dataspace is `s` and whose table is
empty, the well-formed record of the item 42 raises the dataspace error, whether 42 was
never referenced before (first part) or was referenced before as a forward reference
(second part); in both cases the item already has the dataspace `s` when the record is
loaded. -/
theorem C3_fresh_record_raises_dataspace_error :
    (∃ st1 : LoadState,
        iaca_load_item_content (load_state_in ⟨"s"⟩) (some (plain_record 42)) = .json_error st1
          ∧ st1.ld.ld_errstr = some "loaded item #%lld has dataspace %s"
          ∧ st1.heap = [plain_item 42 (some ⟨"s"⟩)])
      ∧ ∃ st2 : LoadState,
        iaca_load_item_content (iaca_retrieve_loaded_item (load_state_in ⟨"s"⟩) 42).2
            (some (plain_record 42))
          = .json_error st2
        ∧ st2.ld.ld_errstr = some "loaded item #%lld has dataspace %s"
        ∧ st2.heap = [plain_item 42 (some ⟨"s"⟩)] :=
  load_fresh_item_has_dataspace (load_state_in ⟨"s"⟩) (some (plain_record 42)) [] ⟨"s"⟩ rfl
    (by decide) rfl rfl rfl

/-- C4 fails on the code: whatever dataspace is the transient one, `iaca_dump_queue_item`
applied to the item 11 of that dataspace returns false, pushes the item on the scan queue
and records it; the scan started from the item 10 ends with the item 11 among the items
being dumped. The routine only ignores an item that has no dataspace at all. -/
theorem C4_item_of_transient_dataspace_is_queued (transient : iacadataspace_st) :
    iaca_dump_queue_item (store_transient transient) dumper_new (some 1)
        = (false, { du_scanqueue := [1], du_itemhtab := [(1, 1)], du_curitem := none })
      ∧ ∃ du : iacadumper_st,
          iaca_dump_scan (store_transient transient) 3 (some 0) = some du
            ∧ is_dumped du 0 = true ∧ is_dumped du 1 = true :=
  ⟨rfl, _, rfl, rfl, rfl⟩

theorem round_trip_example_without_collision :
    ∃ (v : IacaValue) (st : LoadState),
      iaca_json_to_value load_state_new
          (some (iaca_dump_value_json store_plain (dumper_of [0, 1])
            (.node (some 0) [.item 1, .integer 3, .string "hi", .set [some 0, some 1], .null])))
        = .ok v st
      ∧ value_same_by_id store_plain st.heap
          (.node (some 0) [.item 1, .integer 3, .string "hi", .set [some 0, some 1], .null]) v
        = true :=
  ⟨_, _, rfl, rfl⟩

theorem record_loads_without_current_dataspace :
    iaca_load_item_content load_state_new (some (plain_record 42)) =
      .ok ()
        { heap := [plain_item 42 none],
          iaca := { ia_item_last_ident := 42, ia_clofuns := [] },
          ld := { loader_new with ld_itemhtab := some [({ addr := some 0, v_ident := 42 }, 0)] } } :=
  rfl

theorem grows_to_refl (st : LoadState) : st.grows_to st :=
  ⟨List.prefix_refl _, rfl, rfl, rfl⟩

theorem grows_to_trans {st st1 st2 : LoadState} (h1 : st.grows_to st1) (h2 : st1.grows_to st2) :
    st.grows_to st2 :=
  ⟨h1.1.trans h2.1, h2.2.1.trans h1.2.1, h2.2.2.1.trans h1.2.2.1, h2.2.2.2.trans h1.2.2.2⟩

theorem grows_to_error (st : LoadState) (fmt : String) :
    st.grows_to { st with ld := { st.ld with ld_errstr := some fmt } } :=
  ⟨List.prefix_refl _, rfl, rfl, rfl⟩

theorem retrieve_grows (st : LoadState) (id : Int) :
    st.grows_to (iaca_retrieve_loaded_item st id).2 := by
  unfold iaca_retrieve_loaded_item
  by_cases hid : id ≤ 0
  · simp only [hid, if_true]; exact grows_to_refl st
  · simp only [hid, if_false]
    cases htab : st.ld.ld_itemhtab with
    | none => exact grows_to_refl st
    | some tab =>
      simp only
      cases hl : g_hash_table_lookup ld_hash ld_equal tab { addr := none, v_ident := id } with
      | some found => exact grows_to_refl st
      | none => exact ⟨List.prefix_append _ _, rfl, rfl, by simp [htab]⟩

theorem set_elements_grows (st : LoadState) (elems : List json_t) :
    st.grows_to (json_to_set_elements st elems).state
      ∧ (json_to_set_elements st elems).is_fatal = false := by
  induction elems generalizing st with
  | nil => exact ⟨grows_to_refl st, rfl⟩
  | cons e rest ih =>
    unfold json_to_set_elements
    by_cases hint : json_is_integer (some e) = true
    · simp only [hint, Bool.not_true, Bool.false_eq_true, if_false]
      have h1 := retrieve_grows st (json_integer_value (some e))
      have h2 := ih (iaca_retrieve_loaded_item st (json_integer_value (some e))).2
      cases hr : json_to_set_elements (iaca_retrieve_loaded_item st (json_integer_value (some e))).2 rest with
      | ok v s => rw [hr] at h2; exact ⟨grows_to_trans h1 h2.1, rfl⟩
      | json_error s => rw [hr] at h2; exact ⟨grows_to_trans h1 h2.1, rfl⟩
      | fatal m s => rw [hr] at h2; exact absurd h2.2 (by simp [Outcome.is_fatal])
    · simp only [hint, Bool.not_false, if_true]
      exact ⟨grows_to_error st _, rfl⟩

mutual
theorem json_to_value_grows (st : LoadState) :
    ∀ js : json_t, st.grows_to (json_to_value st js).state ∧ (json_to_value st js).is_fatal = false
  | .null => ⟨grows_to_refl st, rfl⟩
  | .integer _ => ⟨grows_to_refl st, rfl⟩
  | .string _ => ⟨grows_to_refl st, rfl⟩
  | .array _ => ⟨grows_to_error st _, rfl⟩
  | .real => ⟨grows_to_error st _, rfl⟩
  | .jtrue => ⟨grows_to_error st _, rfl⟩
  | .jfalse => ⟨grows_to_error st _, rfl⟩
  | .object members => by
    have hsons := json_to_sons_grows
      (iaca_retrieve_loaded_item st (json_integer_value (members.lookup "conid"))).2 members
    have hret := retrieve_grows st (json_integer_value (members.lookup "conid"))
    have hret2 := retrieve_grows st (json_integer_value (members.lookup "id"))
    have hset := set_elements_grows st (json_array_elems (members.lookup "elemids"))
    unfold json_to_value
    split
    · exact ⟨grows_to_error st _, rfl⟩
    · split
      · split
        · exact ⟨grows_to_refl st, rfl⟩
        · exact ⟨grows_to_error st _, rfl⟩
      · split
        · split
          · exact ⟨grows_to_refl st, rfl⟩
          · exact ⟨grows_to_error st _, rfl⟩
        · split
          · split
            · exact ⟨grows_to_error st _, rfl⟩
            · split
              · exact ⟨grows_to_error st _, rfl⟩
              · simp only
                split
                · next h => rw [h] at hsons; exact ⟨grows_to_trans hret hsons.1, rfl⟩
                · next h => rw [h] at hsons; exact ⟨grows_to_trans hret hsons.1, rfl⟩
                · next h => rw [h] at hsons; exact absurd hsons.2 (by simp [Outcome.is_fatal])
          · split
            · split
              · exact ⟨grows_to_error st _, rfl⟩
              · cases hs : json_to_set_elements st (json_array_elems (members.lookup "elemids")) with
                | ok v s => rw [hs] at hset; exact ⟨hset.1, rfl⟩
                | json_error s => rw [hs] at hset; exact ⟨hset.1, rfl⟩
                | fatal m s => rw [hs] at hset; exact absurd hset.2 (by simp [Outcome.is_fatal])
            · split
              · split
                · simp only
                  split
                  · exact ⟨hret2, rfl⟩
                  · exact ⟨hret2, rfl⟩
                · exact ⟨grows_to_error st _, rfl⟩
              · exact ⟨grows_to_error st _, rfl⟩
theorem json_to_sons_grows (st : LoadState) :
    ∀ members : List (String × json_t),
      st.grows_to (json_to_sons st members).state ∧ (json_to_sons st members).is_fatal = false
  | [] => ⟨grows_to_refl st, rfl⟩
  | (key, js) :: rest => by
    have hrest := json_to_sons_grows st rest
    unfold json_to_sons
    split
    · cases js with
      | array elems => exact json_to_values_grows st elems
      | _ => exact ⟨grows_to_refl st, rfl⟩
    · exact hrest
theorem json_to_values_grows (st : LoadState) :
    ∀ elems : List json_t,
      st.grows_to (json_to_values st elems).state ∧ (json_to_values st elems).is_fatal = false
  | [] => ⟨grows_to_refl st, rfl⟩
  | js :: rest => by
    have h1 := json_to_value_grows st js
    unfold json_to_values
    cases hv : json_to_value st js with
    | ok v st1 =>
      rw [hv] at h1
      have h2 := json_to_values_grows st1 rest
      simp only
      cases hr : json_to_values st1 rest with
      | ok vs st2 => rw [hr] at h2; exact ⟨grows_to_trans h1.1 h2.1, rfl⟩
      | json_error st2 => rw [hr] at h2; exact ⟨grows_to_trans h1.1 h2.1, rfl⟩
      | fatal m st2 => rw [hr] at h2; exact absurd h2.2 (by simp [Outcome.is_fatal])
    | json_error st1 => rw [hv] at h1; exact ⟨h1.1, rfl⟩
    | fatal m st1 => rw [hv] at h1; exact absurd h1.2 (by simp [Outcome.is_fatal])
end

theorem retrieve_found (st : LoadState) (id : Int) (tab : List (ItemKey × Nat)) (itm : Nat)
    (hpos : 0 < id) (htab : st.ld.ld_itemhtab = some tab)
    (hfound : g_hash_table_lookup ld_hash ld_equal tab { addr := none, v_ident := id } = some itm) :
    iaca_retrieve_loaded_item st id = (some itm, st) := by
  simp only [iaca_retrieve_loaded_item, Int.not_le.2 hpos, if_false, htab, hfound]

theorem retrieve_twice (st : LoadState) (id : Int) :
    iaca_retrieve_loaded_item (iaca_retrieve_loaded_item st id).2 id
      = iaca_retrieve_loaded_item st id := by
  by_cases hid : id ≤ 0
  · simp [iaca_retrieve_loaded_item, hid]
  · have hpos : 0 < id := Int.not_le.1 hid
    cases htab : st.ld.ld_itemhtab with
    | none => simp [iaca_retrieve_loaded_item, hid, htab]
    | some tab =>
      cases hl : g_hash_table_lookup ld_hash ld_equal tab { addr := none, v_ident := id } with
      | some itm =>
        rw [retrieve_found st id tab itm hpos htab hl]
        exact retrieve_found st id tab itm hpos htab hl
      | none =>
        rw [retrieve_again st id tab hpos htab hl, retrieve_fresh st id tab hpos htab hl]

/-- A second call of `iaca_retrieve_loaded_item` with the same identity returns the same item
and leaves the whole state, the table and the identity counter included, as the first call
left it; a call for a positive identity for which the lookup of the table finds nothing
creates, at the end of the heap, an item of that identity without payload, attribute or
content, and records it. -/
theorem retrieve_is_idempotent :
    (∀ (st : LoadState) (id : Int),
        (iaca_retrieve_loaded_item (iaca_retrieve_loaded_item st id).2 id).1
            = (iaca_retrieve_loaded_item st id).1
          ∧ (iaca_retrieve_loaded_item (iaca_retrieve_loaded_item st id).2 id).2
            = (iaca_retrieve_loaded_item st id).2)
      ∧ ∀ (st : LoadState) (id : Int) (tab : List (ItemKey × Nat)),
        0 < id → st.ld.ld_itemhtab = some tab →
        g_hash_table_lookup ld_hash ld_equal tab { addr := none, v_ident := id } = none →
        ∃ cell : iacaitem_st,
          (iaca_retrieve_loaded_item st id).1 = some st.heap.length
            ∧ (iaca_retrieve_loaded_item st id).2.heap = st.heap ++ [cell]
            ∧ cell.v_kind = .IACAV_ITEM ∧ cell.v_ident = id
            ∧ cell.v_payload = .IACAPAYLOAD__NONE ∧ cell.v_attrtab = []
            ∧ cell.v_itemcontent = .null
            ∧ g_hash_table_lookup ld_hash ld_equal (table_of (iaca_retrieve_loaded_item st id).2)
                { addr := none, v_ident := id } = some st.heap.length := by
  refine ⟨fun st id => ?_, fun st id tab hpos htab hfresh => ?_⟩
  · rw [retrieve_twice]
    exact ⟨rfl, rfl⟩
  · refine ⟨plain_item id st.ld.ld_dataspace, ?_, ?_, rfl, rfl, rfl, rfl, rfl, ?_⟩
    · rw [retrieve_fresh st id tab hpos htab hfresh]
    · rw [retrieve_fresh st id tab hpos htab hfresh]
    · rw [retrieve_fresh st id tab hpos htab hfresh]
      exact ld_lookup_insert_fresh tab _ _ _ hfresh rfl

/-- The identity 42 in a new loader: the call creates the item. -/
theorem retrieve_creates_item_42 :
    ∃ cell : iacaitem_st,
      (iaca_retrieve_loaded_item load_state_new 42).1 = some load_state_new.heap.length
        ∧ (iaca_retrieve_loaded_item load_state_new 42).2.heap = load_state_new.heap ++ [cell]
        ∧ cell.v_kind = .IACAV_ITEM ∧ cell.v_ident = 42
        ∧ cell.v_payload = .IACAPAYLOAD__NONE ∧ cell.v_attrtab = []
        ∧ cell.v_itemcontent = .null
        ∧ g_hash_table_lookup ld_hash ld_equal
            (table_of (iaca_retrieve_loaded_item load_state_new 42).2)
            { addr := none, v_ident := 42 } = some load_state_new.heap.length :=
  retrieve_is_idempotent.2 load_state_new 42 [] (by decide) rfl rfl

theorem mem_g_hash_table_insert {κ ν : Type} (hash_func : κ → Nat)
    (key_equal_func : κ → κ → Bool) (tab : List (κ × ν)) (key : κ) (value : ν) (e : κ × ν)
    (he : e ∈ g_hash_table_insert hash_func key_equal_func tab key value) :
    e ∈ tab ∨ e.2 = value := by
  induction tab with
  | nil =>
    simp only [g_hash_table_insert, List.mem_singleton] at he
    exact Or.inr (by rw [he])
  | cons x rest ih =>
    simp only [g_hash_table_insert] at he
    split at he
    · rcases List.mem_cons.1 he with h | h
      · exact Or.inr (by rw [h])
      · exact Or.inl (List.mem_cons_of_mem _ h)
    · rcases List.mem_cons.1 he with h | h
      · exact Or.inl (h ▸ List.mem_cons_self _ _)
      · rcases ih h with h1 | h1
        · exact Or.inl (List.mem_cons_of_mem _ h1)
        · exact Or.inr h1

theorem retrieve_counter_le (st : LoadState) (id : Int) :
    st.iaca.ia_item_last_ident ≤ (iaca_retrieve_loaded_item st id).2.iaca.ia_item_last_ident := by
  unfold iaca_retrieve_loaded_item
  by_cases hid : id ≤ 0
  · simp [hid]
  · simp only [hid, if_false]
    cases htab : st.ld.ld_itemhtab with
    | none => simp
    | some tab =>
      simp only
      cases hl : g_hash_table_lookup ld_hash ld_equal tab { addr := none, v_ident := id } with
      | some found => simp
      | none =>
        simp only
        split <;> omega

theorem heap_ident_append (hp : Heap) (ext : Heap) (a : Nat) (ha : a < hp.length) :
    Heap.ident (hp ++ ext) a = hp.ident a := by
  simp [Heap.ident, List.getElem?_append_left ha]

theorem retrieve_keeps_ids_below_counter (st : LoadState) (id : Int)
    (hinv : ∀ e ∈ table_of st,
      e.2 < st.heap.length ∧ st.heap.ident e.2 ≤ st.iaca.ia_item_last_ident) :
    ∀ e ∈ table_of (iaca_retrieve_loaded_item st id).2,
      e.2 < (iaca_retrieve_loaded_item st id).2.heap.length
        ∧ (iaca_retrieve_loaded_item st id).2.heap.ident e.2
          ≤ (iaca_retrieve_loaded_item st id).2.iaca.ia_item_last_ident := by
  by_cases hid : id ≤ 0
  · simpa [iaca_retrieve_loaded_item, hid] using hinv
  · have hpos : 0 < id := Int.not_le.1 hid
    cases htab : st.ld.ld_itemhtab with
    | none => simpa [iaca_retrieve_loaded_item, hid, htab] using hinv
    | some tab =>
      cases hl : g_hash_table_lookup ld_hash ld_equal tab { addr := none, v_ident := id } with
      | some itm => rw [retrieve_found st id tab itm hpos htab hl]; exact hinv
      | none =>
        rw [retrieve_fresh st id tab hpos htab hl]
        intro e he
        simp only [table_of, Option.getD_some] at he
        simp only [table_of, htab, Option.getD_some] at hinv
        rcases mem_g_hash_table_insert _ _ _ _ _ _ he with h | h
        · obtain ⟨h1, h2⟩ := hinv e h
          refine ⟨by simp; omega, ?_⟩
          rw [heap_ident_append _ _ _ h1]
          simp only
          split <;> omega
        · rw [h]
          refine ⟨by simp, ?_⟩
          simp only [Heap.ident, List.getElem?_concat_length, plain_item]
          split <;> omega

theorem retrieve_all_keeps_ids_below_counter (st : LoadState) (ids : List Int)
    (hinv : ∀ e ∈ table_of st,
      e.2 < st.heap.length ∧ st.heap.ident e.2 ≤ st.iaca.ia_item_last_ident) :
    ∀ e ∈ table_of (retrieve_all st ids),
      e.2 < (retrieve_all st ids).heap.length
        ∧ (retrieve_all st ids).heap.ident e.2 ≤ (retrieve_all st ids).iaca.ia_item_last_ident := by
  induction ids generalizing st with
  | nil => exact hinv
  | cons id rest ih =>
    simp only [retrieve_all, List.foldl_cons]
    exact ih _ (retrieve_keeps_ids_below_counter st id hinv)

/-- C15: a call of `iaca_retrieve_loaded_item` that creates an item of identity n leaves the
identity counter at the maximum of its former value and n; no call makes the counter
decrease; and after any sequence of calls from a loader whose table was empty, the counter
is at least the identity of every item of the table. -/
theorem C15_counter_bounds_loaded_ids :
    (∀ (st : LoadState) (n : Int) (tab : List (ItemKey × Nat)),
        0 < n → st.ld.ld_itemhtab = some tab →
        g_hash_table_lookup ld_hash ld_equal tab { addr := none, v_ident := n } = none →
        (iaca_retrieve_loaded_item st n).2.iaca.ia_item_last_ident
          = max st.iaca.ia_item_last_ident n)
      ∧ (∀ (st : LoadState) (id : Int),
        st.iaca.ia_item_last_ident
          ≤ (iaca_retrieve_loaded_item st id).2.iaca.ia_item_last_ident)
      ∧ ∀ (st : LoadState) (ids : List Int), st.ld.ld_itemhtab = some [] →
        ∀ e ∈ table_of (retrieve_all st ids),
          (retrieve_all st ids).heap.ident e.2
            ≤ (retrieve_all st ids).iaca.ia_item_last_ident := by
  refine ⟨fun st n tab hpos htab hfresh => ?_, retrieve_counter_le, fun st ids hempty => ?_⟩
  · rw [retrieve_fresh st n tab hpos htab hfresh]
    simp only
    split
    · rw [max_eq_right (by omega)]
    · rw [max_eq_left (by omega)]
  · exact fun e he =>
      (retrieve_all_keeps_ids_below_counter st ids (by simp [table_of, hempty]) e he).2

/-- C15 at an instance: the creation of the item 42, and the identities 7, 3 and 7 again,
from a new loader. -/
theorem C15_witness :
    (iaca_retrieve_loaded_item load_state_new 42).2.iaca.ia_item_last_ident
        = max load_state_new.iaca.ia_item_last_ident 42
      ∧ ∀ e ∈ table_of (retrieve_all load_state_new [7, 3, 7]),
        (retrieve_all load_state_new [7, 3, 7]).heap.ident e.2
          ≤ (retrieve_all load_state_new [7, 3, 7]).iaca.ia_item_last_ident :=
  ⟨C15_counter_bounds_loaded_ids.1 load_state_new 42 [] (by decide) rfl rfl,
    C15_counter_bounds_loaded_ids.2.2 load_state_new [7, 3, 7] rfl⟩

/-- C12: when the `payloadclofun` of a closure payload names no registered closure function,
`iaca_load_item_pay_load` raises its error before it touches the item: the heap, and so the
payload of the item, is left as it was. -/
theorem C12_unregistered_closure_function (st : LoadState) (itm : Nat)
    (members : List (String × json_t)) (funam : String)
    (hkind : json_string_value (members.lookup "payloadkind") = some "closure")
    (hname : json_string_value (members.lookup "payloadclofun") = some funam)
    (hreg : ∀ c ∈ st.iaca.ia_clofuns, c.cfun_name ≠ funam) :
    ∃ st1 : LoadState,
      iaca_load_item_pay_load st itm (some (.object members)) = .json_error st1
        ∧ st1.ld.ld_errstr = some "not found function %s for closure payload of #%lld"
        ∧ st1.heap = st.heap ∧ st1.iaca = st.iaca := by
  have hfind : iaca_find_clofun st.iaca.ia_clofuns (some funam) = none := by
    simp only [iaca_find_clofun, List.find?_eq_none]
    intro c hc
    simpa using hreg c hc
  have h1 : ("closure" == "vector") = false := by decide
  have h2 : ("closure" == "buffer") = false := by decide
  have h3 : ("closure" == "queue") = false := by decide
  have h4 : ("closure" == "dictionnary") = false := by decide
  have h5 : ("closure" == "closure") = true := by decide
  refine ⟨iaca_json_error_printf_state st "not found function %s for closure payload of #%lld",
    ?_, rfl, rfl, rfl⟩
  simp only [iaca_load_item_pay_load, hkind, hname, h1, h2, h3, h4, h5, hfind, if_true,
    Bool.false_eq_true, if_false]
  rfl

/-- C12 at an instance: no closure function is registered and the payload names `greet`. -/
theorem C12_witness :
    ∃ st1 : LoadState,
      iaca_load_item_pay_load load_state_after_42 0
          (some (.object [("payloadkind", .string "closure"), ("payloadclofun", .string "greet"),
            ("payloadcloval", .array [])])) = .json_error st1
        ∧ st1.ld.ld_errstr = some "not found function %s for closure payload of #%lld"
        ∧ st1.heap = load_state_after_42.heap ∧ st1.iaca = load_state_after_42.iaca :=
  C12_unregistered_closure_function load_state_after_42 0 _ "greet" rfl rfl
    (by intro c hc; cases hc)

/-- C14 fails on the code: `iaca_item_gheq` answers true for every pair of pointers, in
particular for two items of different identities (5 and 6), because its two local pointers
are both initialised from the first argument. -/
theorem C14_gheq_is_always_true :
    (∀ p1 p2 : Option ItemKey, iaca_item_gheq p1 p2 = true)
      ∧ iaca_item_gheq (some { addr := some 0, v_ident := 5 })
          (some { addr := some 1, v_ident := 6 }) = true
      ∧ iaca_item_gheq none (some { addr := some 1, v_ident := 6 }) = true :=
  ⟨fun p1 p2 => by simp [iaca_item_gheq], rfl, rfl⟩

/-- C16: a record for an identity whose item is in the table and already has a dataspace
raises the dataspace error; the state it leaves differs from the one it found only by the
recorded message, so the item keeps its dataspace, attributes, content and payload. -/
theorem C16_second_record_is_rejected (st : LoadState) (js : Option json_t)
    (tab : List (ItemKey × Nat)) (itm : Nat) (it : iacaitem_st) (dsp : iacadataspace_st)
    (hobj : json_is_object js = true)
    (hpos : 0 < json_integer_value (json_object_get js "item"))
    (htab : st.ld.ld_itemhtab = some tab)
    (hfound : g_hash_table_lookup ld_hash ld_equal tab
      { addr := none, v_ident := json_integer_value (json_object_get js "item") } = some itm)
    (hit : st.heap[itm]? = some it) (hdsp : it.v_dataspace = some dsp) :
    ∃ st1 : LoadState,
      iaca_load_item_content st js = .json_error st1
        ∧ st1.ld.ld_errstr = some "loaded item #%lld has dataspace %s"
        ∧ st1.heap = st.heap ∧ st1.iaca = st.iaca
        ∧ st1.ld.ld_itemhtab = st.ld.ld_itemhtab ∧ st1.ld.ld_dataspace = st.ld.ld_dataspace
        ∧ st1.heap[itm]? = some it :=
  ⟨_, load_item_content_of_dataspace st js itm st it dsp hobj hpos
      (retrieve_found st _ tab itm hpos htab hfound) hit hdsp, rfl, rfl, rfl, rfl, rfl, hit⟩

/-- C16 at an instance: a second record for the item 42, which has the dataspace `s`, a
content and a vector payload. -/
theorem C16_witness :
    ∃ st1 : LoadState,
      iaca_load_item_content load_state_after_42 (some second_record_42) = .json_error st1
        ∧ st1.ld.ld_errstr = some "loaded item #%lld has dataspace %s"
        ∧ st1.heap = load_state_after_42.heap ∧ st1.iaca = load_state_after_42.iaca
        ∧ st1.ld.ld_itemhtab = load_state_after_42.ld.ld_itemhtab
        ∧ st1.ld.ld_dataspace = load_state_after_42.ld.ld_dataspace
        ∧ st1.heap[0]? = some item_42 :=
  C16_second_record_is_rejected load_state_after_42 (some second_record_42)
    [({ addr := some 0, v_ident := 42 }, 0)] 0 _ ⟨"s"⟩ rfl (by decide) rfl rfl rfl rfl

/-- C18 fails on the code: the set object whose `elemids` are -3 and 5 is decoded without
error. The loop stores for -3 the null pointer that `iaca_retrieve_loaded_item` returns for
an identity that is not positive, and the set is made from the table of elements. -/
theorem C18_set_with_non_positive_id_is_accepted :
    (∃ st : LoadState,
        json_to_set_elements load_state_new [.integer (-3), .integer 5] = .ok [none, some 0] st)
      ∧ ∃ st : LoadState,
        iaca_json_to_value load_state_new
            (some (.object [("kd", .string "setv"),
              ("elemids", .array [.integer (-3), .integer 5])]))
          = .ok (.set [some 0]) st
        ∧ st.heap = [plain_item 5 none] :=
  ⟨⟨_, rfl⟩, _, rfl, rfl⟩

/-- C17: a non-positive or missing identity is reported by a JSON error raised before any
item is retrieved or created, the state being changed only by the recorded message: for
the `item` of a record, for the `atid` of an attribute entry, for the `conid` of a node
object and for the `id` of an item reference object. -/
theorem C17_non_positive_ids_are_rejected :
    (∀ (st : LoadState) (js : Option json_t),
        json_integer_value (json_object_get js "item") ≤ 0 →
        ∃ fmt : String,
          iaca_load_item_content st js = .json_error (iaca_json_error_printf_state st fmt))
      ∧ (∀ (st : LoadState) (itm : Nat) (jscurat : json_t) (rest : List json_t),
        json_integer_value (json_object_get (some jscurat) "atid") ≤ 0 →
        ∃ fmt : String,
          load_item_attrs itm st (jscurat :: rest)
            = .json_error (iaca_json_error_printf_state st fmt))
      ∧ (∀ (st : LoadState) (members : List (String × json_t)),
        json_string_value (members.lookup "kd") = some "nodv" →
        json_integer_value (members.lookup "conid") ≤ 0 →
        iaca_json_to_value st (some (.object members)) = .json_error
          (iaca_json_error_printf_state st "invalid or missing 'conid' in object for node"))
      ∧ ∀ (st : LoadState) (members : List (String × json_t)),
        json_string_value (members.lookup "kd") = some "itrv" →
        json_integer_value (members.lookup "id") ≤ 0 →
        iaca_json_to_value st (some (.object members)) = .json_error
          (iaca_json_error_printf_state st
            "bad or missing id %lld in object for item reference") := by
  refine ⟨fun st js hid => ?_, fun st itm jscurat rest hid => ?_, fun st members hkd hid => ?_,
    fun st members hkd hid => ?_⟩
  · unfold iaca_load_item_content
    by_cases hobj : json_is_object js = true
    · exact ⟨_, by simp only [hobj, hid, Bool.not_true, Bool.false_eq_true, if_false, if_true]; rfl⟩
    · exact ⟨_, by simp only [hobj, Bool.not_false, if_true, Bool.not_eq_true]; rfl⟩
  · unfold load_item_attrs
    by_cases hobj : json_is_object (some jscurat) = true
    · exact ⟨_, by simp only [hobj, hid, Bool.not_true, Bool.false_eq_true, if_false, if_true]; rfl⟩
    · exact ⟨_, by simp only [hobj, Bool.not_false, if_true, Bool.not_eq_true]; rfl⟩
  · have h1 : ("nodv" == "strv") = false := by decide
    have h2 : ("nodv" == "intv") = false := by decide
    have h3 : ("nodv" == "nodv") = true := by decide
    simp only [iaca_json_to_value, json_to_value, hkd, h1, h2, h3, hid, if_true,
      Bool.false_eq_true, if_false]
    rfl
  · have h1 : ("itrv" == "strv") = false := by decide
    have h2 : ("itrv" == "intv") = false := by decide
    have h3 : ("itrv" == "nodv") = false := by decide
    have h4 : ("itrv" == "setv") = false := by decide
    have h5 : ("itrv" == "itrv") = true := by decide
    have hn : ¬ json_integer_value (members.lookup "id") > 0 := by omega
    simp only [iaca_json_to_value, json_to_value, hkd, h1, h2, h3, h4, h5, hn, if_true,
      Bool.false_eq_true, if_false]
    rfl

/-- C17 at instances: a record without `item`, an attribute entry of identity 0, a node
object without `conid`, an item reference of identity -1; and the record whose first
attribute entry has the identity 0 is rejected as a whole by a new loader. -/
theorem C17_witness :
    (∃ fmt : String,
        iaca_load_item_content load_state_new (some (.object [("itemattrs", .array [])]))
          = .json_error (iaca_json_error_printf_state load_state_new fmt))
      ∧ (∃ fmt : String,
        load_item_attrs 0 load_state_new [.object [("atid", .integer 0), ("val", .null)]]
          = .json_error (iaca_json_error_printf_state load_state_new fmt))
      ∧ iaca_json_to_value load_state_new
          (some (.object [("kd", .string "nodv"), ("sons", .array [])]))
        = .json_error (iaca_json_error_printf_state load_state_new
            "invalid or missing 'conid' in object for node")
      ∧ iaca_json_to_value load_state_new
          (some (.object [("kd", .string "itrv"), ("id", .integer (-1))]))
        = .json_error (iaca_json_error_printf_state load_state_new
            "bad or missing id %lld in object for item reference")
      ∧ ∃ st : LoadState,
        iaca_load_item_content load_state_new (some record_bad_atid) = .json_error st
          ∧ st.ld.ld_errstr = some "bad attribute id #%lld in item #%lld content"
          ∧ st.heap = [plain_item 42 none] :=
  ⟨C17_non_positive_ids_are_rejected.1 load_state_new _ (by decide),
    C17_non_positive_ids_are_rejected.2.1 load_state_new 0 _ [] (by decide),
    C17_non_positive_ids_are_rejected.2.2.1 load_state_new _ rfl (by decide),
    C17_non_positive_ids_are_rejected.2.2.2 load_state_new _ rfl (by decide),
    _, rfl, rfl, rfl⟩

theorem json_to_sons_eq_values (st : LoadState) (members : List (String × json_t))
    (elems : List json_t) (hsons : members.lookup "sons" = some (.array elems)) :
    json_to_sons st members = json_to_values st elems := by
  induction members with
  | nil => simp [List.lookup] at hsons
  | cons kv rest ih =>
    obtain ⟨key, js⟩ := kv
    by_cases hk : (key == "sons") = true
    · have hk2 : ("sons" == key) = true := by
        rw [beq_iff_eq] at hk ⊢; exact hk.symm
      simp only [List.lookup, hk2, Option.some.injEq] at hsons
      subst hsons
      unfold json_to_sons
      simp only [hk, if_true]
    · have hk2 : ("sons" == key) = false := by
        rw [Bool.not_eq_true] at hk
        rw [beq_eq_false_iff_ne] at hk ⊢
        exact fun h => hk h.symm
      simp only [List.lookup, hk2] at hsons
      unfold json_to_sons
      simp only [hk, Bool.false_eq_true, if_false]
      exact ih hsons

theorem json_to_values_error_at (st : LoadState) (pre : List json_t) (js : json_t)
    (post : List json_t) (vs : List IacaValue) (s s1 : LoadState)
    (hpre : json_to_values st pre = .ok vs s) (hjs : json_to_value s js = .json_error s1) :
    json_to_values st (pre ++ js :: post) = .json_error s1 := by
  induction pre generalizing st vs with
  | nil =>
    simp only [json_to_values, Outcome.ok.injEq] at hpre
    obtain ⟨_, rfl⟩ := hpre
    simp only [List.nil_append, json_to_values, hjs]
  | cons x rest ih =>
    rw [json_to_values] at hpre
    rw [List.cons_append, json_to_values]
    cases hx : json_to_value st x with
    | ok v sx =>
      rw [hx] at hpre
      simp only at hpre ⊢
      cases hr : json_to_values sx rest with
      | ok vr sr =>
        rw [hr] at hpre
        simp only [Outcome.ok.injEq] at hpre
        obtain ⟨_, rfl⟩ := hpre
        rw [ih sx vr hr]
      | json_error sr => rw [hr] at hpre; cases hpre
      | fatal m sr => rw [hr] at hpre; cases hpre
    | json_error sx => rw [hx] at hpre; cases hpre
    | fatal m sx => rw [hx] at hpre; cases hpre

theorem json_to_set_elements_error (st : LoadState) (elems : List json_t)
    (hbad : ∃ e ∈ elems, json_is_integer (some e) = false) :
    ∃ st1 : LoadState, json_to_set_elements st elems = .json_error st1 := by
  induction elems generalizing st with
  | nil => obtain ⟨e, he, _⟩ := hbad; cases he
  | cons x rest ih =>
    rw [json_to_set_elements]
    by_cases hx : json_is_integer (some x) = true
    · have hrest : ∃ e ∈ rest, json_is_integer (some e) = false := by
        obtain ⟨e, he, hb⟩ := hbad
        rcases List.mem_cons.1 he with rfl | he
        · rw [hx] at hb; cases hb
        · exact ⟨e, he, hb⟩
      obtain ⟨st1, h1⟩ := ih (iaca_retrieve_loaded_item st (json_integer_value (some x))).2 hrest
      exact ⟨st1, by simp only [hx, Bool.not_true, Bool.false_eq_true, if_false, h1, Outcome.bind]⟩
    · exact ⟨_, by simp only [hx, Bool.not_false, if_true, Bool.not_eq_true]; rfl⟩

/-- C19: `iaca_json_to_value` raises a JSON error, and so returns no value, for a null JSON
pointer, for a JSON value that is an array, a real, true or false, for an object without a
string `kd`, for an object whose `kd` is not one of the five kinds, for a `strv` without a
string `str`, for an `intv` without an integer `int`, for a `nodv` whose `sons` is not an
array, for a `setv` whose `elemids` is not an array or has an element that is not an
integer; and a node fails with the error of the first of its sons that fails. -/
theorem C19_malformed_values_are_rejected :
    (∀ st : LoadState, iaca_json_to_value st none
        = .json_error (iaca_json_error_printf_state st "null json pointer"))
      ∧ (∀ (st : LoadState) (js : json_t), js ≠ .null → (∀ n, js ≠ .integer n) →
        (∀ s, js ≠ .string s) → (∀ members, js ≠ .object members) →
        iaca_json_to_value st (some js)
          = .json_error (iaca_json_error_printf_state st "unexepected json type #%d"))
      ∧ (∀ (st : LoadState) (members : List (String × json_t)),
        json_string_value (members.lookup "kd") = none →
        iaca_json_to_value st (some (.object members))
          = .json_error (iaca_json_error_printf_state st "missing 'kd' in object"))
      ∧ (∀ (st : LoadState) (members : List (String × json_t)) (kdstr : String),
        json_string_value (members.lookup "kd") = some kdstr →
        kdstr ∉ ["strv", "intv", "nodv", "setv", "itrv"] →
        iaca_json_to_value st (some (.object members))
          = .json_error (iaca_json_error_printf_state st "bad kind string %s in object"))
      ∧ (∀ (st : LoadState) (members : List (String × json_t)),
        json_string_value (members.lookup "kd") = some "strv" →
        json_string_value (members.lookup "str") = none →
        iaca_json_to_value st (some (.object members))
          = .json_error (iaca_json_error_printf_state st "missing 'str' in object for string"))
      ∧ (∀ (st : LoadState) (members : List (String × json_t)),
        json_string_value (members.lookup "kd") = some "intv" →
        json_is_integer (members.lookup "int") = false →
        iaca_json_to_value st (some (.object members))
          = .json_error (iaca_json_error_printf_state st "missing 'int' in object for integer"))
      ∧ (∀ (st : LoadState) (members : List (String × json_t)),
        json_string_value (members.lookup "kd") = some "nodv" →
        json_is_array (members.lookup "sons") = false →
        ∃ fmt : String, iaca_json_to_value st (some (.object members))
          = .json_error (iaca_json_error_printf_state st fmt))
      ∧ (∀ (st : LoadState) (members : List (String × json_t)),
        json_string_value (members.lookup "kd") = some "setv" →
        json_is_array (members.lookup "elemids") = false →
        iaca_json_to_value st (some (.object members))
          = .json_error (iaca_json_error_printf_state st "bad 'elemids' in object for set"))
      ∧ (∀ (st : LoadState) (members : List (String × json_t)) (elems : List json_t),
        json_string_value (members.lookup "kd") = some "setv" →
        members.lookup "elemids" = some (.array elems) →
        (∃ e ∈ elems, json_is_integer (some e) = false) →
        ∃ st1 : LoadState, iaca_json_to_value st (some (.object members)) = .json_error st1)
      ∧ ∀ (st : LoadState) (members : List (String × json_t)) (pre : List json_t)
          (js : json_t) (post : List json_t) (vs : List IacaValue) (s s1 : LoadState),
        json_string_value (members.lookup "kd") = some "nodv" →
        0 < json_integer_value (members.lookup "conid") →
        members.lookup "sons" = some (.array (pre ++ js :: post)) →
        json_to_values
          (iaca_retrieve_loaded_item st (json_integer_value (members.lookup "conid"))).2 pre
          = .ok vs s →
        iaca_json_to_value s (some js) = .json_error s1 →
        iaca_json_to_value st (some (.object members)) = .json_error s1 := by
  have hn1 : ("nodv" == "strv") = false := by decide
  have hn2 : ("nodv" == "intv") = false := by decide
  have hn3 : ("nodv" == "nodv") = true := by decide
  have hs1 : ("setv" == "strv") = false := by decide
  have hs2 : ("setv" == "intv") = false := by decide
  have hs3 : ("setv" == "nodv") = false := by decide
  have hs4 : ("setv" == "setv") = true := by decide
  refine ⟨fun st => rfl, ?_, ?_, ?_, ?_, ?_, ?_, ?_, ?_, ?_⟩
  · intro st js h0 h1 h2 h3
    cases js with
    | null => exact absurd rfl h0
    | integer n => exact absurd rfl (h1 n)
    | string s => exact absurd rfl (h2 s)
    | object members => exact absurd rfl (h3 members)
    | array elems => rfl
    | real => rfl
    | jtrue => rfl
    | jfalse => rfl
  · intro st members hkd
    simp only [iaca_json_to_value, json_to_value, hkd]
    rfl
  · intro st members kdstr hkd hnot
    simp only [List.mem_cons, List.mem_singleton, List.not_mem_nil, or_false, not_or] at hnot
    obtain ⟨a1, a2, a3, a4, a5⟩ := hnot
    have b1 : (kdstr == "strv") = false := by simpa using a1
    have b2 : (kdstr == "intv") = false := by simpa using a2
    have b3 : (kdstr == "nodv") = false := by simpa using a3
    have b4 : (kdstr == "setv") = false := by simpa using a4
    have b5 : (kdstr == "itrv") = false := by simpa using a5
    simp only [iaca_json_to_value, json_to_value, hkd, b1, b2, b3, b4, b5, Bool.false_eq_true,
      if_false]
    rfl
  · intro st members hkd hstr
    have h1 : ("strv" == "strv") = true := by decide
    simp only [iaca_json_to_value, json_to_value, hkd, h1, if_true, hstr]
    rfl
  · intro st members hkd hint
    have h1 : ("intv" == "strv") = false := by decide
    have h2 : ("intv" == "intv") = true := by decide
    simp only [iaca_json_to_value, json_to_value, hkd, h1, h2, hint, if_true,
      Bool.false_eq_true, if_false]
    rfl
  · intro st members hkd hsons
    by_cases hid : json_integer_value (members.lookup "conid") ≤ 0
    · exact ⟨_, by
        simp only [iaca_json_to_value, json_to_value, hkd, hn1, hn2, hn3, hid, if_true,
          Bool.false_eq_true, if_false]
        rfl⟩
    · exact ⟨_, by
        simp only [iaca_json_to_value, json_to_value, hkd, hn1, hn2, hn3, hid, hsons, if_true,
          Bool.false_eq_true, if_false, Bool.not_false]
        rfl⟩
  · intro st members hkd helems
    simp only [iaca_json_to_value, json_to_value, hkd, hs1, hs2, hs3, hs4, helems, if_true,
      Bool.false_eq_true, if_false, Bool.not_false]
    rfl
  · intro st members elems hkd helems hbad
    obtain ⟨st1, h1⟩ := json_to_set_elements_error st elems hbad
    refine ⟨st1, ?_⟩
    simp only [iaca_json_to_value, json_to_value, hkd, hs1, hs2, hs3, hs4, helems, if_true,
      Bool.false_eq_true, if_false, json_is_array, Bool.not_true, json_array_elems, h1,
      Outcome.bind]
  · intro st members pre js post vs s s1 hkd hid hsons hpre hjs
    have hid2 : ¬ json_integer_value (members.lookup "conid") ≤ 0 := by omega
    simp only [iaca_json_to_value, json_to_value, hkd, hn1, hn2, hn3, hid2, hsons, if_true,
      Bool.false_eq_true, if_false, json_is_array, Bool.not_true]
    rw [json_to_sons_eq_values _ members _ hsons,
      json_to_values_error_at _ pre js post vs s s1 hpre hjs]

/-- C19 at instances, in a new loader: an array is not a value, and the node of connective 5
whose second son is the JSON value true fails with the error of that son, raised after the
item 5 was created. -/
theorem C19_witness :
    iaca_json_to_value load_state_new (some (.array []))
        = .json_error (iaca_json_error_printf_state load_state_new "unexepected json type #%d")
      ∧ iaca_json_to_value load_state_new
          (some (.object [("kd", .string "nodv"), ("conid", .integer 5),
            ("sons", .array ([.integer 1] ++ .jtrue :: [.integer 2]))]))
        = .json_error (iaca_json_error_printf_state (iaca_retrieve_loaded_item load_state_new 5).2
            "unexepected json type #%d") :=
  ⟨C19_malformed_values_are_rejected.2.1 load_state_new (.array []) (by intro h; cases h)
      (by intro n h; cases h) (by intro s h; cases h) (by intro m h; cases h),
    C19_malformed_values_are_rejected.2.2.2.2.2.2.2.2.2 load_state_new _ [.integer 1] .jtrue
      [.integer 2] [.integer 1] (iaca_retrieve_loaded_item load_state_new 5).2 _ rfl
      (by decide) rfl rfl rfl⟩

theorem iaca_json_to_value_grows (st : LoadState) (js : Option json_t) :
    st.grows_to (iaca_json_to_value st js).state ∧ (iaca_json_to_value st js).is_fatal = false := by
  cases js with
  | none => exact ⟨grows_to_error st _, rfl⟩
  | some j => exact json_to_value_grows st j

theorem load_item_attrs_not_fatal (itm : Nat) (st : LoadState) (elems : List json_t) :
    (load_item_attrs itm st elems).is_fatal = false := by
  induction elems generalizing st with
  | nil => rfl
  | cons e rest ih =>
    unfold load_item_attrs
    split
    · rfl
    · split
      · rfl
      · have hv := (iaca_json_to_value_grows st (json_object_get (some e) "val")).2
        split
        · exact ih _
        · exact ih _
        · rfl
        · next h => rw [h] at hv; exact hv

theorem load_item_attrs_bad_entry (itm : Nat) (st : LoadState) (elems : List json_t)
    (hbad : ∃ e ∈ elems, json_is_object (some e) = false ∨ json_object_get (some e) "val" = none) :
    ∃ st1 : LoadState, load_item_attrs itm st elems = .json_error st1 := by
  induction elems generalizing st with
  | nil => obtain ⟨e, he, _⟩ := hbad; cases he
  | cons x rest ih =>
    unfold load_item_attrs
    split
    · exact ⟨_, rfl⟩
    · next hobj =>
      split
      · exact ⟨_, rfl⟩
      · have hrest : json_object_get (some x) "val" ≠ none →
            ∃ e ∈ rest, json_is_object (some e) = false ∨ json_object_get (some e) "val" = none := by
          intro hval
          obtain ⟨e, he, hb⟩ := hbad
          rcases List.mem_cons.1 he with rfl | he
          · rcases hb with hb | hb
            · rw [hb] at hobj; simp at hobj
            · exact absurd hb hval
          · exact ⟨e, he, hb⟩
        have hv := (iaca_json_to_value_grows st (json_object_get (some x) "val")).2
        cases hval : json_object_get (some x) "val" with
        | none => exact ⟨_, rfl⟩
        | some jv =>
          have hr := hrest (by rw [hval]; simp)
          rw [hval] at hv
          split
          · exact ih _ hr
          · exact ih _ hr
          · exact ⟨_, rfl⟩
          · next h => rw [h] at hv; cases hv

theorem retrieve_some_valid (st : LoadState) (id : Int) (tab : List (ItemKey × Nat))
    (hpos : 0 < id) (htab : st.ld.ld_itemhtab = some tab)
    (hwf : ∀ e ∈ tab, e.2 < st.heap.length) :
    ∃ (itm : Nat) (it : iacaitem_st),
      (iaca_retrieve_loaded_item st id).1 = some itm
        ∧ (iaca_retrieve_loaded_item st id).2.heap[itm]? = some it := by
  cases hl : g_hash_table_lookup ld_hash ld_equal tab { addr := none, v_ident := id } with
  | some found =>
    rw [retrieve_found st id tab found hpos htab hl]
    simp only [g_hash_table_lookup, Option.map_eq_some'] at hl
    obtain ⟨e, he, hev⟩ := hl
    have hlt := hwf e (List.mem_of_find?_eq_some he)
    rw [hev] at hlt
    exact ⟨found, st.heap[found], rfl, by simp [hlt]⟩
  | none =>
    rw [retrieve_fresh st id tab hpos htab hl]
    exact ⟨st.heap.length, plain_item id st.ld.ld_dataspace, rfl, by simp⟩

theorem load_item_content_steps (st : LoadState) (js : Option json_t)
    (tab : List (ItemKey × Nat)) (htab : st.ld.ld_itemhtab = some tab)
    (hwf : ∀ e ∈ tab, e.2 < st.heap.length) :
    (∃ st1 : LoadState, iaca_load_item_content st js = .json_error st1)
      ∨ (json_is_array (json_object_get js "itemattrs") = true
        ∧ ∃ (itm : Nat) (st2 st3 st4 : LoadState) (v : IacaValue),
          load_item_attrs itm st2 (json_array_elems (json_object_get js "itemattrs")) = .ok () st3
            ∧ iaca_json_to_value st3 (json_object_get js "itemcontent") = .ok v st4
            ∧ iaca_load_item_content st js =
              iaca_load_item_pay_load (st4.modify_item itm fun c => { c with v_itemcontent := v })
                itm (json_object_get js "itempayload")) := by
  unfold iaca_load_item_content
  by_cases hobj : json_is_object js = true
  · by_cases hid : json_integer_value (json_object_get js "item") ≤ 0
    · exact Or.inl ⟨_, by simp only [hobj, hid, Bool.not_true, Bool.false_eq_true, if_false, if_true]; rfl⟩
    · obtain ⟨itm, it, h1, h2⟩ := retrieve_some_valid st _ tab (Int.not_le.1 hid) htab hwf
      simp only [hobj, hid, Bool.not_true, Bool.false_eq_true, if_false, h1, h2]
      by_cases hds : it.v_dataspace.isSome = true
      · exact Or.inl ⟨_, by simp only [hds, if_true]; rfl⟩
      · by_cases harr : json_is_array (json_object_get js "itemattrs") = true
        · simp only [hds, harr, Bool.not_true, Bool.false_eq_true, if_false]
          have hnf := load_item_attrs_not_fatal itm
            ((iaca_retrieve_loaded_item st (json_integer_value (json_object_get js "item"))).2.modify_item
              itm fun c => { c with v_dataspace :=
                (iaca_retrieve_loaded_item st
                  (json_integer_value (json_object_get js "item"))).2.ld.ld_dataspace })
            (json_array_elems (json_object_get js "itemattrs"))
          cases hat : load_item_attrs itm
            ((iaca_retrieve_loaded_item st (json_integer_value (json_object_get js "item"))).2.modify_item
              itm fun c => { c with v_dataspace :=
                (iaca_retrieve_loaded_item st
                  (json_integer_value (json_object_get js "item"))).2.ld.ld_dataspace })
            (json_array_elems (json_object_get js "itemattrs")) with
          | ok u st3 =>
            simp only
            have hcf := (iaca_json_to_value_grows st3 (json_object_get js "itemcontent")).2
            cases hc : iaca_json_to_value st3 (json_object_get js "itemcontent") with
            | ok v st4 => exact Or.inr ⟨trivial, itm, _, st3, st4, v, hat, hc, rfl⟩
            | json_error st4 => exact Or.inl ⟨_, rfl⟩
            | fatal m st4 => rw [hc] at hcf; cases hcf
          | json_error st3 => exact Or.inl ⟨_, rfl⟩
          | fatal m st3 => rw [hat] at hnf; cases hnf
        · exact Or.inl ⟨_, by simp only [hds, harr, Bool.not_false, if_true, Bool.false_eq_true, if_false]; rfl⟩
  · exact Or.inl ⟨_, by simp only [hobj, Bool.not_false, if_true, Bool.not_eq_true]; rfl⟩

theorem load_item_content_of_non_positive_id (st : LoadState) (js : Option json_t)
    (hid : json_integer_value (json_object_get js "item") ≤ 0) :
    ∃ st1 : LoadState, iaca_load_item_content st js = .json_error st1 := by
  unfold iaca_load_item_content
  by_cases hobj : json_is_object js = true
  · exact ⟨_, by simp only [hobj, hid, Bool.not_true, Bool.false_eq_true, if_false, if_true]; rfl⟩
  · exact ⟨_, by simp only [hobj, Bool.not_false, if_true, Bool.not_eq_true]; rfl⟩

/-- C20: in a loader that has a table whose items are in the heap, `iaca_load_item_content`
raises a JSON error for every record that is not an object, lacks `item`, has no array
`itemattrs`, lacks `itemcontent` or `itempayload`, or has an attribute entry that is not an
object or lacks `val`. -/
theorem C20_incomplete_records_are_rejected (st : LoadState) (js : Option json_t)
    (tab : List (ItemKey × Nat)) (htab : st.ld.ld_itemhtab = some tab)
    (hwf : ∀ e ∈ tab, e.2 < st.heap.length)
    (hbad : json_is_object js = false ∨ json_object_get js "item" = none
      ∨ json_is_array (json_object_get js "itemattrs") = false
      ∨ json_object_get js "itemcontent" = none ∨ json_object_get js "itempayload" = none
      ∨ ∃ e ∈ json_array_elems (json_object_get js "itemattrs"),
          json_is_object (some e) = false ∨ json_object_get (some e) "val" = none) :
    ∃ st1 : LoadState, iaca_load_item_content st js = .json_error st1 := by
  rcases load_item_content_steps st js tab htab hwf with h | ⟨harr, itm, st2, st3, st4, v, hat, hc, hload⟩
  · exact h
  · rcases hbad with hb | hb | hb | hb | hb | hb
    · exact ⟨_, by simp only [iaca_load_item_content, hb, Bool.not_false, if_true]; rfl⟩
    · exact load_item_content_of_non_positive_id st js (by rw [hb]; decide)
    · rw [hb] at harr; cases harr
    · rw [hb] at hc; cases hc
    · rw [hload, hb]; exact ⟨_, rfl⟩
    · obtain ⟨st1, h1⟩ := load_item_attrs_bad_entry itm st2 _ hb
      rw [h1] at hat; cases hat

/-- C20 at instances, in a new loader: a record without `itempayload`, and a record whose
attribute entry has no `val`. -/
theorem C20_witness :
    (∃ st1 : LoadState,
        iaca_load_item_content load_state_new
          (some (.object [("item", .integer 42), ("itemattrs", .array []),
            ("itemcontent", .null)])) = .json_error st1)
      ∧ ∃ st1 : LoadState,
        iaca_load_item_content load_state_new
          (some (.object [("item", .integer 42),
            ("itemattrs", .array [.object [("atid", .integer 43)]]),
            ("itemcontent", .null), ("itempayload", .null)])) = .json_error st1 :=
  ⟨C20_incomplete_records_are_rejected load_state_new _ [] rfl (fun e he => by cases he)
      (Or.inr (Or.inr (Or.inr (Or.inr (Or.inl rfl))))),
    C20_incomplete_records_are_rejected load_state_new _ [] rfl (fun e he => by cases he)
      (Or.inr (Or.inr (Or.inr (Or.inr (Or.inr
        ⟨.object [("atid", .integer 43)], List.mem_singleton.2 rfl, Or.inr rfl⟩)))))⟩

/-- C21 fails on the code: an `itempayload` that is neither JSON null nor an object (here
the integer 5, a string, an array) makes `iaca_load_item_pay_load` return normally without
touching the item, and an object without `payloadkind` sends a null pointer to `strcmp`,
which stops the program instead of raising a JSON error. Only an object with an unknown
kind string is reported. -/
theorem C21_other_payloads_are_not_rejected :
    iaca_load_item_pay_load load_state_after_42 0 (some (.integer 5)) = .ok () load_state_after_42
      ∧ iaca_load_item_pay_load load_state_after_42 0 (some (.string "vector"))
        = .ok () load_state_after_42
      ∧ iaca_load_item_pay_load load_state_after_42 0 (some (.array []))
        = .ok () load_state_after_42
      ∧ iaca_load_item_pay_load load_state_after_42 0 (some (.object []))
        = .fatal "strcmp of a null pointer" load_state_after_42
      ∧ iaca_load_item_pay_load load_state_after_42 0
          (some (.object [("payloadkind", .string "set")]))
        = .json_error
          (iaca_json_error_printf_state load_state_after_42 "unexepected payload kind %s") :=
  ⟨rfl, rfl, rfl, rfl, rfl⟩

/-- C22 fails on the code: a queue payload without `payloadqueue`, a dictionnary payload whose
`payloaddictionnary` is an integer and a closure payload without `payloadcloval` are loaded
without error, as an empty queue, an empty dictionnary and a closure whose slots are all
null; only the vector and the buffer payloads are tested with `json_is_array`. -/
theorem C22_missing_element_fields_load_empty :
    (∃ st : LoadState,
        iaca_load_item_pay_load load_state_greet 0
            (some (.object [("payloadkind", .string "queue")])) = .ok () st
          ∧ (st.heap[0]?).map (·.v_payload) = some (.IACAPAYLOAD_QUEUE (some [])))
      ∧ (∃ st : LoadState,
        iaca_load_item_pay_load load_state_greet 0
            (some (.object [("payloadkind", .string "dictionnary"),
              ("payloaddictionnary", .integer 3)])) = .ok () st
          ∧ (st.heap[0]?).map (·.v_payload) = some (.IACAPAYLOAD_DICTIONNARY (some [])))
      ∧ (∃ st : LoadState,
        iaca_load_item_pay_load load_state_greet 0
            (some (.object [("payloadkind", .string "closure"),
              ("payloadclofun", .string "greet")])) = .ok () st
          ∧ (st.heap[0]?).map (·.v_payload) = some (.IACAPAYLOAD_CLOSURE
              (some { clo_fun := some greet, clo_valtab := [.null, .null] })))
      ∧ iaca_load_item_pay_load load_state_greet 0
          (some (.object [("payloadkind", .string "vector")]))
        = .json_error
          (iaca_json_error_printf_state load_state_greet "bad item #%lld vector payload")
      ∧ ∃ st : LoadState,
        iaca_load_item_pay_load load_state_greet 0
            (some (.object [("payloadkind", .string "buffer")])) = .json_error st
          ∧ st.ld.ld_errstr = some "bad item #%lld buffer payload" :=
  ⟨⟨_, rfl, rfl⟩, ⟨_, rfl, rfl⟩, ⟨_, rfl, rfl⟩, rfl, _, rfl, rfl⟩

theorem dropWhile_space_append (ws rest : List Char) (hws : ∀ c ∈ ws, c_isspace c = true) :
    (ws ++ rest).dropWhile c_isspace = rest.dropWhile c_isspace := by
  induction ws with
  | nil => rfl
  | cons c cs ih =>
    have hc : c_isspace c = true := hws c (List.mem_cons_self _ _)
    simp only [List.cons_append, List.dropWhile_cons, hc, if_true]
    exact ih fun x hx => hws x (List.mem_cons_of_mem _ hx)

theorem scan_literal_append (kw rest : List Char) :
    scan_literal kw (kw ++ rest) = .rest rest := by
  induction kw with
  | nil => cases rest <;> rfl
  | cons k ks ih => simp [scan_literal, ih]

theorem takeWhile_word (name tail : List Char) (hname : ∀ c ∈ name, c_isspace c = false)
    (htail : ∀ c ∈ tail.head?, c_isspace c = true) :
    (name ++ tail).takeWhile (fun c => !c_isspace c) = name := by
  induction name with
  | nil =>
    cases tail with
    | nil => rfl
    | cons t ts =>
      have ht : c_isspace t = true := htail t rfl
      simp [List.takeWhile_cons, ht]
  | cons c cs ih =>
    have hc : c_isspace c = false := hname c (List.mem_cons_self _ _)
    simp only [List.cons_append, List.takeWhile_cons, hc, Bool.not_false, if_true]
    rw [ih fun x hx => hname x (List.mem_cons_of_mem _ hx)]

/-- The scan of a directive line by the format of its own keyword stores the name. -/
theorem sscanf_ms_directive (keyword : String) (k : Char) (ks : List Char)
    (ws sep name tail : List Char)
    (hk : keyword.data = k :: ks) (hkk : c_isspace k = false)
    (hws : ∀ c ∈ ws, c_isspace c = true) (hsep : ∀ c ∈ sep, c_isspace c = true)
    (hne : name ≠ []) (hname : ∀ c ∈ name, c_isspace c = false)
    (htail : ∀ c ∈ tail.head?, c_isspace c = true) :
    sscanf_ms keyword (directive_line ws keyword sep name tail) = (1, some (String.mk name)) := by
  obtain ⟨n, ns, rfl⟩ := List.exists_cons_of_ne_nil hne
  have hn : c_isspace n = false := hname n (List.mem_cons_self _ _)
  have h1 : (ws ++ keyword.data ++ sep ++ (n :: ns) ++ tail).dropWhile c_isspace
      = keyword.data ++ (sep ++ (n :: ns) ++ tail) := by
    rw [List.append_assoc, List.append_assoc, List.append_assoc,
      dropWhile_space_append _ _ hws, hk]
    simp [List.dropWhile_cons, hkk]
  have h2 : (sep ++ (n :: ns) ++ tail).dropWhile c_isspace = (n :: ns) ++ tail := by
    rw [List.append_assoc, dropWhile_space_append _ _ hsep]
    simp [List.dropWhile_cons, hn]
  simp only [sscanf_ms, directive_line, h1, scan_literal_append, h2,
    takeWhile_word _ _ hname htail]
  rfl

/-- The first character of a directive line is white space other than a newline, or the
first character of the keyword. -/
theorem directive_line_head (keyword : String) (k : Char) (ks : List Char)
    (ws sep name tail : List Char) (hk : keyword.data = k :: ks)
    (hws : ∀ c ∈ ws, c_isspace c = true) (hnl : ws.head? ≠ some '\n')
    (hk1 : k ≠ '#') (hk2 : k ≠ '\n') :
    ((directive_line ws keyword sep name tail).data.head? == some '#'
      || (directive_line ws keyword sep name tail).data.head? == some '\n'
      || (directive_line ws keyword sep name tail).data.isEmpty) = false := by
  cases ws with
  | nil => simp [directive_line, hk, hk1, hk2]
  | cons c cs =>
    have hc : c_isspace c = true := hws c (List.mem_cons_self _ _)
    have h1 : c ≠ '#' := by
      rintro rfl
      exact absurd hc (by decide)
    have h2 : c ≠ '\n' := by
      rintro rfl
      exact hnl rfl
    simp [directive_line, h1, h2]

/-- The scan of a directive line by the format of another keyword is a matching failure. -/
theorem sscanf_ms_other (keyword other : String) (k : Char) (ks : List Char)
    (ws sep name tail : List Char)
    (hk : keyword.data = k :: ks) (hkk : c_isspace k = false)
    (hws : ∀ c ∈ ws, c_isspace c = true)
    (hmis : ∀ rest, scan_literal other.data (keyword.data ++ rest) = .matching_failure) :
    sscanf_ms other (directive_line ws keyword sep name tail) = (0, none) := by
  have h1 : (ws ++ keyword.data ++ sep ++ name ++ tail).dropWhile c_isspace
      = keyword.data ++ (sep ++ name ++ tail) := by
    rw [List.append_assoc, List.append_assoc, List.append_assoc,
      dropWhile_space_append _ _ hws, hk]
    simp [List.dropWhile_cons, hkk]
  simp only [sscanf_ms, directive_line, h1, hmis]

theorem iaca_load_lines_append (env : LoadEnv) (dirpath : String) (l1 l2 : List String)
    (w : LoadWorld) :
    iaca_load_lines env dirpath w (l1 ++ l2)
      = match iaca_load_lines env dirpath w l1 with
        | .ok w1 => iaca_load_lines env dirpath w1 l2
        | .json_error w1 => .json_error w1
        | .fatal msg w1 => .fatal msg w1 := by
  induction l1 generalizing w with
  | nil => rfl
  | cons line rest ih =>
    simp only [List.cons_append, iaca_load_lines]
    cases iaca_load_line env dirpath w line with
    | ok w1 => exact ih w1
    | json_error w1 => rfl
    | fatal msg w1 => rfl

/-- Claim C23, with the keywords of the source: `iaca_load` recognises the manifest directives
`IACAMODULE <name>`, `IACADATA <spacename>` and `IACATOPDICT <id>`, optionally preceded by
white space. An `IACAMODULE` line calls `iaca_load_module` with the name and the load goes on
exactly when it returns null; an `IACADATA` line whose file `<spacename>.json` exists calls
`iaca_load_data` on it with the space name, the load going on exactly when that call returns,
and stops the load when the file does not exist; an `IACATOPDICT` line makes no call; lines
that begin with `MODULE`, `DATA` or `TOPDICT` do nothing; and the lines are processed in
manifest order. -/
theorem C23_iaca_directives_are_recognised (env : LoadEnv) (dirpath : String)
    (w : LoadWorld) (ws sep name tail : List Char)
    (hws : ∀ c ∈ ws, c_isspace c = true) (hnl : ws.head? ≠ some '\n')
    (hsep : ∀ c ∈ sep, c_isspace c = true)
    (hne : name ≠ []) (hname : ∀ c ∈ name, c_isspace c = false)
    (htail : ∀ c ∈ tail.head?, c_isspace c = true) :
    ((iaca_load_line env dirpath w (directive_line ws "IACAMODULE" sep name tail)).world.calls
          = w.calls ++ [.module (some (String.mk name))]
        ∧ (iaca_load_line env dirpath w
            (directive_line ws "IACAMODULE" sep name tail)).world.ia_module_htab
          = (iaca_load_module env w.ia_module_htab (some dirpath) (some (String.mk name))).2
        ∧ (iaca_load_line env dirpath w (directive_line ws "IACAMODULE" sep name tail)).is_ok
          = (iaca_load_module env w.ia_module_htab (some dirpath)
              (some (String.mk name))).1.isNone)
      ∧ (g_file_test_exists env (g_build_filename dirpath (String.mk name ++ ".json")) = true →
          (iaca_load_line env dirpath w
              (directive_line ws "IACADATA" sep name tail)).world.calls
            = w.calls ++ [.data (g_build_filename dirpath (String.mk name ++ ".json"))
                (String.mk name)]
          ∧ (iaca_load_line env dirpath w (directive_line ws "IACADATA" sep name tail)).world.st
            = (iaca_load_data w.st
                (json_load_file env (g_build_filename dirpath (String.mk name ++ ".json")))
                (String.mk name)).state
          ∧ (iaca_load_line env dirpath w (directive_line ws "IACADATA" sep name tail)).is_ok
            = (iaca_load_data w.st
                (json_load_file env (g_build_filename dirpath (String.mk name ++ ".json")))
                (String.mk name)).is_ok)
      ∧ (g_file_test_exists env (g_build_filename dirpath (String.mk name ++ ".json")) = false →
          iaca_load_line env dirpath w (directive_line ws "IACADATA" sep name tail)
            = .fatal "data file %s does not exist" w)
      ∧ iaca_load_line env dirpath w (directive_line ws "IACATOPDICT" sep name tail) = .ok w
      ∧ (iaca_load_line env dirpath w (directive_line ws "MODULE" sep name tail) = .ok w
        ∧ iaca_load_line env dirpath w (directive_line ws "DATA" sep name tail) = .ok w
        ∧ iaca_load_line env dirpath w (directive_line ws "TOPDICT" sep name tail) = .ok w)
      ∧ ∀ (l1 l2 : List String) (w0 : LoadWorld),
          iaca_load_lines env dirpath w0 (l1 ++ l2)
            = match iaca_load_lines env dirpath w0 l1 with
              | .ok w1 => iaca_load_lines env dirpath w1 l2
              | .json_error w1 => .json_error w1
              | .fatal msg w1 => .fatal msg w1 := by
  have hI : c_isspace 'I' = false := by decide
  have hmod := sscanf_ms_directive "IACAMODULE" 'I' _ ws sep name tail rfl hI hws hsep hne
    hname htail
  have hdat := sscanf_ms_directive "IACADATA" 'I' _ ws sep name tail rfl hI hws hsep hne
    hname htail
  have hdm := sscanf_ms_other "IACADATA" "IACAMODULE" 'I' _ ws sep name tail rfl hI hws
    fun _ => rfl
  have htm := sscanf_ms_other "IACATOPDICT" "IACAMODULE" 'I' _ ws sep name tail rfl hI hws
    fun _ => rfl
  have htd := sscanf_ms_other "IACATOPDICT" "IACADATA" 'I' _ ws sep name tail rfl hI hws
    fun _ => rfl
  have hhm := directive_line_head "IACAMODULE" 'I' _ ws sep name tail rfl hws hnl
    (by decide) (by decide)
  have hhd := directive_line_head "IACADATA" 'I' _ ws sep name tail rfl hws hnl
    (by decide) (by decide)
  have hht := directive_line_head "IACATOPDICT" 'I' _ ws sep name tail rfl hws hnl
    (by decide) (by decide)
  have hplain : ∀ (keyword : String) (k : Char) (ks : List Char), keyword.data = k :: ks →
      c_isspace k = false → k ≠ '#' → k ≠ '\n' → k ≠ 'I' →
      iaca_load_line env dirpath w (directive_line ws keyword sep name tail) = .ok w := by
    intro keyword k ks hk hkk h1 h2 h3
    have hmis : ∀ (other : String) (os : List Char), other.data = 'I' :: os →
        ∀ rest, scan_literal other.data (keyword.data ++ rest) = .matching_failure := by
      intro other os ho rest
      rw [ho, hk]
      simp [scan_literal, h3]
    have hm := sscanf_ms_other keyword "IACAMODULE" k ks ws sep name tail hk hkk hws
      (hmis "IACAMODULE" _ rfl)
    have hd := sscanf_ms_other keyword "IACADATA" k ks ws sep name tail hk hkk hws
      (hmis "IACADATA" _ rfl)
    have hh := directive_line_head keyword k ks ws sep name tail hk hws hnl h1 h2
    simp only [iaca_load_line, hh, hm, hd]
    simp
  refine ⟨?_, ?_, ?_, ?_, ⟨?_, ?_, ?_⟩, iaca_load_lines_append env dirpath⟩
  · simp only [iaca_load_line, hhm, hmod]
    cases h : (iaca_load_module env w.ia_module_htab (some dirpath) (some (String.mk name))).1
      <;> simp [WorldOutcome.world, WorldOutcome.is_ok]
  · intro hex
    simp only [iaca_load_line, hhd, hdm, hdat, hex]
    cases h : iaca_load_data w.st
        (json_load_file env (g_build_filename dirpath (String.mk name ++ ".json")))
        (String.mk name)
      <;> simp [WorldOutcome.world, WorldOutcome.is_ok, Outcome.state, Outcome.is_ok]
  · intro hex
    simp only [iaca_load_line, hhd, hdm, hdat, hex]
    simp
  · simp only [iaca_load_line, hht, htm, htd]
    simp
  · exact hplain "MODULE" 'M' _ rfl (by decide) (by decide) (by decide) (by decide)
  · exact hplain "DATA" 'D' _ rfl (by decide) (by decide) (by decide) (by decide)
  · exact hplain "TOPDICT" 'T' _ rfl (by decide) (by decide) (by decide) (by decide)

/-- C23 at instances, in the state directory of the minimal graph, whose data file `s.json`
holds the record of the item 42: the manifest line `IACADATA s` makes `iaca_load` call
`iaca_load_data` on `./s.json` for the space `s`, a call that ends on the JSON error raised
by the record; the line `IACATOPDICT 42` makes no call and the line `MODULE first` does
nothing. With a data file without record the call returns. -/
theorem C23_witness :
    ((iaca_load_line (env_of root_42 []) "." world_new "IACADATA s\n").world.calls
          = [.data "./s.json" "s"]
        ∧ (iaca_load_line (env_of root_42 []) "." world_new "IACADATA s\n").world.st
          = (iaca_load_data load_state_new (some root_42) "s").state
        ∧ (iaca_load_line (env_of root_42 []) "." world_new "IACADATA s\n").is_ok = false)
      ∧ ((iaca_load_line (env_of root_empty []) "." world_new "IACADATA s\n").world.calls
          = [.data "./s.json" "s"]
        ∧ (iaca_load_line (env_of root_empty []) "." world_new "IACADATA s\n").is_ok = true)
      ∧ (iaca_load_line (env_of root_42 []) "." world_new "IACATOPDICT 42\n").world.calls = []
      ∧ (iaca_load_line (env_of root_42 []) "." world_new "MODULE first\n").world.calls = []
      ∧ (iaca_load (env_of root_42 ["IACAMODULE first\n", "IACADATA s\n", "IACATOPDICT 42\n"])
          world_new none).world.calls = [.module (some "first"), .data "./s.json" "s"] :=
  have h := C23_iaca_directives_are_recognised (env_of root_42 []) "." world_new
    [] [' '] ['s'] ['\n'] (by decide) (by decide) (by decide) (by decide) (by decide)
    (by decide)
  have he := C23_iaca_directives_are_recognised (env_of root_empty []) "." world_new
    [] [' '] ['s'] ['\n'] (by decide) (by decide) (by decide) (by decide) (by decide)
    (by decide)
  have h42 := C23_iaca_directives_are_recognised (env_of root_42 []) "." world_new
    [] [' '] ['4', '2'] ['\n'] (by decide) (by decide) (by decide) (by decide) (by decide)
    (by decide)
  have hf := C23_iaca_directives_are_recognised (env_of root_42 []) "." world_new
    [] [' '] ['f', 'i', 'r', 's', 't'] ['\n'] (by decide) (by decide) (by decide) (by decide)
    (by decide) (by decide)
  ⟨⟨(h.2.1 rfl).1, (h.2.1 rfl).2.1, (h.2.1 rfl).2.2.trans rfl⟩,
    ⟨(he.2.1 rfl).1, (he.2.1 rfl).2.2.trans rfl⟩,
    congrArg (fun o => o.world.calls) h42.2.2.2.1,
    congrArg (fun o => o.world.calls) hf.2.2.2.2.1.1,
    rfl⟩

/-- C23 as stated fails on the code: the manifest lines `MODULE first`, `DATA s` and
`TOPDICT 42` fit none of the formats ` IACAMODULE %ms`, ` IACADATA %ms` and
` IACATOPDICT %lld`, so the load returns without having called the plugin loader or loaded
the data file of `s`. -/
theorem C23_counterexample_plain_directives :
    sscanf_ms "IACAMODULE" "MODULE first\n" = (0, none)
      ∧ sscanf_ms "IACADATA" "DATA s\n" = (0, none)
      ∧ sscanf_lld "IACATOPDICT" "TOPDICT 42\n" = (0, none)
      ∧ (iaca_load (env_of root_42 ["MODULE first\n", "DATA s\n", "TOPDICT 42\n"]) world_new
          none).is_ok = true
      ∧ (iaca_load (env_of root_42 ["MODULE first\n", "DATA s\n", "TOPDICT 42\n"]) world_new
          none).world.calls = []
      ∧ (iaca_load (env_of root_42 ["MODULE first\n", "DATA s\n", "TOPDICT 42\n"]) world_new
          none).world.ia_module_htab = []
      ∧ (iaca_load (env_of root_42 ["MODULE first\n", "DATA s\n", "TOPDICT 42\n"]) world_new
          none).world.st.heap = [] :=
  ⟨by decide, by decide, by decide, rfl, rfl, rfl, rfl⟩

/-- C24 fails on the code: on the blank line made of one space and the newline, the format
` IACAMODULE %ms` meets the end of the line before its conversion, `sscanf` gives `EOF`,
which is not zero, `iaca_load_module` is called with the null name, and its error stops the
load. Lines that are empty, start with `#` or name an unknown directive do nothing. -/
theorem C24_blank_line_stops_the_load :
    sscanf_ms "IACAMODULE" " \n" = (-1, none)
      ∧ (∃ w : LoadWorld,
        iaca_load (env_of root_empty [" \n", "IACADATA s\n"]) world_new none
            = .fatal "failed to load module '%s' - %s" w
          ∧ w.calls = [.module none])
      ∧ (iaca_load_module (env_of root_empty []) [] (some ".") none).1
        = some "empty modname to load module"
      ∧ (iaca_load (env_of root_empty ["\n", "# IACADATA s\n", "FOO bar\n"]) world_new
          none).is_ok = true
      ∧ (iaca_load (env_of root_empty ["\n", "# IACADATA s\n", "FOO bar\n"]) world_new
          none).world.calls = [] :=
  ⟨by decide, ⟨_, rfl, rfl⟩, rfl, rfl, rfl⟩

theorem iaca_load_line_keeps_topdict (env : LoadEnv) (dirpath : String) (w : LoadWorld)
    (line : String) :
    (iaca_load_line env dirpath w line).world.ia_topdictitm = w.ia_topdictitm := by
  unfold iaca_load_line
  split
  · rfl
  · split
    · dsimp only
      split <;> rfl
    · split
      · split
        · split <;> rfl
        · dsimp only
          split
          · rfl
          · split <;> rfl
      · split <;> rfl

theorem iaca_load_lines_keeps_topdict (env : LoadEnv) (dirpath : String) (lines : List String)
    (w : LoadWorld) :
    (iaca_load_lines env dirpath w lines).world.ia_topdictitm = w.ia_topdictitm := by
  induction lines generalizing w with
  | nil => rfl
  | cons line rest ih =>
    have h := iaca_load_line_keeps_topdict env dirpath w line
    simp only [iaca_load_lines]
    cases hl : iaca_load_line env dirpath w line with
    | ok w1 =>
      rw [hl] at h
      exact (ih w1).trans h
    | json_error w1 =>
      rw [hl] at h
      exact h
    | fatal msg w1 =>
      rw [hl] at h
      exact h

/-- The load never writes the top dictionary item, whatever the manifest. -/
theorem iaca_load_keeps_topdict (env : LoadEnv) (w : LoadWorld) (dirpath : Option String) :
    (iaca_load env w dirpath).world.ia_topdictitm = w.ia_topdictitm := by
  unfold iaca_load
  simp only []
  split
  · rfl
  · exact iaca_load_lines_keeps_topdict env _ _ _

/-- C25 fails on the code: the load of the manifest `IACADATA s`, `IACATOPDICT 42` returns
normally, the number 42 is read by `sscanf`, and the top dictionary item is still null: the
branch of the directive is empty. Whatever the state directory, the top dictionary item
after `iaca_load` is the one before. -/
theorem C25_topdict_is_never_set :
    sscanf_lld "IACATOPDICT" "IACATOPDICT 42\n" = (1, some 42)
      ∧ (∃ w : LoadWorld,
        iaca_load (env_of root_empty ["IACADATA s\n", "IACATOPDICT 42\n"]) world_new none
            = .ok w
          ∧ w.calls = [.data "./s.json" "s"]
          ∧ w.ia_topdictitm = none)
      ∧ ∀ (env : LoadEnv) (w : LoadWorld) (dirpath : Option String),
          (iaca_load env w dirpath).world.ia_topdictitm = w.ia_topdictitm :=
  ⟨by decide, ⟨_, rfl, rfl, rfl⟩, iaca_load_keeps_topdict⟩

theorem load_records_append (st : LoadState) (rs1 rs2 : List json_t) :
    load_records st (rs1 ++ rs2)
      = (load_records st rs1).bind fun _ st1 => load_records st1 rs2 := by
  induction rs1 generalizing st with
  | nil => rfl
  | cons r rest ih =>
    simp only [List.cons_append, load_records]
    cases iaca_load_item_content st (some r) with
    | ok v st1 => exact ih st1
    | json_error st1 => rfl
    | fatal msg st1 => rfl

/-- The routine `iaca_load_data` stops the program before any record is read (no item is made,
the table of the loader is as before) when the root of the data file is not an object, has
no string `iacaversion`, has one different from "2011A", or has no array `itemcont`;
otherwise it runs the loop over the records of `itemcont` in array order, each record in the
state left by the one before, under the dataspace of the space name. -/
theorem iaca_load_data_checks_before_records (st : LoadState) (root : Option json_t)
    (spacename : String) :
    ((json_is_object root = false
          ∨ json_string_value (json_object_get root "iacaversion") = none
          ∨ (∃ v, json_string_value (json_object_get root "iacaversion") = some v
              ∧ v ≠ "2011A")
          ∨ json_is_array (json_object_get root "itemcont") = false) →
        ∃ msg st1, iaca_load_data st root spacename = .fatal msg st1
          ∧ st1.heap = st.heap ∧ st1.iaca = st.iaca
          ∧ st1.ld.ld_itemhtab = st.ld.ld_itemhtab)
      ∧ (∀ recs : List json_t, json_is_object root = true →
          json_string_value (json_object_get root "iacaversion") = some "2011A" →
          json_object_get root "itemcont" = some (.array recs) →
          iaca_load_data st root spacename
            = (load_records
                { st with ld := { st.ld with ld_dataspace := some (iaca_dataspace spacename) } }
                recs).bind
              fun _ st2 => .ok () { st2 with ld := { st2.ld with ld_dataspace := none } })
      ∧ (∀ s : LoadState, load_records s [] = .ok () s)
      ∧ (∀ (s : LoadState) (r : json_t) (rs : List json_t),
          load_records s (r :: rs)
            = (iaca_load_item_content s (some r)).bind fun _ s1 => load_records s1 rs)
      ∧ ∀ (s : LoadState) (rs1 rs2 : List json_t),
          load_records s (rs1 ++ rs2)
            = (load_records s rs1).bind fun _ s1 => load_records s1 rs2 := by
  refine ⟨?_, ?_, fun _ => rfl, fun _ _ _ => rfl, fun s rs1 rs2 => load_records_append s rs1 rs2⟩
  · intro h
    unfold iaca_load_data
    dsimp only
    split
    · exact ⟨_, _, rfl, rfl, rfl, rfl⟩
    · split
      · exact ⟨_, _, rfl, rfl, rfl, rfl⟩
      · rename_i hobj
        split
        · exact ⟨_, _, rfl, rfl, rfl, rfl⟩
        · rename_i verstr hver
          split
          · exact ⟨_, _, rfl, rfl, rfl, rfl⟩
          · rename_i hv
            split
            · exact ⟨_, _, rfl, rfl, rfl, rfl⟩
            · rename_i harr
              exfalso
              rcases h with h | h | ⟨v, h1, h2⟩ | h
              · simp [h] at hobj
              · rw [h] at hver
                exact Option.noConfusion hver
              · rw [h1] at hver
                injection hver with hver
                subst hver
                simp [IACA_JSON_VERSION, h2] at hv
              · simp [h] at harr
  · intro recs hobj hver harr
    have hroot : root.isNone = false := by
      cases root with
      | none => simp [json_is_object] at hobj
      | some r => rfl
    unfold iaca_load_data
    simp [hroot, hobj, hver, harr, IACA_JSON_VERSION, json_is_array, json_array_elems]

/-- A data file with the key `version` in place of `iacaversion` and one with the version
"2011B" stop the load before the record of item 42 is read; the empty data file of version
"2011A" is loaded. -/
theorem iaca_load_data_checks_examples :
    (∃ msg st1,
        iaca_load_data load_state_new
            (some (.object [("version", .string "2011A"),
              ("itemcont", .array [plain_record 42])])) "s" = .fatal msg st1
          ∧ st1.heap = load_state_new.heap ∧ st1.iaca = load_state_new.iaca
          ∧ st1.ld.ld_itemhtab = load_state_new.ld.ld_itemhtab)
      ∧ (∃ msg st1,
        iaca_load_data load_state_new
            (some (.object [("iacaversion", .string "2011B"),
              ("itemcont", .array [plain_record 42])])) "s" = .fatal msg st1
          ∧ st1.heap = load_state_new.heap ∧ st1.iaca = load_state_new.iaca
          ∧ st1.ld.ld_itemhtab = load_state_new.ld.ld_itemhtab)
      ∧ iaca_load_data load_state_new (some root_empty) "s"
        = (load_records (load_state_in ⟨"s"⟩) []).bind
          fun _ st2 => .ok () { st2 with ld := { st2.ld with ld_dataspace := none } } :=
  ⟨(iaca_load_data_checks_before_records load_state_new
      (some (.object [("version", .string "2011A"),
        ("itemcont", .array [plain_record 42])])) "s").1 (Or.inr (Or.inl rfl)),
    (iaca_load_data_checks_before_records load_state_new
      (some (.object [("iacaversion", .string "2011B"),
        ("itemcont", .array [plain_record 42])])) "s").1
      (Or.inr (Or.inr (Or.inl ⟨"2011B", rfl, by decide⟩))),
    (iaca_load_data_checks_before_records load_state_new (some root_empty) "s").2.1
      [] rfl rfl rfl⟩

theorem g_hash_table_insert_fresh {κ ν : Type} (hash_func : κ → Nat)
    (key_equal_func : κ → κ → Bool) (tab : List (κ × ν)) (key : κ) (value : ν)
    (h : g_hash_table_lookup hash_func key_equal_func tab key = none) :
    g_hash_table_insert hash_func key_equal_func tab key value = tab ++ [(key, value)] := by
  induction tab with
  | nil => rfl
  | cons e rest ih =>
    unfold g_hash_table_lookup at h ih
    simp only [List.find?_cons] at h
    by_cases he : (g_hash_real (hash_func e.1) == g_hash_real (hash_func key)
        && key_equal_func e.1 key) = true
    · simp [he] at h
    · simp only [Bool.not_eq_true] at he
      simp only [he] at h
      simp only [g_hash_table_insert, he, Bool.false_eq_true, if_false, List.cons_append]
      rw [ih h]

theorem is_dumped_iff (du : iacadumper_st) (a : Nat) :
    is_dumped du a = true ↔ a ∈ pushed du := by
  simp [is_dumped, pushed, List.any_eq_true]

theorem is_dumped_false_iff (du : iacadumper_st) (a : Nat) :
    is_dumped du a = false ↔ a ∉ pushed du := by
  rw [← is_dumped_iff]
  simp

theorem pushed_of_scan_pushes (hp : Heap) (du du1 : iacadumper_st) (new : List Nat)
    (h : scan_pushes hp du du1 new) : pushed du1 = pushed du ++ new := by
  unfold pushed
  rw [h.2.1, List.map_append, List.map_map]
  congr 1
  exact List.map_id _

theorem scan_pushes_refl (hp : Heap) (du : iacadumper_st) : scan_pushes hp du du [] :=
  ⟨by simp, by simp, rfl, List.nodup_nil, fun _ h => absurd h (List.not_mem_nil _)⟩

theorem scan_pushes_trans (hp : Heap) (du du1 du2 : iacadumper_st) (new1 new2 : List Nat)
    (h1 : scan_pushes hp du du1 new1) (h2 : scan_pushes hp du1 du2 new2) :
    scan_pushes hp du du2 (new1 ++ new2) := by
  have hp1 := pushed_of_scan_pushes hp du du1 new1 h1
  have hnot : ∀ a ∈ new2, a ∉ pushed du ∧ a ∉ new1 := by
    intro a ha
    have h3 := (is_dumped_false_iff du1 a).1 (h2.2.2.2.2 a ha).2
    rw [hp1, List.mem_append] at h3
    exact ⟨fun h => h3 (Or.inl h), fun h => h3 (Or.inr h)⟩
  refine ⟨?_, ?_, ?_, ?_, ?_⟩
  · rw [h2.1, h1.1, List.append_assoc]
  · rw [h2.2.1, h1.2.1, List.map_append, List.append_assoc]
  · rw [h2.2.2.1, h1.2.2.1]
  · rw [List.nodup_append]
    exact ⟨h1.2.2.2.1, h2.2.2.2.1, fun a ha1 ha2 => (hnot a ha2).2 ha1⟩
  · intro a ha
    rcases List.mem_append.1 ha with h | h
    · exact h1.2.2.2.2 a h
    · exact ⟨(h2.2.2.2.2 a h).1, (is_dumped_false_iff du a).2 (hnot a h).1⟩

/-- The routine `iaca_dump_queue_item` pushes nothing, or the one item given, when it is in
the heap and not in the table. -/
theorem queue_item_pushes (hp : Heap) (du : iacadumper_st) (itm : Option Nat) :
    ∃ new, scan_pushes hp du (iaca_dump_queue_item hp du itm).2 new := by
  unfold iaca_dump_queue_item
  cases itm with
  | none => exact ⟨[], scan_pushes_refl hp du⟩
  | some a =>
    dsimp only
    cases hit : hp[a]? with
    | none => exact ⟨[], scan_pushes_refl hp du⟩
    | some it =>
      dsimp only
      split
      · exact ⟨[], scan_pushes_refl hp du⟩
      · cases hl : g_hash_table_lookup g_direct_hash g_direct_equal du.du_itemhtab a with
        | some v => exact ⟨[], scan_pushes_refl hp du⟩
        | none =>
          dsimp only
          split
          · exact ⟨[], scan_pushes_refl hp du⟩
          · refine ⟨[a], rfl, ?_, rfl, List.nodup_singleton a, ?_⟩
            · exact g_hash_table_insert_fresh _ _ _ _ _ hl
            · intro x hx
              rw [List.mem_singleton] at hx
              subst hx
              have hlt : x < hp.length := by
                by_contra hge
                rw [List.getElem?_eq_none (Nat.le_of_not_lt hge)] at hit
                exact Option.noConfusion hit
              have hd := g_direct_lookup_isSome du.du_itemhtab x
              rw [hl] at hd
              exact ⟨hlt, hd.symm⟩

theorem foldl_pushes {β : Type} (hp : Heap) (f : iacadumper_st → β → iacadumper_st)
    (hf : ∀ d b, ∃ new, scan_pushes hp d (f d b) new) (l : List β) (du : iacadumper_st) :
    ∃ new, scan_pushes hp du (l.foldl f du) new := by
  induction l generalizing du with
  | nil => exact ⟨[], scan_pushes_refl hp du⟩
  | cons b rest ih =>
    obtain ⟨n1, h1⟩ := hf du b
    obtain ⟨n2, h2⟩ := ih (f du b)
    exact ⟨n1 ++ n2, scan_pushes_trans hp _ _ _ _ _ h1 h2⟩

mutual
theorem scan_value_pushes (hp : Heap) (du : iacadumper_st) :
    ∀ v : IacaValue, ∃ new, scan_pushes hp du (iaca_dump_scan_value hp du v) new
  | .null => ⟨[], scan_pushes_refl hp du⟩
  | .integer _ => ⟨[], scan_pushes_refl hp du⟩
  | .string _ => ⟨[], scan_pushes_refl hp du⟩
  | .node conn sons => by
    unfold iaca_dump_scan_value
    split
    · exact ⟨[], scan_pushes_refl hp du⟩
    · obtain ⟨n1, h1⟩ := queue_item_pushes hp du conn
      obtain ⟨n2, h2⟩ := scan_sons_pushes hp (iaca_dump_queue_item hp du conn).2 sons
      exact ⟨n1 ++ n2, scan_pushes_trans hp _ _ _ _ _ h1 h2⟩
  | .set elems => by
    unfold iaca_dump_scan_value
    exact foldl_pushes hp _ (fun d e => queue_item_pushes hp d e) elems du
  | .item p => by
    unfold iaca_dump_scan_value
    exact queue_item_pushes hp du (some p)
theorem scan_sons_pushes (hp : Heap) (du : iacadumper_st) :
    ∀ sons : List IacaValue, ∃ new, scan_pushes hp du (iaca_dump_scan_sons hp du sons) new
  | [] => ⟨[], scan_pushes_refl hp du⟩
  | son :: rest => by
    unfold iaca_dump_scan_sons
    obtain ⟨n1, h1⟩ := scan_sons_pushes hp du rest
    obtain ⟨n2, h2⟩ := scan_value_pushes hp (iaca_dump_scan_sons hp du rest) son
    exact ⟨n1 ++ n2, scan_pushes_trans hp _ _ _ _ _ h1 h2⟩
end

theorem scan_item_content_pushes (hp : Heap) (du : iacadumper_st) (itm : Option Nat) :
    ∃ new, scan_pushes hp du (iaca_dump_scan_item_content hp du itm) new := by
  unfold iaca_dump_scan_item_content
  cases itm.bind (hp[·]?) with
  | none => exact ⟨[], scan_pushes_refl hp du⟩
  | some it =>
    dsimp only
    obtain ⟨n1, h1⟩ := scan_value_pushes hp du it.v_itemcontent
    obtain ⟨n2, h2⟩ := foldl_pushes hp
      (fun d vattr =>
        if iaca_dump_item_is_transient d (some vattr) then d
        else
          iaca_dump_scan_value hp (iaca_dump_queue_item hp d (some vattr)).2
            (iaca_item_attribute_physical_get it vattr))
      (fun d vattr => by
        dsimp only
        split
        · exact ⟨[], scan_pushes_refl hp d⟩
        · obtain ⟨m1, g1⟩ := queue_item_pushes hp d (some vattr)
          obtain ⟨m2, g2⟩ := scan_value_pushes hp (iaca_dump_queue_item hp d (some vattr)).2
            (iaca_item_attribute_physical_get it vattr)
          exact ⟨m1 ++ m2, scan_pushes_trans hp _ _ _ _ _ g1 g2⟩)
      (item_attributes it) (iaca_dump_scan_value hp du it.v_itemcontent)
    have h12 := scan_pushes_trans hp _ _ _ _ _ h1 h2
    have hv : ∀ d v, ∃ new, scan_pushes hp d (iaca_dump_scan_value hp d v) new :=
      fun d v => scan_value_pushes hp d v
    split
    · exact ⟨_, h12⟩
    · obtain ⟨n3, h3⟩ := foldl_pushes hp (fun d v => iaca_dump_scan_value hp d v) hv _ _
      exact ⟨_, scan_pushes_trans hp _ _ _ _ _ h12 h3⟩
    · exact ⟨_, h12⟩
    · obtain ⟨n3, h3⟩ := foldl_pushes hp (fun d v => iaca_dump_scan_value hp d v) hv _ _
      exact ⟨_, scan_pushes_trans hp _ _ _ _ _ h12 h3⟩
    · obtain ⟨n3, h3⟩ := foldl_pushes hp
        (fun d (e : iacadictentry_st) =>
          match e.de_str, e.de_val with
          | none, _ => d
          | _, .null => d
          | some _, val => iaca_dump_scan_value hp d val)
        (fun d e => by
          dsimp only
          split
          · exact ⟨[], scan_pushes_refl hp d⟩
          · exact ⟨[], scan_pushes_refl hp d⟩
          · exact hv d _) _ _
      exact ⟨_, scan_pushes_trans hp _ _ _ _ _ h12 h3⟩
    · split
      · split
        · obtain ⟨n3, h3⟩ := foldl_pushes hp
            (fun d ix => iaca_dump_scan_value hp d (List.getD _ ix .null))
            (fun d ix => hv d _) _ _
          exact ⟨_, scan_pushes_trans hp _ _ _ _ _ h12 h3⟩
        · exact ⟨_, h12⟩
      · exact ⟨_, h12⟩

theorem table_is_sound_length (hp : Heap) (du : iacadumper_st) (h : table_is_sound hp du) :
    du.du_itemhtab.length ≤ hp.length := by
  have h1 : (pushed du).length ≤ (List.range hp.length).length :=
    (List.subperm_of_subset h.1 fun a ha => List.mem_range.2 (h.2 a ha)).length_le
  rw [List.length_range] at h1
  simpa [pushed] using h1

theorem table_is_sound_of_pushes (hp : Heap) (du du1 : iacadumper_st) (new : List Nat)
    (h : scan_pushes hp du du1 new) (hs : table_is_sound hp du) : table_is_sound hp du1 := by
  unfold table_is_sound
  rw [pushed_of_scan_pushes hp du du1 new h]
  refine ⟨?_, ?_⟩
  · rw [List.nodup_append]
    exact ⟨hs.1, h.2.2.2.1,
      fun a ha1 ha2 => (is_dumped_false_iff du a).1 (h.2.2.2.2 a ha2).2 ha1⟩
  · intro a ha
    rcases List.mem_append.1 ha with h1 | h1
    · exact hs.2 a h1
    · exact (h.2.2.2.2 a h1).1

/-- With enough fuel the scanning loop returns with an empty queue; it scans the items of
the queue in their order, then the items pushed meanwhile in the order of their push. -/
theorem scan_loop_runs (hp : Heap) (fuel : Nat) :
    ∀ du : iacadumper_st, table_is_sound hp du →
      du.du_scanqueue.length + (hp.length - du.du_itemhtab.length) ≤ fuel →
      ∃ du1 new, iaca_dump_scan_loop hp fuel du = some du1 ∧ du1.du_scanqueue = []
        ∧ du1.du_itemhtab = du.du_itemhtab ++ new.map (fun a => (a, a))
        ∧ iaca_dump_scan_order hp fuel du = du.du_scanqueue ++ new
        ∧ table_is_sound hp du1 := by
  induction fuel with
  | zero =>
    intro du hs hfuel
    have hq : du.du_scanqueue = [] := by
      apply List.eq_nil_of_length_eq_zero
      omega
    refine ⟨du, [], ?_, hq, by simp, ?_, hs⟩
    · simp [iaca_dump_scan_loop, hq]
    · simp [iaca_dump_scan_order, hq]
  | succ fuel ih =>
    intro du hs hfuel
    cases hq : du.du_scanqueue with
    | nil =>
      refine ⟨du, [], ?_, hq, by simp, ?_, hs⟩
      · simp [iaca_dump_scan_loop, hq]
      · simp [iaca_dump_scan_order, hq]
    | cons itm rest =>
      obtain ⟨new, hpush⟩ := scan_item_content_pushes hp
        { du with du_scanqueue := rest, du_curitem := some itm } (some itm)
      have hs0 : table_is_sound hp { du with du_scanqueue := rest, du_curitem := some itm } := hs
      have hs1 := table_is_sound_of_pushes hp _ _ _ hpush hs0
      have hlen := table_is_sound_length hp _ hs1
      have htab := hpush.2.1
      have hque := hpush.1
      dsimp only at htab hque
      rw [htab, List.length_append, List.length_map] at hlen
      rw [hq, List.length_cons] at hfuel
      obtain ⟨du1, new1, hloop, hempty, htab1, horder, hs2⟩ := ih
        { iaca_dump_scan_item_content hp
            { du with du_scanqueue := rest, du_curitem := some itm } (some itm) with
          du_curitem := none }
        hs1
        (by
          dsimp only
          rw [hque, htab, List.length_append, List.length_append, List.length_map]
          omega)
      dsimp only at htab1 horder
      refine ⟨du1, new ++ new1, ?_, hempty, ?_, ?_, hs2⟩
      · simp only [iaca_dump_scan_loop, hq]
        exact hloop
      · rw [htab1, htab, List.map_append, List.append_assoc]
      · simp only [iaca_dump_scan_order, hq]
        rw [horder, hque, List.cons_append, List.append_assoc]

/-- The scan of `iaca_dump` from any root returns when the fuel is at least the number of
items of the store, and the items were scanned in the order of the table. -/
theorem scan_from_root (hp : Heap) (root : Option Nat) (fuel : Nat) (hfuel : hp.length ≤ fuel) :
    ∃ du1, iaca_dump_scan hp fuel root = some du1 ∧ du1.du_scanqueue = []
      ∧ iaca_dump_scan_order hp fuel (iaca_dump_queue_item hp dumper_new root).2 = pushed du1
      ∧ table_is_sound hp du1 := by
  obtain ⟨new0, h0⟩ := queue_item_pushes hp dumper_new root
  have hs0 : table_is_sound hp (iaca_dump_queue_item hp dumper_new root).2 :=
    table_is_sound_of_pushes hp _ _ _ h0
      ⟨List.nodup_nil, fun _ h => absurd h (List.not_mem_nil _)⟩
  have hlen := table_is_sound_length hp _ hs0
  have hq : (iaca_dump_queue_item hp dumper_new root).2.du_scanqueue = new0 := by
    rw [h0.1]
    rfl
  have ht : (iaca_dump_queue_item hp dumper_new root).2.du_itemhtab
      = new0.map fun a => (a, a) := by
    rw [h0.2.1]
    rfl
  rw [ht, List.length_map] at hlen
  obtain ⟨du1, new, hloop, hempty, htab1, horder, hs1⟩ := scan_loop_runs hp fuel _ hs0
    (by
      rw [hq, ht, List.length_map]
      omega)
  refine ⟨du1, hloop, hempty, ?_, hs1⟩
  rw [horder, hq]
  unfold pushed
  rw [htab1, ht, List.map_append, List.map_map, List.map_map]
  simp [Function.comp_def]

/-- Claim C28: for every store and every root, the scan of `iaca_dump` returns with an empty
queue as soon as the fuel is at least the number of items of the store, after at most that
many turns of the loop; more generally the loop returns from every dumper whose table holds
distinct items of the store, given the length of the queue plus the number of items not in
the table as fuel. Each routine called by a turn, here `iaca_dump_scan_value`, which is
defined by recursion on the value, pushes on the queue only items that it adds to the table. -/
theorem C28_scan_terminates (hp : Heap) (root : Option Nat) (fuel : Nat)
    (hfuel : hp.length ≤ fuel) :
    (∃ du1, iaca_dump_scan hp fuel root = some du1 ∧ du1.du_scanqueue = []
        ∧ (iaca_dump_scan_order hp fuel (iaca_dump_queue_item hp dumper_new root).2).length
          ≤ hp.length)
      ∧ (∀ (du : iacadumper_st) (n : Nat), table_is_sound hp du →
          du.du_scanqueue.length + (hp.length - du.du_itemhtab.length) ≤ n →
          ∃ du1, iaca_dump_scan_loop hp n du = some du1 ∧ du1.du_scanqueue = [])
      ∧ ∀ (du : iacadumper_st) (v : IacaValue),
          ∃ new, scan_pushes hp du (iaca_dump_scan_value hp du v) new := by
  refine ⟨?_, ?_, fun du v => scan_value_pushes hp du v⟩
  · obtain ⟨du1, h1, h2, h3, h4⟩ := scan_from_root hp root fuel hfuel
    refine ⟨du1, h1, h2, ?_⟩
    rw [h3]
    simpa [pushed] using table_is_sound_length hp du1 h4
  · intro du n hs hn
    obtain ⟨du1, _, h1, h2, _⟩ := scan_loop_runs hp n du hs hn
    exact ⟨du1, h1, h2⟩

/-- C28 at an instance: on the cyclic store, three units of fuel are enough for the scan from
the item 1, which ends with the three items in the table. -/
theorem C28_witness :
    (∃ du1, iaca_dump_scan store_cycle 3 (some 0) = some du1 ∧ du1.du_scanqueue = []
        ∧ (iaca_dump_scan_order store_cycle 3
            (iaca_dump_queue_item store_cycle dumper_new (some 0)).2).length
          ≤ store_cycle.length)
      ∧ iaca_dump_scan store_cycle 3 (some 0)
        = some { du_scanqueue := [], du_itemhtab := [(0, 0), (2, 2), (1, 1)],
                 du_curitem := none } :=
  ⟨(C28_scan_terminates store_cycle (some 0) 3 (by decide)).1, by decide⟩

/-- Claim C29: `iaca_dump_queue_item` leaves the dumper as it is for an item of the table, and
what it pushes was not in the table and is recorded in it; so in a scan from any root, with
enough fuel, the items scanned are the keys of the table, each once, and when the items of the
store have distinct identities no identity appears twice among them. -/
theorem C29_no_item_is_queued_twice (hp : Heap) (root : Option Nat) (fuel : Nat)
    (hfuel : hp.length ≤ fuel) :
    (∀ (du : iacadumper_st) (a : Nat), is_dumped du a = true →
        (iaca_dump_queue_item hp du (some a)).2 = du)
      ∧ (∀ (du : iacadumper_st) (itm : Option Nat),
          ∃ new, scan_pushes hp du (iaca_dump_queue_item hp du itm).2 new)
      ∧ ∃ du1, iaca_dump_scan hp fuel root = some du1
          ∧ iaca_dump_scan_order hp fuel (iaca_dump_queue_item hp dumper_new root).2
            = pushed du1
          ∧ (iaca_dump_scan_order hp fuel (iaca_dump_queue_item hp dumper_new root).2).Nodup
          ∧ ((∀ a b, a < hp.length → b < hp.length → hp.ident a = hp.ident b → a = b) →
              ((iaca_dump_scan_order hp fuel
                (iaca_dump_queue_item hp dumper_new root).2).map hp.ident).Nodup) := by
  refine ⟨?_, fun du itm => queue_item_pushes hp du itm, ?_⟩
  · intro du a ha
    have h1 := g_direct_lookup_isSome du.du_itemhtab a
    unfold is_dumped at ha
    rw [ha] at h1
    unfold iaca_dump_queue_item
    dsimp only
    split
    · rfl
    · split
      · rfl
      · cases hl : g_hash_table_lookup g_direct_hash g_direct_equal du.du_itemhtab a with
        | some v => rfl
        | none =>
          rw [hl] at h1
          exact absurd h1 (by decide)
  · obtain ⟨du1, h1, _, h3, h4⟩ := scan_from_root hp root fuel hfuel
    refine ⟨du1, h1, h3, ?_, ?_⟩
    · rw [h3]
      exact h4.1
    · intro hinj
      rw [h3]
      exact List.Nodup.map_on (fun a ha b hb hab => hinj a b (h4.2 a ha) (h4.2 b hb) hab) h4.1

/-- C29 at an instance: the scan of the cyclic store from the item 1 scans each of the three
items once, though the item 1 is met again from the item 2. -/
theorem C29_witness :
    iaca_dump_scan_order store_cycle 3 (iaca_dump_queue_item store_cycle dumper_new (some 0)).2
        = [0, 2, 1]
      ∧ ∃ du1, iaca_dump_scan store_cycle 3 (some 0) = some du1
          ∧ iaca_dump_scan_order store_cycle 3
              (iaca_dump_queue_item store_cycle dumper_new (some 0)).2 = pushed du1
          ∧ (iaca_dump_scan_order store_cycle 3
              (iaca_dump_queue_item store_cycle dumper_new (some 0)).2).Nodup
          ∧ ((∀ a b, a < store_cycle.length → b < store_cycle.length →
                store_cycle.ident a = store_cycle.ident b → a = b) →
              ((iaca_dump_scan_order store_cycle 3
                (iaca_dump_queue_item store_cycle dumper_new (some 0)).2).map
                  store_cycle.ident).Nodup) :=
  ⟨by decide, (C29_no_item_is_queued_twice store_cycle (some 0) 3 (by decide)).2.2⟩

/-- Claim C30: from a dumper whose table holds distinct items of the store, and with enough
fuel, `iaca_dump_scan_loop` scans first the items of the queue in their order, then the items
pushed during the scan in the order of their push, which is the order of their insertion in
the table; in the scan of `iaca_dump` from a root that is queued, the root is scanned
first. -/
theorem C30_scan_order_is_first_in_first_out (hp : Heap) (du : iacadumper_st) (fuel : Nat)
    (hsound : table_is_sound hp du)
    (hfuel : du.du_scanqueue.length + (hp.length - du.du_itemhtab.length) ≤ fuel) :
    (∃ du1 new, iaca_dump_scan_loop hp fuel du = some du1
        ∧ pushed du1 = pushed du ++ new
        ∧ iaca_dump_scan_order hp fuel du = du.du_scanqueue ++ new)
      ∧ ∀ (root : Nat) (n : Nat), hp.length ≤ n →
          (iaca_dump_queue_item hp dumper_new (some root)).1 = false →
          ∃ du1 later, iaca_dump_scan hp n (some root) = some du1
            ∧ iaca_dump_scan_order hp n (iaca_dump_queue_item hp dumper_new (some root)).2
              = root :: later
            ∧ pushed du1 = root :: later := by
  refine ⟨?_, ?_⟩
  · obtain ⟨du1, new, h1, _, h3, h4, _⟩ := scan_loop_runs hp fuel du hsound hfuel
    refine ⟨du1, new, h1, ?_, h4⟩
    unfold pushed
    rw [h3, List.map_append, List.map_map]
    congr 1
    exact List.map_id _
  · intro root n hn hq
    obtain ⟨du1, h1, _, h3, _⟩ := scan_from_root hp (some root) n hn
    have hroot : (iaca_dump_queue_item hp dumper_new (some root)).2.du_scanqueue = [root] := by
      revert hq
      unfold iaca_dump_queue_item
      dsimp only
      split
      · intro h
        exact absurd h (by decide)
      · split
        · intro h
          exact absurd h (by decide)
        · have hl : g_hash_table_lookup g_direct_hash g_direct_equal dumper_new.du_itemhtab root
              = none := rfl
          rw [hl]
          dsimp only
          split
          · intro h
            exact absurd h (by decide)
          · intro _
            rfl
    have horder : ∃ later, iaca_dump_scan_order hp n
        (iaca_dump_queue_item hp dumper_new (some root)).2 = root :: later := by
      cases n with
      | zero =>
        have hlen : hp.length = 0 := by omega
        have hsound0 := (queue_item_pushes hp dumper_new (some root))
        obtain ⟨new0, h0⟩ := hsound0
        have hmem : root ∈ new0 := by
          have := h0.1
          rw [hroot] at this
          have h5 : new0 = [root] := by simpa [dumper_new] using this.symm
          rw [h5]
          exact List.mem_singleton_self root
        have := (h0.2.2.2.2 root hmem).1
        omega
      | succ m =>
        simp only [iaca_dump_scan_order, hroot]
        exact ⟨_, rfl⟩
    obtain ⟨later, hlater⟩ := horder
    exact ⟨du1, later, h1, hlater, by rw [← h3, hlater]⟩

/-- C30 at an instance: on the cyclic store the item 1 is scanned first, then its content the
item 3, found before the item 2 of its attribute; and from a queue holding the item 2 before
the item 1, the item 2 is scanned first and the item 3, pushed during the scan, last. -/
theorem C30_witness :
    iaca_dump_scan_order store_cycle 3 (iaca_dump_queue_item store_cycle dumper_new (some 0)).2
        = [0, 2, 1]
      ∧ iaca_dump_scan_order store_cycle 3 ⟨[1, 0], [(0, 0), (1, 1)], none⟩ = [1, 0, 2]
      ∧ ∃ du1 new, iaca_dump_scan_loop store_cycle 3 ⟨[1, 0], [(0, 0), (1, 1)], none⟩ = some du1
          ∧ pushed du1 = pushed ⟨[1, 0], [(0, 0), (1, 1)], none⟩ ++ new
          ∧ iaca_dump_scan_order store_cycle 3 ⟨[1, 0], [(0, 0), (1, 1)], none⟩
            = (⟨[1, 0], [(0, 0), (1, 1)], none⟩ : iacadumper_st).du_scanqueue ++ new :=
  ⟨by decide, by decide,
    (C30_scan_order_is_first_in_first_out store_cycle ⟨[1, 0], [(0, 0), (1, 1)], none⟩ 3
      ⟨by decide, by decide⟩ (by decide)).1⟩

/-- Claim C31: `iaca_dump_queue_item` pushes the item at the tail of the queue, records it in
the table and returns false when the pointer is not null, points to an item, the item is not
in the table and has a dataspace; it returns true and changes nothing for a null pointer, a
value that is not an item, or an item that is not in the table and has no dataspace; and the
dumper changes in no other case than the first. -/
theorem C31_queue_item_rule (hp : Heap) (du : iacadumper_st) (itm : Option Nat) :
    (∀ a it, itm = some a → hp[a]? = some it → it.v_kind = .IACAV_ITEM →
        is_dumped du a = false → it.v_dataspace.isSome = true →
        iaca_dump_queue_item hp du itm
            = (false, ⟨du.du_scanqueue ++ [a], du.du_itemhtab ++ [(a, a)], du.du_curitem⟩)
          ∧ is_dumped (iaca_dump_queue_item hp du itm).2 a = true)
      ∧ ((itm = none ∨ (∃ a it, itm = some a ∧ hp[a]? = some it ∧ it.v_kind ≠ .IACAV_ITEM)
            ∨ (∃ a it, itm = some a ∧ hp[a]? = some it ∧ is_dumped du a = false
                ∧ it.v_dataspace = none)) →
          iaca_dump_queue_item hp du itm = (true, du))
      ∧ ((iaca_dump_queue_item hp du itm).2 ≠ du →
          ∃ a it, itm = some a ∧ hp[a]? = some it ∧ it.v_kind = .IACAV_ITEM
            ∧ is_dumped du a = false ∧ it.v_dataspace.isSome = true) := by
  have hlook : ∀ a, is_dumped du a = false →
      g_hash_table_lookup g_direct_hash g_direct_equal du.du_itemhtab a = none := by
    intro a ha
    have h := g_direct_lookup_isSome du.du_itemhtab a
    unfold is_dumped at ha
    rw [ha] at h
    cases hl : g_hash_table_lookup g_direct_hash g_direct_equal du.du_itemhtab a with
    | none => rfl
    | some v =>
      rw [hl] at h
      exact absurd h (by simp)
  refine ⟨?_, ?_, ?_⟩
  · intro a it hitm hit hkind hseen hdsp
    subst hitm
    have hl := hlook a hseen
    obtain ⟨dsp, hd⟩ := Option.isSome_iff_exists.1 hdsp
    have hq : iaca_dump_queue_item hp du (some a)
        = (false, ⟨du.du_scanqueue ++ [a], du.du_itemhtab ++ [(a, a)], du.du_curitem⟩) := by
      unfold iaca_dump_queue_item
      simp only [hit, hkind, hl, hd, g_hash_table_insert_fresh _ _ _ _ _ hl]
      simp
    refine ⟨hq, ?_⟩
    rw [hq]
    simp [is_dumped]
  · rintro (h | ⟨a, it, h1, h2, h3⟩ | ⟨a, it, h1, h2, h3, h4⟩)
    · subst h
      rfl
    · subst h1
      unfold iaca_dump_queue_item
      simp [h2, h3]
    · subst h1
      have hl := hlook a h3
      unfold iaca_dump_queue_item
      simp only [h2, hl, h4]
      split <;> rfl
  · intro hne
    cases itm with
    | none => exact absurd rfl hne
    | some a =>
      cases hit : hp[a]? with
      | none =>
        exfalso
        apply hne
        unfold iaca_dump_queue_item
        simp [hit]
      | some it =>
        by_cases hkind : it.v_kind = .IACAV_ITEM
        · cases hseen : is_dumped du a with
          | true =>
            exfalso
            apply hne
            have h := g_direct_lookup_isSome du.du_itemhtab a
            unfold is_dumped at hseen
            rw [hseen] at h
            unfold iaca_dump_queue_item
            simp only [hit, hkind]
            cases hl : g_hash_table_lookup g_direct_hash g_direct_equal du.du_itemhtab a with
            | none =>
              rw [hl] at h
              exact absurd h (by decide)
            | some v => simp
          | false =>
            cases hdsp : it.v_dataspace with
            | none =>
              exfalso
              apply hne
              have hl := hlook a hseen
              unfold iaca_dump_queue_item
              simp [hit, hkind, hl, hdsp]
            | some dsp => exact ⟨a, it, rfl, hit, hkind, hseen, by simp [hdsp]⟩
        · exfalso
          apply hne
          unfold iaca_dump_queue_item
          simp [hit, hkind]

/-- C31 at instances: in the store of two items of the dataspace `s`, the item of address 1 is
pushed behind the item 0 and recorded; the null pointer changes nothing. -/
theorem C31_witness :
    (iaca_dump_queue_item store_plain ⟨[0], [(0, 0)], none⟩ (some 1)
          = (false, ⟨[0] ++ [1], [(0, 0)] ++ [(1, 1)], none⟩)
        ∧ is_dumped (iaca_dump_queue_item store_plain ⟨[0], [(0, 0)], none⟩ (some 1)).2 1 = true)
      ∧ iaca_dump_queue_item store_plain ⟨[0], [(0, 0)], none⟩ none
        = (true, ⟨[0], [(0, 0)], none⟩) :=
  ⟨(C31_queue_item_rule store_plain ⟨[0], [(0, 0)], none⟩ (some 1)).1 1
      (plain_item 6 (some ⟨"s"⟩)) rfl rfl rfl (by decide) rfl,
    (C31_queue_item_rule store_plain ⟨[0], [(0, 0)], none⟩ none).2.1 (Or.inl rfl)⟩

/-- C32 as stated fails on the code: for the item of address 0, which is in the table, the
result of `iaca_dump_queue_item` is false, not true; the dumper is unchanged. -/
theorem C32_counterexample_seen_item :
    is_dumped (dumper_of [0]) 0 = true
      ∧ iaca_dump_queue_item store_plain (dumper_of [0]) (some 0) = (false, dumper_of [0]) :=
  ⟨by decide, by decide⟩

/-- Claim C32, with the result of the source: `iaca_dump_queue_item` applied to an item that is
already in the table returns false and leaves the queue and the table unchanged. -/
theorem C32_seen_item_is_not_queued_again (hp : Heap) (du : iacadumper_st) (a : Nat)
    (it : iacaitem_st) (hit : hp[a]? = some it) (hkind : it.v_kind = .IACAV_ITEM)
    (hseen : is_dumped du a = true) :
    iaca_dump_queue_item hp du (some a) = (false, du) := by
  have h := g_direct_lookup_isSome du.du_itemhtab a
  unfold is_dumped at hseen
  rw [hseen] at h
  unfold iaca_dump_queue_item
  simp only [hit, hkind]
  cases hl : g_hash_table_lookup g_direct_hash g_direct_equal du.du_itemhtab a with
  | none =>
    rw [hl] at h
    exact absurd h (by decide)
  | some v => simp

/-- C32 at an instance: the item of address 1, in the table and in the queue. -/
theorem C32_witness :
    iaca_dump_queue_item store_plain ⟨[1], [(0, 0), (1, 1)], none⟩ (some 1)
      = (false, ⟨[1], [(0, 0), (1, 1)], none⟩) :=
  C32_seen_item_is_not_queued_again store_plain ⟨[1], [(0, 0), (1, 1)], none⟩ 1
    (plain_item 6 (some ⟨"s"⟩)) rfl rfl (by decide)

/-- C33 fails on the code: the attribute of the item 1 has as key the item 2, which has a
dataspace but is not yet in the table; the scan of the item 1 skips the attribute, so neither
the key nor the item 3 of its value is queued, and the whole scan from the item 1 dumps the
item 1 alone. The call of `iaca_dump_queue_item` on the key comes after the test
`iaca_dump_item_is_transient`, which lets through only keys of the table: it never changes
the dumper. -/
theorem C33_unseen_key_is_skipped :
    is_persistent store_unseen_key 1 = true ∧ is_persistent store_unseen_key 2 = true
      ∧ iaca_dump_scan_item_content store_unseen_key ⟨[], [(0, 0)], some 0⟩ (some 0)
        = ⟨[], [(0, 0)], some 0⟩
      ∧ iaca_dump_scan store_unseen_key 3 (some 0) = some ⟨[], [(0, 0)], none⟩
      ∧ iaca_dump_scan_item_content store_unseen_key ⟨[], [(0, 0), (1, 1)], some 0⟩ (some 0)
        = ⟨[2], [(0, 0), (1, 1), (2, 2)], some 0⟩
      ∧ ∀ (hp : Heap) (du : iacadumper_st) (vattr : Nat),
          iaca_dump_item_is_transient du (some vattr) = true
            ∨ (iaca_dump_queue_item hp du (some vattr)).2 = du := by
  refine ⟨by decide, by decide, by decide, by decide, by decide, ?_⟩
  intro hp du vattr
  rw [is_transient_some]
  cases hseen : is_dumped du vattr with
  | false => exact Or.inl rfl
  | true =>
    refine Or.inr ?_
    have h := g_direct_lookup_isSome du.du_itemhtab vattr
    unfold is_dumped at hseen
    rw [hseen] at h
    unfold iaca_dump_queue_item
    dsimp only
    split
    · rfl
    · split
      · rfl
      · cases hl : g_hash_table_lookup g_direct_hash g_direct_equal du.du_itemhtab vattr with
        | none =>
          rw [hl] at h
          exact absurd h (by decide)
        | some v => rfl

/-- C36 fails on the code: from the new loader, the call for the identity 5 makes the item of
address 0, and the call for the identity 1073741944 then returns that same item, whose
identity is 5: both identities have the same `iaca_item_ghash` and `iaca_item_gheq` is always
true. No item of identity 1073741944 is made. -/
theorem C36_colliding_ids_share_an_item :
    iaca_item_ghash (some ⟨none, 5⟩) = iaca_item_ghash (some ⟨none, 1073741944⟩)
      ∧ iaca_item_gheq (some ⟨none, 5⟩) (some ⟨none, 1073741944⟩) = true
      ∧ (iaca_retrieve_loaded_item load_state_new 5).1 = some 0
      ∧ (iaca_retrieve_loaded_item (iaca_retrieve_loaded_item load_state_new 5).2
          1073741944).1 = some 0
      ∧ (iaca_retrieve_loaded_item (iaca_retrieve_loaded_item load_state_new 5).2
          1073741944).2.heap.ident 0 = 5
      ∧ (iaca_retrieve_loaded_item (iaca_retrieve_loaded_item load_state_new 5).2
          1073741944).2.heap.length = 1 :=
  ⟨by decide, by decide, rfl, rfl, rfl, rfl⟩

/-- C37 fails on the code: the dump of the buffer holding the two lines `ab` and `cd` writes a
NUL over the newline in the buffer of the store, so the text read in the buffer afterwards is
`ab` while the recorded length is still 5; a second dump of the item gives the one line
`ab`. -/
theorem C37_buffer_dump_writes_in_the_store :
    buffer_of [buffer_item "ab\ncd"] 0 = some ⟨5, ['a', 'b', '\n', 'c', 'd']⟩
      ∧ buffer_of (iaca_dump_item_pay_load_json [buffer_item "ab\ncd"] (dumper_of [0])
          (some 0)).2 0 = some ⟨5, ['a', 'b', '\x00', 'c', 'd']⟩
      ∧ c_string ['a', 'b', '\x00', 'c', 'd'] = ['a', 'b']
      ∧ (iaca_dump_item_pay_load_json [buffer_item "ab\ncd"] (dumper_of [0]) (some 0)).1
        = some (.object [("payloadkind", .string "buffer"), ("payloadbuflen", .integer 5),
            ("payloadbuffer", .array [.string "ab", .string "cd"])])
      ∧ (iaca_dump_item_pay_load_json
          (iaca_dump_item_pay_load_json [buffer_item "ab\ncd"] (dumper_of [0]) (some 0)).2
          (dumper_of [0]) (some 0)).1
        = some (.object [("payloadkind", .string "buffer"), ("payloadbuflen", .integer 5),
            ("payloadbuffer", .array [.string "ab"])]) :=
  ⟨by decide, by decide, by decide, rfl, rfl⟩

theorem is_dumped_of_pushes (hp : Heap) (du du1 : iacadumper_st) (new : List Nat)
    (h : scan_pushes hp du du1 new) (a : Nat) :
    is_dumped du1 a = true ↔ is_dumped du a = true ∨ a ∈ new := by
  rw [is_dumped_iff, is_dumped_iff, pushed_of_scan_pushes hp du du1 new h, List.mem_append]

theorem is_dumped_mono (hp : Heap) (du du1 : iacadumper_st) (new : List Nat)
    (h : scan_pushes hp du du1 new) (a : Nat) (ha : is_dumped du a = true) :
    is_dumped du1 a = true :=
  (is_dumped_of_pushes hp du du1 new h a).2 (Or.inl ha)

/-- An item that can be queued is never skipped, and is in the table after
`iaca_dump_queue_item`. -/
theorem queue_item_of_persistent (hp : Heap) (du : iacadumper_st) (a : Nat)
    (ha : is_persistent hp a = true) :
    (iaca_dump_queue_item hp du (some a)).1 = false
      ∧ is_dumped (iaca_dump_queue_item hp du (some a)).2 a = true := by
  unfold is_persistent at ha
  cases hit : hp[a]? with
  | none =>
    rw [hit] at ha
    exact absurd ha (by decide)
  | some it =>
    rw [hit] at ha
    simp only [Bool.and_eq_true, beq_iff_eq] at ha
    obtain ⟨dsp, hd⟩ := Option.isSome_iff_exists.1 ha.2
    have h := g_direct_lookup_isSome du.du_itemhtab a
    unfold iaca_dump_queue_item
    simp only [hit, ha.1, hd]
    cases hl : g_hash_table_lookup g_direct_hash g_direct_equal du.du_itemhtab a with
    | some v =>
      rw [hl] at h
      refine ⟨by simp, ?_⟩
      simp only [bne_self_eq_false, Bool.false_eq_true, if_false]
      unfold is_dumped
      rw [← h]
      rfl
    | none =>
      refine ⟨by simp, ?_⟩
      simp only [bne_self_eq_false, Bool.false_eq_true, if_false,
        g_hash_table_insert_fresh _ _ _ _ _ hl]
      simp [is_dumped]

theorem mem_sons_refs (hp : Heap) (l : List IacaValue) (a : Nat) :
    a ∈ sons_refs hp l ↔ ∃ v ∈ l, a ∈ value_refs hp v := by
  induction l with
  | nil => simp [sons_refs]
  | cons son rest ih =>
    unfold sons_refs
    rw [List.mem_append, ih]
    simp

/-- After a loop that applies a scanning routine to the elements of a list, what each
application puts in the table is in it. -/
theorem foldl_dumps {β : Type} (hp : Heap) (f : iacadumper_st → β → iacadumper_st)
    (hf : ∀ d b, ∃ new, scan_pushes hp d (f d b) new) (a : Nat)
    (good : β → Prop) (hgood : ∀ d b, good b → is_dumped (f d b) a = true) :
    ∀ (l : List β) (du : iacadumper_st), (∃ b ∈ l, good b) →
      is_dumped (l.foldl f du) a = true := by
  intro l
  induction l with
  | nil =>
    intro du h
    obtain ⟨b, hb, _⟩ := h
    exact absurd hb (List.not_mem_nil _)
  | cons b rest ih =>
    intro du h
    obtain ⟨b1, hb1, hg⟩ := h
    rw [List.foldl_cons]
    rcases List.mem_cons.1 hb1 with heq | hmem
    · subst heq
      obtain ⟨new, hn⟩ := foldl_pushes hp f hf rest (f du b1)
      exact is_dumped_mono hp _ _ new hn a (hgood du b1 hg)
    · exact ih (f du b) ⟨b1, hmem, hg⟩

mutual
theorem scan_value_dumps (hp : Heap) (a : Nat) (ha : is_persistent hp a = true) :
    ∀ (v : IacaValue) (du : iacadumper_st), a ∈ value_refs hp v →
      is_dumped (iaca_dump_scan_value hp du v) a = true
  | .null, _, h => by simp [value_refs] at h
  | .integer _, _, h => by simp [value_refs] at h
  | .string _, _, h => by simp [value_refs] at h
  | .node none sons, _, h => by simp [value_refs] at h
  | .node (some c) sons, du, h => by
    unfold value_refs at h
    dsimp only at h
    by_cases hc : is_persistent hp c = true
    · rw [if_pos hc] at h
      have hq := queue_item_of_persistent hp du c hc
      unfold iaca_dump_scan_value
      rw [hq.1]
      simp only [Bool.false_eq_true, if_false]
      rcases List.mem_cons.1 h with heq | hmem
      · subst heq
        obtain ⟨new, hn⟩ := scan_sons_pushes hp (iaca_dump_queue_item hp du (some a)).2 sons
        exact is_dumped_mono hp _ _ new hn a hq.2
      · exact scan_sons_dumps hp a ha sons _ hmem
    · rw [if_neg hc] at h
      rw [List.mem_singleton] at h
      subst h
      exact absurd ha hc
  | .set elems, du, h => by
    unfold value_refs at h
    unfold iaca_dump_scan_value
    apply foldl_dumps hp _ (fun d e => queue_item_pushes hp d e) a (fun e => e = some a)
    · intro d b hb
      subst hb
      exact (queue_item_of_persistent hp d a ha).2
    · refine ⟨some a, ?_, rfl⟩
      simpa using h
  | .item p, du, h => by
    unfold value_refs at h
    rw [List.mem_singleton] at h
    subst h
    unfold iaca_dump_scan_value
    exact (queue_item_of_persistent hp du a ha).2
theorem scan_sons_dumps (hp : Heap) (a : Nat) (ha : is_persistent hp a = true) :
    ∀ (sons : List IacaValue) (du : iacadumper_st), a ∈ sons_refs hp sons →
      is_dumped (iaca_dump_scan_sons hp du sons) a = true
  | [], _, h => by simp [sons_refs] at h
  | son :: rest, du, h => by
    unfold sons_refs at h
    unfold iaca_dump_scan_sons
    rcases List.mem_append.1 h with h1 | h1
    · exact scan_value_dumps hp a ha son _ h1
    · obtain ⟨new, hn⟩ := scan_value_pushes hp (iaca_dump_scan_sons hp du rest) son
      exact is_dumped_mono hp _ _ new hn a (scan_sons_dumps hp a ha rest du h1)
end

theorem scan_sons_eq_foldr (hp : Heap) (du : iacadumper_st) (sons : List IacaValue) :
    iaca_dump_scan_sons hp du sons
      = sons.foldr (fun son d => iaca_dump_scan_value hp d son) du := by
  induction sons with
  | nil => rfl
  | cons son rest ih =>
    rw [iaca_dump_scan_sons, ih]
    rfl

/-- The routine `iaca_dump_scan_item_content` scans the content, then the attributes, then
the payload. -/
theorem scan_item_content_parts (hp : Heap) (du : iacadumper_st) (a : Nat) (it : iacaitem_st)
    (hit : hp[a]? = some it) :
    iaca_dump_scan_item_content hp du (some a)
      = scan_item_payload hp it
          (scan_item_attributes hp it (iaca_dump_scan_value hp du it.v_itemcontent)) := by
  unfold iaca_dump_scan_item_content
  simp only [Option.bind, hit]
  rfl

theorem scan_item_attributes_pushes (hp : Heap) (it : iacaitem_st) (du : iacadumper_st) :
    ∃ new, scan_pushes hp du (scan_item_attributes hp it du) new := by
  unfold scan_item_attributes
  apply foldl_pushes
  intro d vattr
  dsimp only
  split
  · exact ⟨[], scan_pushes_refl hp d⟩
  · obtain ⟨m1, g1⟩ := queue_item_pushes hp d (some vattr)
    obtain ⟨m2, g2⟩ := scan_value_pushes hp (iaca_dump_queue_item hp d (some vattr)).2
      (iaca_item_attribute_physical_get it vattr)
    exact ⟨m1 ++ m2, scan_pushes_trans hp _ _ _ _ _ g1 g2⟩

theorem scan_item_payload_pushes (hp : Heap) (it : iacaitem_st) (du : iacadumper_st) :
    ∃ new, scan_pushes hp du (scan_item_payload hp it du) new := by
  have hv : ∀ d v, ∃ new, scan_pushes hp d (iaca_dump_scan_value hp d v) new :=
    fun d v => scan_value_pushes hp d v
  unfold scan_item_payload
  split
  · exact ⟨[], scan_pushes_refl hp du⟩
  · exact foldl_pushes hp (fun d v => iaca_dump_scan_value hp d v) hv _ _
  · exact ⟨[], scan_pushes_refl hp du⟩
  · exact foldl_pushes hp (fun d v => iaca_dump_scan_value hp d v) hv _ _
  · apply foldl_pushes
    intro d e
    dsimp only
    split
    · exact ⟨[], scan_pushes_refl hp d⟩
    · exact ⟨[], scan_pushes_refl hp d⟩
    · exact hv d _
  · split
    · split
      · exact foldl_pushes hp _ (fun d ix => hv d _) _ _
      · exact ⟨[], scan_pushes_refl hp du⟩
    · exact ⟨[], scan_pushes_refl hp du⟩

/-- After the scan of the payload, every item that its values give to the queuing routine and
that can be queued is in the table. -/
theorem scan_item_payload_dumps (hp : Heap) (it : iacaitem_st) (du : iacadumper_st) (x : Nat)
    (hx : is_persistent hp x = true) (hmem : x ∈ sons_refs hp (payload_values it.v_payload)) :
    is_dumped (scan_item_payload hp it du) x = true := by
  have hv : ∀ d v, ∃ new, scan_pushes hp d (iaca_dump_scan_value hp d v) new :=
    fun d v => scan_value_pushes hp d v
  rw [mem_sons_refs] at hmem
  obtain ⟨v, hv1, hv2⟩ := hmem
  unfold scan_item_payload
  unfold payload_values at hv1
  split
  · rename_i hpay
    rw [hpay] at hv1
    exact absurd hv1 (List.not_mem_nil _)
  · rename_i vec hpay
    rw [hpay] at hv1
    exact foldl_dumps hp (fun d v => iaca_dump_scan_value hp d v) hv x
      (fun v => x ∈ value_refs hp v) (fun d b hb => scan_value_dumps hp x hx b d hb)
      vec du ⟨v, hv1, hv2⟩
  · rename_i buf hpay
    rw [hpay] at hv1
    exact absurd hv1 (List.not_mem_nil _)
  · rename_i que hpay
    rw [hpay] at hv1
    exact foldl_dumps hp (fun d v => iaca_dump_scan_value hp d v) hv x
      (fun v => x ∈ value_refs hp v) (fun d b hb => scan_value_dumps hp x hx b d hb)
      (que.getD []) du ⟨v, hv1, hv2⟩
  · rename_i dic hpay
    rw [hpay] at hv1
    dsimp only at hv1
    rw [List.mem_filterMap] at hv1
    obtain ⟨e, he1, he2⟩ := hv1
    apply foldl_dumps hp _ _ x (fun e => e.de_str.isSome = true ∧ x ∈ value_refs hp e.de_val)
    · intro d b hb
      dsimp only
      split
      · rename_i hnone
        rw [hnone] at hb
        exact absurd hb.1 (by decide)
      · rename_i hnull _
        rw [hnull] at hb
        exact absurd hb.2 (by simp [value_refs])
      · exact scan_value_dumps hp x hx _ d hb.2
    · refine ⟨e, he1, ?_⟩
      by_cases hs : e.de_str.isSome = true
      · rw [if_pos hs] at he2
        injection he2 with he2
        subst he2
        exact ⟨hs, hv2⟩
      · rw [if_neg hs] at he2
        exact Option.noConfusion he2
    · intro d e
      dsimp only
      split
      · exact ⟨[], scan_pushes_refl hp d⟩
      · exact ⟨[], scan_pushes_refl hp d⟩
      · exact hv d _
  · rename_i clo hpay
    rw [hpay] at hv1
    dsimp only at hv1
    split
    · rename_i c
      split
      · rename_i cfun hfun
        simp only [hfun, List.mem_map] at hv1
        obtain ⟨ix, hix1, hix2⟩ := hv1
        subst hix2
        exact foldl_dumps hp (fun d ix => iaca_dump_scan_value hp d (c.clo_valtab.getD ix .null))
          (fun d ix => hv d _) x
          (fun ix => x ∈ value_refs hp (c.clo_valtab.getD ix .null))
          (fun d b hb => scan_value_dumps hp x hx _ d hb)
          (List.range cfun.cfun_nbval) du ⟨ix, hix1, hv2⟩
      · rename_i hfun
        simp only [hfun] at hv1
        exact absurd hv1 (List.not_mem_nil _)
    · exact absurd hv1 (List.not_mem_nil _)

/-- After the scan of an item, every item that its content and payload give to the queuing
routine and that can be queued is in the table. -/
theorem scan_item_content_dumps (hp : Heap) (du : iacadumper_st) (a : Nat) :
    refs_are_dumped hp (iaca_dump_scan_item_content hp du (some a)) a := by
  intro it hit x hx hpers
  rw [scan_item_content_parts hp du a it hit]
  unfold item_refs at hx
  rcases List.mem_append.1 hx with h | h
  · have h1 := scan_value_dumps hp x hpers it.v_itemcontent du h
    obtain ⟨n2, h2⟩ := scan_item_attributes_pushes hp it
      (iaca_dump_scan_value hp du it.v_itemcontent)
    obtain ⟨n3, h3⟩ := scan_item_payload_pushes hp it
      (scan_item_attributes hp it (iaca_dump_scan_value hp du it.v_itemcontent))
    exact is_dumped_mono hp _ _ n3 h3 x (is_dumped_mono hp _ _ n2 h2 x h1)
  · exact scan_item_payload_dumps hp it _ x hpers h

theorem refs_are_dumped_mono (hp : Heap) (du du1 : iacadumper_st) (new : List Nat)
    (h : scan_pushes hp du du1 new) (a : Nat) (ha : refs_are_dumped hp du a) :
    refs_are_dumped hp du1 a :=
  fun it hit x hx hpers => is_dumped_mono hp du du1 new h x (ha it hit x hx hpers)

/-- When the scanning loop returns, the items of the table have all been scanned, provided
those of the table at the start were in the queue or scanned already. -/
theorem scan_loop_closes (hp : Heap) (fuel : Nat) :
    ∀ du du1 : iacadumper_st, iaca_dump_scan_loop hp fuel du = some du1 →
      (∀ a, is_dumped du a = true → a ∈ du.du_scanqueue ∨ refs_are_dumped hp du a) →
      ∀ a, is_dumped du1 a = true → refs_are_dumped hp du1 a := by
  induction fuel with
  | zero =>
    intro du du1 hloop hinv a ha
    unfold iaca_dump_scan_loop at hloop
    split at hloop
    · rename_i hq
      injection hloop with hloop
      subst hloop
      rcases hinv a ha with h | h
      · rw [List.isEmpty_iff.1 hq] at h
        exact absurd h (List.not_mem_nil _)
      · exact h
    · exact Option.noConfusion hloop
  | succ fuel ih =>
    intro du du1 hloop hinv a ha
    cases hq : du.du_scanqueue with
    | nil =>
      simp only [iaca_dump_scan_loop, hq] at hloop
      injection hloop with hloop
      subst hloop
      rcases hinv a ha with h | h
      · rw [hq] at h
        exact absurd h (List.not_mem_nil _)
      · exact h
    | cons itm rest =>
      simp only [iaca_dump_scan_loop, hq] at hloop
      obtain ⟨new, hpush⟩ := scan_item_content_pushes hp
        { du with du_scanqueue := rest, du_curitem := some itm } (some itm)
      have hscan := scan_item_content_dumps hp
        { du with du_scanqueue := rest, du_curitem := some itm } itm
      refine ih _ du1 hloop ?_ a ha
      intro b hb
      have hb1 : is_dumped du b = true ∨ b ∈ new :=
        (is_dumped_of_pushes hp _ _ new hpush b).1 hb
      have hque := hpush.1
      dsimp only at hque ⊢
      rcases hb1 with h | h
      · rcases hinv b h with h1 | h1
        · rw [hq] at h1
          rcases List.mem_cons.1 h1 with h2 | h2
          · subst h2
            exact Or.inr hscan
          · left
            rw [hque]
            exact List.mem_append_left _ h2
        · right
          have h2 : refs_are_dumped hp
              { du with du_scanqueue := rest, du_curitem := some itm } b := h1
          exact refs_are_dumped_mono hp _ _ new hpush b h2
      · left
        rw [hque]
        exact List.mem_append_right _ h

/-- After the scan of `iaca_dump` from any root, with enough fuel, every item of the table has
been scanned. -/
theorem scan_from_root_closes (hp : Heap) (root : Option Nat) (fuel : Nat)
    (hfuel : hp.length ≤ fuel) :
    ∃ du1, iaca_dump_scan hp fuel root = some du1
      ∧ ∀ a, is_dumped du1 a = true → refs_are_dumped hp du1 a := by
  obtain ⟨du1, h1, _, _, _⟩ := scan_from_root hp root fuel hfuel
  refine ⟨du1, h1, scan_loop_closes hp fuel _ du1 h1 ?_⟩
  intro a ha
  left
  obtain ⟨new0, h0⟩ := queue_item_pushes hp dumper_new root
  have h2 := (is_dumped_of_pushes hp _ _ new0 h0 a).1 ha
  rcases h2 with h | h
  · exact absurd h (by simp [is_dumped, dumper_new])
  · rw [h0.1]
    exact List.mem_append_right _ h

theorem scan_dictionnary_eq_foldl (hp : Heap) (dic : List iacadictentry_st) :
    ∀ du : iacadumper_st,
      dic.foldl
          (fun d e =>
            match e.de_str, e.de_val with
            | none, _ => d
            | _, .null => d
            | some _, val => iaca_dump_scan_value hp d val)
          du
        = (dic.filterMap fun e => if e.de_str.isSome then some e.de_val else none).foldl
            (fun d v => iaca_dump_scan_value hp d v) du := by
  induction dic with
  | nil => intro du; rfl
  | cons e rest ih =>
    intro du
    obtain ⟨s, v⟩ := e
    cases s with
    | none =>
      simp only [List.foldl_cons, List.filterMap_cons]
      exact ih du
    | some nam =>
      cases v <;> simp only [List.foldl_cons, List.filterMap_cons, Option.isSome_some, if_true]
        <;> exact ih _

/-- The scan of the payload of an item is the scan of the values it holds, one after the
other. -/
theorem scan_item_payload_eq_foldl (hp : Heap) (it : iacaitem_st) (du : iacadumper_st) :
    scan_item_payload hp it du
      = (payload_values it.v_payload).foldl (fun d v => iaca_dump_scan_value hp d v) du := by
  unfold scan_item_payload payload_values
  split
  · rfl
  · rfl
  · rfl
  · rfl
  · exact scan_dictionnary_eq_foldl hp _ du
  · split
    · split
      · rw [List.foldl_map]
      · rfl
    · rfl

/-- C34 as stated fails on the code: in the node whose connective is the item 1 and whose
only son is a node of connective the item 2, which has no dataspace, the item 3 is
referenced at depth two; the inner node is skipped with its son, so the item 3, which has a
dataspace, is never given to `iaca_dump_queue_item` and is not in the table after the scan. -/
theorem C34_counterexample_nested_node :
    2 ∈ sons_items [.node (some 1) [.item 2]] ∧ is_persistent store_nested 2 = true
      ∧ iaca_dump_scan_value store_nested dumper_new (.node (some 0) [.node (some 1) [.item 2]])
        = ⟨[0], [(0, 0)], none⟩
      ∧ is_dumped (iaca_dump_scan_value store_nested dumper_new
          (.node (some 0) [.node (some 1) [.item 2]])) 2 = false :=
  ⟨by decide, by decide, by decide, by decide⟩

/-- Claim C34, with the nested nodes accounted for: `iaca_dump_scan_value` on a node gives the
connective to `iaca_dump_queue_item`; when that returns true the dumper is left as it is;
otherwise every son is scanned, from the last to the first, and a connective that can be
queued is never skipped. So every item referenced in the node outside any node whose
connective cannot be queued is in the table after the scan if it can be queued itself. -/
theorem C34_node_scan (hp : Heap) (du : iacadumper_st) (conn : Option Nat)
    (sons : List IacaValue) :
    ((iaca_dump_queue_item hp du conn).1 = true →
        iaca_dump_scan_value hp du (.node conn sons) = du)
      ∧ ((iaca_dump_queue_item hp du conn).1 = false →
        iaca_dump_scan_value hp du (.node conn sons)
          = sons.foldr (fun son d => iaca_dump_scan_value hp d son)
              (iaca_dump_queue_item hp du conn).2)
      ∧ (∀ c, conn = some c → is_persistent hp c = true →
          (iaca_dump_queue_item hp du conn).1 = false)
      ∧ ∀ a ∈ value_refs hp (.node conn sons), is_persistent hp a = true →
          is_dumped (iaca_dump_scan_value hp du (.node conn sons)) a = true := by
  refine ⟨?_, ?_, ?_, ?_⟩
  · intro h
    unfold iaca_dump_scan_value
    rw [h]
    rfl
  · intro h
    have h1 : iaca_dump_scan_value hp du (.node conn sons)
        = iaca_dump_scan_sons hp (iaca_dump_queue_item hp du conn).2 sons := by
      unfold iaca_dump_scan_value
      rw [h]
      rfl
    rw [h1, scan_sons_eq_foldr]
  · intro c hc hpers
    subst hc
    exact (queue_item_of_persistent hp du c hpers).1
  · intro a ha hpers
    exact scan_value_dumps hp a hpers _ du ha

/-- C34 at an instance: the scan of the node whose connective is the item 1 and whose sons are
a reference to the item 3 and a node of connective the item 2 puts the items 1 and 3 in the
table. -/
theorem C34_witness :
    iaca_dump_scan_value store_nested dumper_new
        (.node (some 0) [.item 2, .node (some 1) [.item 2]])
        = ⟨[0, 2], [(0, 0), (2, 2)], none⟩
      ∧ ∀ a ∈ value_refs store_nested (.node (some 0) [.item 2, .node (some 1) [.item 2]]),
          is_persistent store_nested a = true →
          is_dumped (iaca_dump_scan_value store_nested dumper_new
            (.node (some 0) [.item 2, .node (some 1) [.item 2]])) a = true :=
  ⟨by decide,
    (C34_node_scan store_nested dumper_new (some 0) [.item 2, .node (some 1) [.item 2]]).2.2.2⟩

/-- C35 as stated fails on the code: the item 1, which is dumped, has as content a node whose
connective, the item 2, has no dataspace; the item 3 referenced by the son of that node has a
dataspace and is not in the table after the scan from the item 1. -/
theorem C35_counterexample_skipped_node :
    2 ∈ value_items (.node (some 1) [.item 2]) ∧ is_persistent store_nested_content 2 = true
      ∧ iaca_dump_scan store_nested_content 3 (some 0) = some ⟨[], [(0, 0)], none⟩ :=
  ⟨by decide, by decide, by decide⟩

/-- Claim C35, with the skipped nodes accounted for: `iaca_dump_scan_item_content` scans the
content of the item, then its attributes, then each value held by its payload with
`iaca_dump_scan_value`; a buffer payload or no payload holds no value. After the scan of
`iaca_dump` from any root, with enough fuel, every item that can be queued and that the
content or the payload of an item of the table refers to, outside any node whose connective
cannot be queued, is in the table. -/
theorem C35_content_and_payload_are_scanned (hp : Heap) (root : Option Nat) (fuel : Nat)
    (hfuel : hp.length ≤ fuel) :
    (∀ (du : iacadumper_st) (a : Nat) (it : iacaitem_st), hp[a]? = some it →
        iaca_dump_scan_item_content hp du (some a)
            = (payload_values it.v_payload).foldl (fun d v => iaca_dump_scan_value hp d v)
                (scan_item_attributes hp it (iaca_dump_scan_value hp du it.v_itemcontent))
          ∧ ∀ x ∈ item_refs hp it, is_persistent hp x = true →
              is_dumped (iaca_dump_scan_item_content hp du (some a)) x = true)
      ∧ (∃ du1, iaca_dump_scan hp fuel root = some du1
          ∧ ∀ a it, is_dumped du1 a = true → hp[a]? = some it →
              ∀ x ∈ item_refs hp it, is_persistent hp x = true → is_dumped du1 x = true)
      ∧ ∀ it : iacaitem_st,
          (it.v_payload = .IACAPAYLOAD__NONE ∨ ∃ buf, it.v_payload = .IACAPAYLOAD_BUFFER buf) →
          payload_values it.v_payload = [] := by
  refine ⟨?_, ?_, ?_⟩
  · intro du a it hit
    refine ⟨?_, fun x hx hpers => scan_item_content_dumps hp du a it hit x hx hpers⟩
    rw [scan_item_content_parts hp du a it hit, scan_item_payload_eq_foldl]
  · obtain ⟨du1, h1, h2⟩ := scan_from_root_closes hp root fuel hfuel
    exact ⟨du1, h1, fun a it ha hit x hx hpers => h2 a ha it hit x hx hpers⟩
  · intro it h
    rcases h with h | ⟨buf, h⟩
    · rw [h]
      rfl
    · rw [h]
      rfl

/-- C35 at an instance: the scan from the item 1, whose vector payload holds a reference to
the item 2 and a set of element the item 3, ends with the three items in the table. -/
theorem C35_witness :
    iaca_dump_scan store_vector 3 (some 0) = some ⟨[], [(0, 0), (1, 1), (2, 2)], none⟩
      ∧ ∃ du1, iaca_dump_scan store_vector 3 (some 0) = some du1
          ∧ ∀ a it, is_dumped du1 a = true → store_vector[a]? = some it →
              ∀ x ∈ item_refs store_vector it, is_persistent store_vector x = true →
                is_dumped du1 x = true :=
  ⟨by decide, (C35_content_and_payload_are_scanned store_vector (some 0) 3 (by decide)).2.1⟩

theorem mem_elems_ids (l : List json_t) (id : Int) :
    id ∈ elems_ids l ↔ ∃ e ∈ l, id ∈ json_ids e := by
  induction l with
  | nil => simp [elems_ids]
  | cons e rest ih =>
    rw [elems_ids, List.mem_append, ih]
    simp

theorem mem_members_ids (m : List (String × json_t)) (id : Int) :
    id ∈ members_ids m ↔ ∃ kv ∈ m, id ∈ key_ids kv.1 kv.2 ∨ id ∈ json_ids kv.2 := by
  induction m with
  | nil => simp [members_ids]
  | cons kv rest ih =>
    obtain ⟨k, v⟩ := kv
    rw [members_ids, List.mem_append, List.mem_append, ih]
    simp

theorem mem_members_set (key : String) (value : json_t) (m : List (String × json_t))
    (kv : String × json_t) (h : kv ∈ members_set key value m) :
    kv ∈ m ∨ kv = (key, value) := by
  induction m with
  | nil =>
    simp only [members_set, List.mem_singleton] at h
    exact Or.inr h
  | cons x rest ih =>
    simp only [members_set] at h
    split at h
    · rcases List.mem_cons.1 h with h1 | h1
      · exact Or.inr h1
      · exact Or.inl (List.mem_cons_of_mem _ h1)
    · rcases List.mem_cons.1 h with h1 | h1
      · exact Or.inl (h1 ▸ List.mem_cons_self _ _)
      · rcases ih h1 with h2 | h2
        · exact Or.inl (List.mem_cons_of_mem _ h2)
        · exact Or.inr h2

/-- The identities of an object after `json_object_set` are those it had or those of the
member set. -/
theorem mem_ids_object_set (js : json_t) (key : String) (value : json_t) (id : Int)
    (h : id ∈ json_ids (json_object_set js key (some value))) :
    id ∈ json_ids js ∨ id ∈ key_ids key value ∨ id ∈ json_ids value := by
  cases js with
  | object m =>
    simp only [json_object_set, json_ids] at h
    rw [mem_members_ids] at h
    obtain ⟨kv, hkv, hid⟩ := h
    rcases mem_members_set key value m kv hkv with h1 | h1
    · left
      rw [json_ids, mem_members_ids]
      exact ⟨kv, h1, hid⟩
    · subst h1
      exact Or.inr hid
  | array e => exact Or.inl h
  | string s => exact Or.inl h
  | integer n => exact Or.inl h
  | real => exact Or.inl h
  | jtrue => exact Or.inl h
  | jfalse => exact Or.inl h
  | null => exact Or.inl h

/-- The identities of an object built member after member are those of its members. -/
theorem mem_ids_object_of (members : List (String × json_t)) (id : Int)
    (h : id ∈ json_ids (json_object_of members)) :
    ∃ kv ∈ members, id ∈ key_ids kv.1 kv.2 ∨ id ∈ json_ids kv.2 := by
  have hgen : ∀ (l : List (String × json_t)) (js : json_t),
      id ∈ json_ids (l.foldl (fun js kv => json_object_set js kv.1 (some kv.2)) js) →
      id ∈ json_ids js ∨ ∃ kv ∈ l, id ∈ key_ids kv.1 kv.2 ∨ id ∈ json_ids kv.2 := by
    intro l
    induction l with
    | nil =>
      intro js hj
      exact Or.inl hj
    | cons kv rest ih =>
      intro js hj
      rw [List.foldl_cons] at hj
      rcases ih _ hj with h1 | ⟨kv1, h1, h2⟩
      · rcases mem_ids_object_set js kv.1 kv.2 id h1 with h3 | h3
        · exact Or.inl h3
        · exact Or.inr ⟨kv, List.mem_cons_self _ _, h3⟩
      · exact Or.inr ⟨kv1, List.mem_cons_of_mem _ h1, h2⟩
  rcases hgen members (.object []) h with h1 | h1
  · simp [json_ids, members_ids] at h1
  · exact h1

/-- The dump of a value is the JSON null or an object. -/
theorem dump_value_json_shape (hp : Heap) (du : iacadumper_st) (v : IacaValue) :
    iaca_dump_value_json hp du v = .null
      ∨ ∃ m, iaca_dump_value_json hp du v = .object m := by
  cases v with
  | null => exact Or.inl (by rw [iaca_dump_value_json])
  | integer n => exact Or.inr ⟨_, by rw [iaca_dump_value_json]; rfl⟩
  | string s => exact Or.inr ⟨_, by rw [iaca_dump_value_json]; rfl⟩
  | node conn sons =>
    rw [dump_node_json]
    split
    · exact Or.inl rfl
    · exact Or.inr ⟨_, rfl⟩
  | set elems => exact Or.inr ⟨_, by rw [iaca_dump_value_json]; rfl⟩
  | item p =>
    rw [iaca_dump_value_json]
    split
    · exact Or.inl rfl
    · exact Or.inr ⟨_, rfl⟩

theorem key_ids_dump_value (hp : Heap) (du : iacadumper_st) (k : String) (v : IacaValue) :
    key_ids k (iaca_dump_value_json hp du v) = [] := by
  rcases dump_value_json_shape hp du v with h | ⟨m, h⟩ <;> rw [h] <;>
    simp [key_ids, json_int_list, json_array_ints]

theorem not_transient_is_dumped (du : iacadumper_st) (itm : Option Nat)
    (h : ¬ iaca_dump_item_is_transient du itm = true) :
    ∃ a, itm = some a ∧ is_dumped du a = true := by
  cases itm with
  | none => exact absurd rfl h
  | some a =>
    refine ⟨a, rfl, ?_⟩
    rw [is_transient_some] at h
    simpa using h

theorem mem_ids_node_json (i : Int) (l : List json_t) (id : Int) :
    id ∈ json_ids
        (json_object_set
          (json_object_set (json_object_set (.object []) "kd" (some (.string "nodv")))
            "conid" (some (.integer i)))
          "sons" (some (.array l)))
      ↔ id = i ∨ id ∈ elems_ids l := by
  simp [json_object_set, members_set, json_ids, members_ids, key_ids, is_id_key,
    json_int_list, json_array_ints]

theorem mem_ids_set_json (l : List json_t) (id : Int) :
    id ∈ json_ids
        (json_object_set (json_object_set (.object []) "kd" (some (.string "setv")))
          "elemids" (some (.array l)))
      ↔ id ∈ json_array_ints (.array l) ∨ id ∈ elems_ids l := by
  simp [json_object_set, members_set, json_ids, members_ids, key_ids, is_id_key,
    json_int_list]

theorem mem_ids_item_json (i : Int) (id : Int) :
    id ∈ json_ids
        (json_object_set (json_object_set (.object []) "kd" (some (.string "itrv")))
          "id" (some (.integer i)))
      ↔ id = i := by
  simp [json_object_set, members_set, json_ids, members_ids, key_ids, is_id_key,
    json_int_list, json_array_ints]

mutual
theorem value_json_ids (hp : Heap) (du : iacadumper_st) :
    ∀ (v : IacaValue) (id : Int), id ∈ json_ids (iaca_dump_value_json hp du v) →
      is_dumped_id hp du id
  | .null, id, h => by
    rw [iaca_dump_value_json] at h
    simp [json_ids] at h
  | .integer n, id, h => by
    rw [iaca_dump_value_json] at h
    simp [json_object_set, members_set, json_ids, members_ids, key_ids, is_id_key,
      json_int_list, json_array_ints] at h
  | .string s, id, h => by
    rw [iaca_dump_value_json] at h
    simp [json_object_set, members_set, json_ids, members_ids, key_ids, is_id_key,
      json_int_list, json_array_ints] at h
  | .node conn sons, id, h => by
    rw [iaca_dump_value_json] at h
    split at h
    · simp [json_ids] at h
    · rename_i ht
      obtain ⟨c, hc, hd⟩ := not_transient_is_dumped du conn ht
      rw [mem_ids_node_json] at h
      rcases h with h1 | h1
      · subst hc
        exact ⟨c, hd, h1.symm⟩
      · exact sons_json_ids hp du sons id h1
  | .set elems, id, h => by
    rw [iaca_dump_value_json, mem_ids_set_json] at h
    rcases h with h1 | h1
    · simp only [json_array_ints, List.mem_filterMap] at h1
      obtain ⟨e, he1, he2⟩ := h1
      obtain ⟨curitm, _, hcur⟩ := he1
      split at hcur
      · exact Option.noConfusion hcur
      · rename_i ht
        obtain ⟨c, hc, hd⟩ := not_transient_is_dumped du curitm ht
        injection hcur with hcur
        subst hcur
        subst hc
        simp only [Option.some.injEq] at he2
        exact ⟨c, hd, he2⟩
    · rw [mem_elems_ids] at h1
      obtain ⟨e, he1, he2⟩ := h1
      rw [List.mem_filterMap] at he1
      obtain ⟨curitm, _, hcur⟩ := he1
      split at hcur
      · exact Option.noConfusion hcur
      · injection hcur with hcur
        subst hcur
        simp [json_ids] at he2
  | .item p, id, h => by
    rw [iaca_dump_value_json] at h
    split at h
    · simp [json_ids] at h
    · rename_i ht
      obtain ⟨c, hc, hd⟩ := not_transient_is_dumped du (some p) ht
      injection hc with hc
      subst hc
      rw [mem_ids_item_json] at h
      exact ⟨p, hd, h.symm⟩
theorem sons_json_ids (hp : Heap) (du : iacadumper_st) :
    ∀ (sons : List IacaValue) (id : Int), id ∈ elems_ids (iaca_dump_sons_json hp du sons) →
      is_dumped_id hp du id
  | [], id, h => by
    rw [iaca_dump_sons_json] at h
    simp [elems_ids] at h
  | son :: rest, id, h => by
    rw [iaca_dump_sons_json, elems_ids, List.mem_append] at h
    rcases h with h1 | h1
    · exact value_json_ids hp du son id h1
    · exact sons_json_ids hp du rest id h1
end

/-- The identities in an array of dumped values are those of items of the table. -/
theorem values_json_ids {β : Type} (hp : Heap) (du : iacadumper_st) (l : List β)
    (f : β → IacaValue) (id : Int)
    (h : id ∈ json_ids (.array (l.map fun b => iaca_dump_value_json hp du (f b)))) :
    is_dumped_id hp du id := by
  rw [json_ids, mem_elems_ids] at h
  obtain ⟨e, he1, he2⟩ := h
  rw [List.mem_map] at he1
  obtain ⟨b, _, hb⟩ := he1
  subst hb
  exact value_json_ids hp du (f b) id he2

theorem dump_buffer_loop_ids (fuel : Nat) :
    ∀ (s : List Char) (id : Int), id ∉ elems_ids (dump_buffer_loop fuel s).1 := by
  induction fuel with
  | zero =>
    intro s id h
    simp [dump_buffer_loop, elems_ids] at h
  | succ fuel ih =>
    intro s id h
    unfold dump_buffer_loop at h
    split at h
    · dsimp only at h
      rw [elems_ids, List.mem_append] at h
      rcases h with h1 | h1
      · simp [json_ids] at h1
      · exact ih _ id h1
    · simp [elems_ids, json_ids] at h

theorem dictionnary_json_ids (hp : Heap) (du : iacadumper_st) (id : Int)
    (dic : List iacadictentry_st) :
    ∀ js : json_t,
      id ∈ json_ids (dic.foldl
        (fun js e =>
          match e.de_str, e.de_val with
          | none, _ => js
          | _, .null => js
          | some nam, val => json_object_set js nam (some (iaca_dump_value_json hp du val)))
        js) →
      id ∈ json_ids js ∨ is_dumped_id hp du id := by
  induction dic with
  | nil =>
    intro js h
    exact Or.inl h
  | cons e rest ih =>
    intro js h
    rw [List.foldl_cons] at h
    rcases ih _ h with h1 | h1
    · split at h1
      · exact Or.inl h1
      · exact Or.inl h1
      · rcases mem_ids_object_set _ _ _ id h1 with h2 | h2 | h2
        · exact Or.inl h2
        · rw [key_ids_dump_value] at h2
          exact absurd h2 (List.not_mem_nil _)
        · exact Or.inr (value_json_ids hp du _ id h2)
    · exact Or.inr h1

/-- The identities in the JSON of a payload are those of items of the table. -/
theorem pay_load_json_ids (hp : Heap) (du : iacadumper_st) (itm : Option Nat) (js : json_t)
    (h : (iaca_dump_item_pay_load_json hp du itm).1 = some js) (id : Int)
    (hid : id ∈ json_ids js) : is_dumped_id hp du id := by
  unfold iaca_dump_item_pay_load_json at h
  split at h
  · exact Option.noConfusion h
  · split at h
    · exact Option.noConfusion h
    · split at h
      · simp only [Option.some.injEq] at h
        subst h
        simp [json_ids] at hid
      · simp only [Option.some.injEq] at h
        subst h
        obtain ⟨kv, hkv, hor⟩ := mem_ids_object_of _ id hid
        simp only [List.mem_cons, List.mem_singleton, List.not_mem_nil, or_false] at hkv
        rcases hkv with rfl | rfl
        · simp [key_ids, is_id_key, json_int_list, json_array_ints, json_ids] at hor
        · rcases hor with h1 | h1
          · simp [key_ids, is_id_key] at h1
          · rename_i vec _
            exact values_json_ids hp du vec (fun v => v) id h1
      · simp only [Option.some.injEq] at h
        subst h
        obtain ⟨kv, hkv, hor⟩ := mem_ids_object_of _ id hid
        simp only [List.mem_cons, List.mem_singleton, List.not_mem_nil, or_false] at hkv
        rcases hkv with rfl | rfl | rfl <;>
          simp [key_ids, is_id_key, json_int_list, json_array_ints, json_ids, elems_ids] at hor
      · simp only [Option.some.injEq] at h
        subst h
        obtain ⟨kv, hkv, hor⟩ := mem_ids_object_of _ id hid
        simp only [List.mem_cons, List.mem_singleton, List.not_mem_nil, or_false] at hkv
        rcases hkv with rfl | rfl | rfl
        · simp [key_ids, is_id_key, json_int_list, json_array_ints, json_ids] at hor
        · simp [key_ids, is_id_key, json_int_list, json_array_ints, json_ids] at hor
        · rcases hor with h1 | h1
          · simp [key_ids, is_id_key] at h1
          · rw [json_ids] at h1
            exact absurd h1 (dump_buffer_loop_ids _ _ id)
      · simp only [Option.some.injEq] at h
        subst h
        obtain ⟨kv, hkv, hor⟩ := mem_ids_object_of _ id hid
        simp only [List.mem_cons, List.mem_singleton, List.not_mem_nil, or_false] at hkv
        rcases hkv with rfl | rfl
        · simp [key_ids, is_id_key, json_int_list, json_array_ints, json_ids] at hor
        · rcases hor with h1 | h1
          · simp [key_ids, is_id_key] at h1
          · rename_i que _
            exact values_json_ids hp du (que.getD []) (fun v => v) id h1
      · simp only [Option.some.injEq] at h
        subst h
        obtain ⟨kv, hkv, hor⟩ := mem_ids_object_of _ id hid
        simp only [List.mem_cons, List.mem_singleton, List.not_mem_nil, or_false] at hkv
        rcases hkv with rfl | rfl | rfl
        · simp [key_ids, is_id_key, json_int_list, json_array_ints, json_ids] at hor
        · simp [key_ids, is_id_key, json_int_list, json_array_ints, json_ids] at hor
        · rcases hor with h1 | h1
          · simp [key_ids, is_id_key] at h1
          · rcases dictionnary_json_ids hp du id _ (.object []) h1 with h2 | h2
            · simp [json_ids, members_ids] at h2
            · exact h2
      · simp only [Option.some.injEq] at h
        subst h
        simp [json_ids] at hid
      · rename_i clo _
        split at h
        · simp only [Option.some.injEq] at h
          subst h
          simp [json_ids] at hid
        · rename_i cfun _
          simp only [Option.some.injEq] at h
          subst h
          obtain ⟨kv, hkv, hor⟩ := mem_ids_object_of _ id hid
          simp only [List.mem_cons, List.mem_singleton, List.not_mem_nil, or_false] at hkv
          rcases hkv with rfl | rfl | rfl
          · simp [key_ids, is_id_key, json_int_list, json_array_ints, json_ids] at hor
          · simp [key_ids, is_id_key, json_int_list, json_array_ints, json_ids] at hor
          · rcases hor with h1 | h1
            · simp [key_ids, is_id_key] at h1
            · exact values_json_ids hp du (List.range cfun.cfun_nbval)
                (fun ix => clo.clo_valtab.getD ix .null) id h1

theorem attr_entry_ids (hp : Heap) (du : iacadumper_st) (vitat : Nat) (atval : IacaValue)
    (hd : is_dumped du vitat = true) (id : Int)
    (h : id ∈ json_ids (dump_attr_entry hp du vitat atval)) : is_dumped_id hp du id := by
  unfold dump_attr_entry at h
  obtain ⟨kv, hkv, hor⟩ := mem_ids_object_of _ id h
  simp only [List.mem_cons, List.mem_singleton, List.not_mem_nil, or_false] at hkv
  rcases hkv with rfl | rfl
  · simp [key_ids, is_id_key, json_int_list, json_array_ints, json_ids] at hor
    exact ⟨vitat, hd, hor.symm⟩
  · rcases hor with h1 | h1
    · rw [key_ids_dump_value] at h1
      exact absurd h1 (List.not_mem_nil _)
    · exact value_json_ids hp du atval id h1

/-- The identities in the record of an item are those of items of the table. -/
theorem item_content_json_ids (hp : Heap) (du : iacadumper_st) (itm : Option Nat) (id : Int)
    (h : id ∈ json_ids (iaca_dump_item_content_json hp du itm).1) : is_dumped_id hp du id := by
  unfold iaca_dump_item_content_json at h
  split at h
  · simp [json_ids] at h
  · rename_i ht
    obtain ⟨a, ha, hd⟩ := not_transient_is_dumped du itm ht
    subst ha
    cases hit : hp[a]? with
    | none =>
      simp [Option.bind, hit, json_ids] at h
    | some it =>
      simp only [Option.bind, hit] at h
      have hrest : id ∈ json_ids (json_object_of
          [("item", .integer it.v_ident), ("itemattrs", .array (dump_item_attrs hp du it)),
           ("itemcontent", iaca_dump_value_json hp du it.v_itemcontent)])
          → is_dumped_id hp du id := by
        intro h1
        obtain ⟨kv, hkv, hor⟩ := mem_ids_object_of _ id h1
        simp only [List.mem_cons, List.mem_singleton, List.not_mem_nil, or_false] at hkv
        rcases hkv with rfl | rfl | rfl
        · simp [key_ids, is_id_key, json_int_list, json_array_ints, json_ids] at hor
          refine ⟨a, hd, ?_⟩
          unfold Heap.ident
          rw [hit, hor]
        · rcases hor with h2 | h2
          · simp [key_ids, is_id_key] at h2
          · rw [json_ids, mem_elems_ids] at h2
            obtain ⟨e, he1, he2⟩ := h2
            unfold dump_item_attrs at he1
            rw [List.mem_filterMap] at he1
            obtain ⟨vitat, _, hv⟩ := he1
            split at hv
            · exact Option.noConfusion hv
            · rename_i htr
              obtain ⟨c, hc, hdc⟩ := not_transient_is_dumped du (some vitat) htr
              injection hc with hc
              subst hc
              split at hv
              · exact Option.noConfusion hv
              · split at hv
                · exact Option.noConfusion hv
                · injection hv with hv
                  subst hv
                  exact attr_entry_ids hp du vitat _ hdc id he2
        · rcases hor with h2 | h2
          · rw [key_ids_dump_value] at h2
            exact absurd h2 (List.not_mem_nil _)
          · exact value_json_ids hp du _ id h2
      cases hpay : (iaca_dump_item_pay_load_json hp du (some a)).1 with
      | none =>
        rw [hpay] at h
        exact hrest h
      | some js =>
        rw [hpay] at h
        rcases mem_ids_object_set _ _ _ id h with h1 | h1 | h1
        · exact hrest h1
        · have hshape : key_ids "itempayload" js = [] := by
            unfold key_ids is_id_key
            simp
          rw [hshape] at h1
          exact absurd h1 (List.not_mem_nil _)
        · exact pay_load_json_ids hp du (some a) js hpay id h1

/-- Claim C38: every identity that appears in the JSON made by `iaca_dump_value_json`, by
`iaca_dump_item_pay_load_json` or by `iaca_dump_item_content_json`, as `conid`, inside
`elemids`, as `id`, as `atid` or as `item`, is the identity of an item recorded in the table
of the dumper. -/
theorem C38_dumped_ids_are_of_the_table (hp : Heap) (du : iacadumper_st) :
    (∀ (v : IacaValue), ∀ id ∈ json_ids (iaca_dump_value_json hp du v),
        ∃ a, is_dumped du a = true ∧ hp.ident a = id)
      ∧ (∀ (itm : Option Nat) (js : json_t),
          (iaca_dump_item_pay_load_json hp du itm).1 = some js →
          ∀ id ∈ json_ids js, ∃ a, is_dumped du a = true ∧ hp.ident a = id)
      ∧ ∀ (itm : Option Nat), ∀ id ∈ json_ids (iaca_dump_item_content_json hp du itm).1,
          ∃ a, is_dumped du a = true ∧ hp.ident a = id :=
  ⟨fun v id h => value_json_ids hp du v id h,
    fun itm js h id hid => pay_load_json_ids hp du itm js h id hid,
    fun itm id h => item_content_json_ids hp du itm id h⟩

/-- C38 at an instance: the record of the item 5, dumped with the item 6, names the
identities 5 and 6 only, though its attribute and its content refer to the item 7. -/
theorem C38_witness :
    json_ids (iaca_dump_item_content_json store_references (dumper_of [0, 1]) (some 0)).1
        = [5, 6, 5, 6, 5, 6, 6]
      ∧ ∀ id ∈ json_ids
            (iaca_dump_item_content_json store_references (dumper_of [0, 1]) (some 0)).1,
          ∃ a, is_dumped (dumper_of [0, 1]) a = true ∧ store_references.ident a = id :=
  ⟨by decide, (C38_dumped_ids_are_of_the_table store_references (dumper_of [0, 1])).2.2 (some 0)⟩

/-- C13 fails on the code: after the call for the identity 5 on a new loader, the table holds
the item 5 alone, so the identity 1073741944 is absent from it; yet the call for 1073741944
creates nothing: it returns the item 5 and leaves the state as it was. Both identities have
the same `iaca_item_ghash` and `iaca_item_gheq` is always true. The same happens with the
identities 1 and 2, whose hashes 1 and 2 are both stored by GLib as 2. -/
theorem C13_absent_id_creates_nothing :
    ((table_of (iaca_retrieve_loaded_item load_state_new 5).2).map fun e => e.1.v_ident) = [5]
      ∧ (iaca_retrieve_loaded_item (iaca_retrieve_loaded_item load_state_new 5).2
          1073741944).1 = some 0
      ∧ (iaca_retrieve_loaded_item (iaca_retrieve_loaded_item load_state_new 5).2
          1073741944).2 = (iaca_retrieve_loaded_item load_state_new 5).2
      ∧ (iaca_retrieve_loaded_item load_state_new 5).2.heap.ident 0 = 5
      ∧ (iaca_retrieve_loaded_item load_state_new 5).2.heap.length = 1
      ∧ ((table_of (iaca_retrieve_loaded_item load_state_new 1).2).map fun e => e.1.v_ident)
        = [1]
      ∧ (iaca_retrieve_loaded_item (iaca_retrieve_loaded_item load_state_new 1).2 2).1 = some 0
      ∧ (iaca_retrieve_loaded_item (iaca_retrieve_loaded_item load_state_new 1).2 2).2
        = (iaca_retrieve_loaded_item load_state_new 1).2
      ∧ (iaca_retrieve_loaded_item load_state_new 1).2.heap.ident 0 = 1 :=
  ⟨rfl, rfl, rfl, rfl, rfl, rfl, rfl, rfl, rfl⟩

/-- In a loader whose table items all have a dataspace, `iaca_load_data` never returns
normally from a data file that holds a record: the first record raises an error. -/
theorem iaca_load_data_never_ok (st : LoadState) (root : Option json_t) (spacename : String)
    (r : json_t) (rs : List json_t) (hinv : table_items_have_dataspace st = true)
    (hcont : json_object_get root "itemcont" = some (.array (r :: rs))) :
    (iaca_load_data st root spacename).is_ok = false := by
  have hnot := load_item_content_never_ok_in_dataspace
    { st with ld := { st.ld with ld_dataspace := some (iaca_dataspace spacename) } } (some r)
    (iaca_dataspace spacename) rfl hinv
  unfold iaca_load_data
  dsimp only
  split
  · rfl
  · split
    · rfl
    · split
      · rfl
      · split
        · rfl
        · split
          · rfl
          · rw [hcont]
            simp only [json_array_elems, load_records]
            cases hc : iaca_load_item_content
                { st with ld := { st.ld with ld_dataspace := some (iaca_dataspace spacename) } }
                (some r) with
            | ok v st1 =>
              cases v
              exact absurd hc (hnot st1)
            | json_error st1 => rfl
            | fatal msg st1 => rfl

/-- C26 fails on the code in its second half: from the data file of version "2011A" holding
the record of the item 42, and from the one holding the records of the items 42 and 43,
`iaca_load_data` does not load the records one by one: the first record raises the JSON
error `loaded item #%lld has dataspace %s`, and the record of the item 43 is never read (the
heap holds the item 42 alone). Only a data file without record is loaded. -/
theorem C26_first_record_stops_the_load :
    (∃ st, iaca_load_data load_state_new (some root_42) "s" = .json_error st
        ∧ st.ld.ld_errstr = some "loaded item #%lld has dataspace %s")
      ∧ (∃ st, iaca_load_data load_state_new (some root_42_43) "s" = .json_error st
        ∧ st.ld.ld_errstr = some "loaded item #%lld has dataspace %s"
        ∧ st.heap.length = 1 ∧ st.heap.ident 0 = 42)
      ∧ (iaca_load_data load_state_new (some root_empty) "s").is_ok = true :=
  ⟨⟨_, rfl, rfl⟩, ⟨_, rfl, rfl, rfl, rfl⟩, rfl⟩

end IaCa
